import Mathlib

/-!
# Cadence GEM transmit descriptor ring, DMA pool, and FPGA bitstream reader

A shallow embedding of

* `src/drivers/nic/cadence_gem/tx_buffer_descriptor.h` (`Tx_buffer_descriptor`),
* `src/driver/nic/cadence_gem/dma_pool.h` (`Dma_pool_base`),
* `src/driver/fpga/bitstream.h` (`Fpga::Bitstream`),

followed by theorems about them.

Conventions.

* Machine integers are natural numbers. `uint32_t` values are reduced modulo
  `2 ^ 32`; `addr_t`, `size_t` and `off_t` values are reduced modulo `2 ^ w`,
  where `w` is the machine word width (32 on the Cortex-A9 boards of this
  repository). An `off_t` is represented by its bit pattern.
* The descriptor memory is a list of descriptors; its length is the slot
  count of the ring.
* Calls into collaborators (packet sink, timer, cache maintenance, log
  output) are recorded in a trace carried by the ring state.
-/

namespace Genode

/-- A bit range `Bitfield<SHIFT, WIDTH>` of a 32-bit register
(`Register<_, 32>` of Genode's `util/register.h`). -/
structure Bitfield where
  SHIFT : Nat
  WIDTH : Nat
deriving DecidableEq, Repr

namespace Bitfield

/-- Unshifted mask: `(1 << WIDTH) - 1`. -/
def mask (b : Bitfield) : Nat := 2 ^ b.WIDTH - 1

/-- Mask of the bit range inside the register: `mask() << SHIFT`. -/
def reg_mask (b : Bitfield) : Nat := (b.mask <<< b.SHIFT) % 2 ^ 32

/-- Complement of `reg_mask` as a `uint32_t`: `~reg_mask()`. -/
def clear_mask (b : Bitfield) : Nat := 2 ^ 32 - 1 - b.reg_mask

/-- Register value with the bit range set to `value`: `(value & mask()) << SHIFT`. -/
def bits (b : Bitfield) (value : Nat) : Nat := ((value &&& b.mask) <<< b.SHIFT) % 2 ^ 32

/-- Value of the bit range in `reg`: `(reg >> SHIFT) & mask()`. -/
def get (b : Bitfield) (reg : Nat) : Nat := (reg >>> b.SHIFT) &&& b.mask

end Bitfield

/-- The `(offset, size)` pair of `os/packet_stream.h`; `(0, 0)` is the invalid
descriptor. The offset is the bit pattern of the `off_t`. -/
structure Packet_descriptor where
  offset : Nat
  size : Nat
deriving DecidableEq, Repr

/-- Addition of two machine words of `w` bits. -/
def wrap_add (w a b : Nat) : Nat := (a + b) % 2 ^ w

/-- Subtraction of two machine words of `w` bits. -/
def wrap_sub (w a b : Nat) : Nat := (a % 2 ^ w + (2 ^ w - b % 2 ^ w)) % 2 ^ w

end Genode

namespace Cadence_gem

open Genode

/-! ## `dma_pool.h` -/

/-- The members of `Dma_pool_base`. -/
structure Dma_pool_base where
  _dma_base_addr : Nat
  _size : Nat
deriving DecidableEq, Repr

namespace Dma_pool_base

/-- `dma_addr(p)`: `_dma_base_addr + p.offset()`. -/
def dma_addr (w : Nat) (pool : Dma_pool_base) (p : Packet_descriptor) : Nat :=
  wrap_add w pool._dma_base_addr p.offset

/-- `packet_descriptor(dma_addr, len)`. -/
def packet_descriptor (w : Nat) (pool : Dma_pool_base) (dma_addr len : Nat) :
    Packet_descriptor :=
  if dma_addr < pool._dma_base_addr ∨
      wrap_add w dma_addr len > wrap_add w pool._dma_base_addr pool._size then
    ⟨0, 0⟩
  else
    ⟨wrap_sub w dma_addr pool._dma_base_addr, len⟩

end Dma_pool_base

/-! ## `tx_buffer_descriptor.h` -/

/-- One slot of the descriptor memory (`descriptor_t`): two `uint32_t`. -/
structure descriptor_t where
  addr : Nat
  status : Nat
deriving DecidableEq, Repr

/-! The bit ranges of `Tx_buffer_descriptor::Status`. -/

namespace Status

def Length : Bitfield := ⟨0, 14⟩
def Last_buffer : Bitfield := ⟨15, 1⟩
def Wrap : Bitfield := ⟨30, 1⟩
def Used : Bitfield := ⟨31, 1⟩
def Chksum_err : Bitfield := ⟨20, 3⟩
def Crc_present : Bitfield := ⟨16, 1⟩
def Late_collision : Bitfield := ⟨26, 1⟩
def Corrupt : Bitfield := ⟨27, 1⟩
def Retry_limit : Bitfield := ⟨29, 1⟩
def Error : Bitfield := ⟨20, 10⟩

end Status

/-- The messages passed to `warning(...)`. -/
inductive Warning where
  | package_too_big
  | not_aligned
  | invalid_packet_descriptor
  | retry_limit_exceeded
  | transmit_frame_corruption
  | late_collision_error
  | crc_already_present
  | tx_checksum_error (value : Nat)
  | unknown_error (value : Nat)
deriving DecidableEq, Repr

/-- The calls the driver makes, in program order. -/
inductive Event where
  | warning (msg : Warning)
  | acknowledge_packet (p : Packet_descriptor)
  | cache_clean_invalidate_data (virt size : Nat)
  | usleep (us : Nat)
  | advance_head
  | advance_tail
deriving DecidableEq, Repr

/-- The state of a `Tx_buffer_descriptor` object: the descriptor memory, the
ring indices of the base class, the two base addresses, and the trace of the
calls made so far. -/
structure Tx_buffer_descriptor where
  _descriptors : List descriptor_t
  head_idx : Nat
  tail_idx : Nat
  _phys_base : Nat
  _virt_base : Nat
  trace : List Event
deriving DecidableEq, Repr

/-- What the NIC writes back into the status word of slot `index` when it is
done with the slot: the used bit, and error-related bits (bit 16 and bits
20..29) taken from `errors`. -/
structure Hw_writeback where
  index : Nat
  errors : Nat
deriving DecidableEq, Repr

/-- The slot count `BUFFER_COUNT` that `Tx_buffer_descriptor` passes to its
base class. (The per-slot buffer size `Buffer_descriptor::BUFFER_SIZE` is
declared in the missing `buffer_descriptor.h`; it is a parameter of
`add_to_queue` below.) -/
def BUFFER_COUNT : Nat := 1024

namespace Tx_buffer_descriptor

/-- Read `_descriptors[i]`. -/
def slot (s : Tx_buffer_descriptor) (i : Nat) : descriptor_t :=
  s._descriptors.getD i ⟨0, 0⟩

/-- Overwrite `_descriptors[i]`. -/
def put (s : Tx_buffer_descriptor) (i : Nat) (d : descriptor_t) : Tx_buffer_descriptor :=
  { s with _descriptors := s._descriptors.set i d }

/-- Store `_descriptors[i].addr = v`. -/
def store_addr (s : Tx_buffer_descriptor) (i v : Nat) : Tx_buffer_descriptor :=
  s.put i { s.slot i with addr := v % 2 ^ 32 }

/-- Store `_descriptors[i].status = v`. -/
def store_status (s : Tx_buffer_descriptor) (i v : Nat) : Tx_buffer_descriptor :=
  s.put i { s.slot i with status := v % 2 ^ 32 }

/-- Append an event to the trace. -/
def emit (s : Tx_buffer_descriptor) (e : Event) : Tx_buffer_descriptor :=
  { s with trace := s.trace ++ [e] }

/-- Modelled from the spec: the slot count `N` of the ring
(`Buffer_descriptor` of `buffer_descriptor.h` is missing); it is the number
of descriptors. -/
def buffer_count (s : Tx_buffer_descriptor) : Nat := s._descriptors.length

/-- Modelled from the spec: `_max_index()` of the missing `Buffer_descriptor`,
"`max_index() -> usize = N-1`". -/
def _max_index (s : Tx_buffer_descriptor) : Nat := s.buffer_count - 1

/-- Modelled from the spec: `_head_index()` of the missing `Buffer_descriptor`. -/
def _head_index (s : Tx_buffer_descriptor) : Nat := s.head_idx

/-- Modelled from the spec: `_tail_index()` of the missing `Buffer_descriptor`. -/
def _tail_index (s : Tx_buffer_descriptor) : Nat := s.tail_idx

/-- Modelled from the spec: `_head()` of the missing `Buffer_descriptor`, the
slot at the head index. -/
def _head (s : Tx_buffer_descriptor) : descriptor_t := s.slot s.head_idx

/-- Modelled from the spec: `_tail()` of the missing `Buffer_descriptor`, the
slot at the tail index. -/
def _tail (s : Tx_buffer_descriptor) : descriptor_t := s.slot s.tail_idx

/-- Modelled from the spec: `_advance_head()` of the missing
`Buffer_descriptor`, "increment mod `N`". The call is recorded in the trace. -/
def _advance_head (s : Tx_buffer_descriptor) : Tx_buffer_descriptor :=
  { s with head_idx := (s.head_idx + 1) % s.buffer_count,
           trace := s.trace ++ [Event.advance_head] }

/-- Modelled from the spec: `_advance_tail()` of the missing
`Buffer_descriptor`, "increment mod `N`". The call is recorded in the trace. -/
def _advance_tail (s : Tx_buffer_descriptor) : Tx_buffer_descriptor :=
  { s with tail_idx := (s.tail_idx + 1) % s.buffer_count,
           trace := s.trace ++ [Event.advance_tail] }

/-- Modelled from the spec: `_queued()` of the missing `Buffer_descriptor`,
"`queued = (head − tail) mod N`"; the difference is taken modulo `N` by
adding `N` before subtracting. -/
def _queued (s : Tx_buffer_descriptor) : Nat :=
  (s.head_idx + s.buffer_count - s.tail_idx) % s.buffer_count

/-- Modelled from the spec: `_reset_head()` of the missing `Buffer_descriptor`,
"resets `head` ... to 0". -/
def _reset_head (s : Tx_buffer_descriptor) : Tx_buffer_descriptor :=
  { s with head_idx := 0 }

/-- Modelled from the spec: `_reset_tail()` of the missing `Buffer_descriptor`,
"resets ... `tail` to 0". -/
def _reset_tail (s : Tx_buffer_descriptor) : Tx_buffer_descriptor :=
  { s with tail_idx := 0 }

/-- `_reset_descriptor(i, phys_addr)`. -/
def _reset_descriptor (s : Tx_buffer_descriptor) (i phys_addr : Nat) :
    Tx_buffer_descriptor :=
  if i > s._max_index then s
  else
    let s1 := s.store_addr i phys_addr
    let s2 := s1.store_status i (Status.Used.bits 1 ||| Status.Last_buffer.bits 1)
    if i = s2._max_index then
      s2.store_status i ((s2.slot i).status ||| Status.Wrap.bits 1)
    else s2

/-- The object when the body of the constructor is entered: `buffer_count`
slots of descriptor memory, both indices 0 (member initialisers of the base
class), the two base addresses, nothing traced yet. -/
def unconfigured (buffer_count phys_base virt_base : Nat) : Tx_buffer_descriptor :=
  { _descriptors := List.replicate buffer_count ⟨0, 0⟩,
    head_idx := 0, tail_idx := 0,
    _phys_base := phys_base, _virt_base := virt_base, trace := [] }

/-- The constructor: every slot of the ring is configured with address 0 by
`_reset_descriptor`. The source passes `BUFFER_COUNT` to the base class; the
slot count is a parameter here (the ring of `N` slots of the spec). -/
def construct (buffer_count phys_base virt_base : Nat) : Tx_buffer_descriptor :=
  (List.range ((unconfigured buffer_count phys_base virt_base)._max_index + 1)).foldl
    (fun s i => s._reset_descriptor i 0) (unconfigured buffer_count phys_base virt_base)

/-- Emit `msg` when the bit range `b` of the status word is non-zero. -/
def warn_if (s : Tx_buffer_descriptor) (b : Bitfield) (status : Nat) (msg : Warning) :
    Tx_buffer_descriptor :=
  if b.get status ≠ 0 then s.emit (Event.warning msg) else s

/-- The body of `if (_tail().addr != 0) { ... }` in `submit_acks`. -/
def submit_acks_configured (w : Nat) (packet_valid : Packet_descriptor → Bool)
    (s : Tx_buffer_descriptor) : Tx_buffer_descriptor :=
  let length := Status.Length.get s._tail.status
  let p : Packet_descriptor := ⟨wrap_sub w s._tail.addr s._phys_base, length⟩
  let s1 := if packet_valid p then s.emit (Event.acknowledge_packet p)
            else s.emit (Event.warning Warning.invalid_packet_descriptor)
  let s2 := s1.store_addr s1.tail_idx 0
  let st := s2._tail.status
  let s3 := s2.warn_if Status.Retry_limit st Warning.retry_limit_exceeded
  let s4 := s3.warn_if Status.Corrupt st Warning.transmit_frame_corruption
  let s5 := s4.warn_if Status.Late_collision st Warning.late_collision_error
  let s6 := s5.warn_if Status.Crc_present st Warning.crc_already_present
  let s7 := s6.warn_if Status.Chksum_err st
    (Warning.tx_checksum_error (Status.Chksum_err.get st))
  s7.warn_if Status.Error st (Warning.unknown_error (Status.Error.get st))

/-- One pass through the body of the `for` loop of `submit_acks`, after the
`break` test: the optional acknowledgment, then `_advance_tail()`. -/
def submit_acks_body (w : Nat) (packet_valid : Packet_descriptor → Bool)
    (s : Tx_buffer_descriptor) : Tx_buffer_descriptor :=
  let s1 := if s._tail.addr ≠ 0 then submit_acks_configured w packet_valid s else s
  s1._advance_tail

/-- The loop `for (size_t i=0; i < _queued(); i++)` of `submit_acks`, entered
with loop counter `i`. The condition calls `_queued()` anew before every
iteration. `fuel` bounds the number of iterations; `submit_acks` supplies
`_queued()` of the entry state, which the loop never exhausts while its
condition still holds (`submit_acks_loop_fuel`). -/
def submit_acks_loop (w : Nat) (packet_valid : Packet_descriptor → Bool) (force : Bool) :
    Nat → Nat → Tx_buffer_descriptor → Tx_buffer_descriptor
  | 0, _, s => s
  | fuel + 1, i, s =>
    if i < s._queued then
      if Status.Used.get s._tail.status = 0 ∧ force = false then s
      else submit_acks_loop w packet_valid force fuel (i + 1)
        (submit_acks_body w packet_valid s)
    else s

/-- `submit_acks(force)`. -/
def submit_acks (w : Nat) (packet_valid : Packet_descriptor → Bool) (force : Bool)
    (s : Tx_buffer_descriptor) : Tx_buffer_descriptor :=
  submit_acks_loop w packet_valid force s._queued 0 s

/-- `reset()`. -/
def reset (w : Nat) (packet_valid : Packet_descriptor → Bool)
    (s : Tx_buffer_descriptor) : Tx_buffer_descriptor :=
  ((submit_acks w packet_valid true s)._reset_head)._reset_tail

/-- The status bits the NIC may set besides the used bit: `Crc_present`
(bit 16) and the `Error` range (bits 20..29). -/
def HW_ERROR_MASK : Nat := Status.Crc_present.reg_mask ||| Status.Error.reg_mask

/-- The NIC writes back slot `c.index`: it sets the used bit and the
error-related bits named by `c.errors`. -/
def hw_writeback (s : Tx_buffer_descriptor) (c : Hw_writeback) : Tx_buffer_descriptor :=
  if c.index < s.buffer_count then
    s.store_status c.index
      ((s.slot c.index).status ||| Status.Used.bits 1 ||| (c.errors &&& HW_ERROR_MASK))
  else s

/-- A sequence of write-backs by the NIC. -/
def hw_writebacks (s : Tx_buffer_descriptor) (cs : List Hw_writeback) :
    Tx_buffer_descriptor :=
  cs.foldl hw_writeback s

/-- `_timer.usleep(us)`: the call is recorded, and the NIC performs the
write-backs `cs` while the driver sleeps. -/
def usleep (s : Tx_buffer_descriptor) (us : Nat) (cs : List Hw_writeback) :
    Tx_buffer_descriptor :=
  (s.emit (Event.usleep us)).hw_writebacks cs

/-- The object after the NIC activity of the first `k` sleeps listed in `hw`
(nothing once the list is used up). -/
def hw_sleeps (s : Tx_buffer_descriptor) :
    List (List Hw_writeback) → Nat → Tx_buffer_descriptor
  | _, 0 => s
  | hw, k + 1 => hw_sleeps (s.hw_writebacks (hw.headD [])) hw.tail k

end Tx_buffer_descriptor

/-- How a call of `add_to_queue` ends: it returns, or it throws
`Package_send_timeout`; either way the object is left in a state. -/
inductive Result where
  | returned (s : Tx_buffer_descriptor)
  | Package_send_timeout (s : Tx_buffer_descriptor)
deriving DecidableEq, Repr

/-- The object state a call leaves behind. -/
def Result.state : Result → Tx_buffer_descriptor
  | Result.returned s => s
  | Result.Package_send_timeout s => s

namespace Tx_buffer_descriptor

/-- The polling loop of `add_to_queue`:
`while (!Used::get(_head().status)) { if (timeout == 0) throw ...; timeout -= 1000; usleep(1000); }`.
The counter `timeout` starts at 10000 and only takes multiples of 1000;
`ticks` is `timeout / 1000`. `hw` lists what the NIC does during the
successive sleeps (nothing once the list is used up). -/
def wait_used : Nat → List (List Hw_writeback) → Tx_buffer_descriptor → Result
  | 0, _, s =>
    if Status.Used.get s._head.status ≠ 0 then Result.returned s
    else Result.Package_send_timeout s
  | ticks + 1, hw, s =>
    if Status.Used.get s._head.status ≠ 0 then Result.returned s
    else wait_used ticks hw.tail (s.usleep 1000 (hw.headD []))

/-- The part of `add_to_queue` after the polling loop: configure the head
slot, write the length, clear the used bit, advance the head. -/
def add_to_queue_commit (s : Tx_buffer_descriptor) (packet_phys size : Nat) :
    Tx_buffer_descriptor :=
  let s1 := s._reset_descriptor s._head_index packet_phys
  let s2 := s1.store_status s1.head_idx (s1._head.status ||| Status.Length.bits size)
  let s3 := s2.store_status s2.head_idx (s2._head.status &&& Status.Used.clear_mask)
  s3._advance_head

/-- `add_to_queue(p)`. -/
def add_to_queue (w BUFFER_SIZE : Nat) (hw : List (List Hw_writeback))
    (p : Packet_descriptor) (s : Tx_buffer_descriptor) : Result :=
  if p.size > BUFFER_SIZE then
    Result.returned (s.emit (Event.warning Warning.package_too_big))
  else
    let packet_phys := wrap_add w s._phys_base p.offset
    let packet_virt := wrap_add w s._virt_base p.offset
    let s1 := if packet_phys &&& 0x1f ≠ 0 then s.emit (Event.warning Warning.not_aligned)
              else s
    let s2 := s1.emit (Event.cache_clean_invalidate_data packet_virt p.size)
    match wait_used (10000 / 1000) hw s2 with
    | Result.Package_send_timeout s3 => Result.Package_send_timeout s3
    | Result.returned s3 => Result.returned (s3.add_to_queue_commit packet_phys p.size)

/-- The warnings `submit_acks` derives from the status word of a reclaimed
slot, in the order of the tests. -/
def status_warnings (st : Nat) : List Warning :=
  (if Status.Retry_limit.get st ≠ 0 then [Warning.retry_limit_exceeded] else []) ++
  (if Status.Corrupt.get st ≠ 0 then [Warning.transmit_frame_corruption] else []) ++
  (if Status.Late_collision.get st ≠ 0 then [Warning.late_collision_error] else []) ++
  (if Status.Crc_present.get st ≠ 0 then [Warning.crc_already_present] else []) ++
  (if Status.Chksum_err.get st ≠ 0 then
    [Warning.tx_checksum_error (Status.Chksum_err.get st)] else []) ++
  (if Status.Error.get st ≠ 0 then [Warning.unknown_error (Status.Error.get st)] else [])

/-- The packet descriptor `submit_acks` builds from a slot. -/
def slot_packet (w phys_base : Nat) (d : descriptor_t) : Packet_descriptor :=
  ⟨wrap_sub w d.addr phys_base, Status.Length.get d.status⟩

/-- The events of the block `if (_tail().addr != 0) { ... }` of `submit_acks`. -/
def reclaim_events (w : Nat) (packet_valid : Packet_descriptor → Bool)
    (s : Tx_buffer_descriptor) : List Event :=
  (if packet_valid (slot_packet w s._phys_base s._tail) then
      Event.acknowledge_packet (slot_packet w s._phys_base s._tail)
    else Event.warning Warning.invalid_packet_descriptor) ::
    (status_warnings s._tail.status).map Event.warning

/-- The events of `add_to_queue` between the size test and the polling loop:
the alignment warning, if any, and the cache maintenance call. -/
def add_to_queue_prologue (w : Nat) (p : Packet_descriptor) (s : Tx_buffer_descriptor) :
    List Event :=
  (if wrap_add w s._phys_base p.offset &&& 0x1f ≠ 0 then
      [Event.warning Warning.not_aligned] else []) ++
    [Event.cache_clean_invalidate_data (wrap_add w s._virt_base p.offset) p.size]

/-- The objects `s` and `t` agree on everything but the descriptor memory:
the part of the object the NIC cannot write. -/
def same_frame (s t : Tx_buffer_descriptor) : Prop :=
  t.head_idx = s.head_idx ∧ t.tail_idx = s.tail_idx ∧ t.buffer_count = s.buffer_count ∧
    t._phys_base = s._phys_base ∧ t._virt_base = s._virt_base ∧ t.trace = s.trace

end Tx_buffer_descriptor

/-! ## Observations on traces and runs -/

/-- The packets acknowledged to the sink, in the order of the calls. -/
def ack_log : List Event → List Packet_descriptor
  | [] => []
  | Event.acknowledge_packet p :: es => p :: ack_log es
  | _ :: es => ack_log es

/-- The durations of the timer sleeps, in the order of the calls. -/
def sleep_log : List Event → List Nat
  | [] => []
  | Event.usleep us :: es => us :: sleep_log es
  | _ :: es => sleep_log es

/-- Number of slots handed to the hardware: the calls of `_advance_head()`. -/
def handed (s : Tx_buffer_descriptor) : Nat := s.trace.count Event.advance_head

/-- Number of slots reclaimed: the calls of `_advance_tail()`. -/
def reclaimed (s : Tx_buffer_descriptor) : Nat := s.trace.count Event.advance_tail

/-- Number of slots in flight: handed to the hardware and not yet reclaimed. -/
def in_flight (s : Tx_buffer_descriptor) : Nat := handed s - reclaimed s

/-- One step of a run of the driver against the NIC: a call of one of the
public operations, or a write-back by the NIC between two calls. A call of
`add_to_queue` comes with what the NIC does while the call sleeps. -/
inductive Op where
  | add_to_queue (p : Packet_descriptor) (hw : List (List Hw_writeback))
  | submit_acks (force : Bool)
  | reset
  | hardware (c : Hw_writeback)
deriving DecidableEq, Repr

/-- The state after one step. An exception of `add_to_queue` leaves the
object in the state reached at the throw. -/
def step (w BUFFER_SIZE : Nat) (packet_valid : Packet_descriptor → Bool)
    (s : Tx_buffer_descriptor) : Op → Tx_buffer_descriptor
  | Op.add_to_queue p hw => (s.add_to_queue w BUFFER_SIZE hw p).state
  | Op.submit_acks force => s.submit_acks w packet_valid force
  | Op.reset => s.reset w packet_valid
  | Op.hardware c => s.hw_writeback c

/-- The state after a sequence of steps. -/
def run (w BUFFER_SIZE : Nat) (packet_valid : Packet_descriptor → Bool)
    (s : Tx_buffer_descriptor) (ops : List Op) : Tx_buffer_descriptor :=
  ops.foldl (step w BUFFER_SIZE packet_valid) s

/-- Whether a call `add_to_queue(p)` in state `s` hands `p` to the hardware:
the size is admissible and the call returns. -/
def enqueues (w BUFFER_SIZE : Nat) (hw : List (List Hw_writeback))
    (p : Packet_descriptor) (s : Tx_buffer_descriptor) : Bool :=
  match s.add_to_queue w BUFFER_SIZE hw p with
  | Result.returned _ => decide (p.size ≤ BUFFER_SIZE)
  | Result.Package_send_timeout _ => false

/-- The packets handed to the hardware during a run, in the order of the
calls. -/
def enqueue_log (w BUFFER_SIZE : Nat) (packet_valid : Packet_descriptor → Bool) :
    Tx_buffer_descriptor → List Op → List Packet_descriptor
  | _, [] => []
  | s, Op.add_to_queue p hw :: ops =>
    (if enqueues w BUFFER_SIZE hw p s then [p] else []) ++
      enqueue_log w BUFFER_SIZE packet_valid
        (step w BUFFER_SIZE packet_valid s (Op.add_to_queue p hw)) ops
  | s, op :: ops =>
    enqueue_log w BUFFER_SIZE packet_valid (step w BUFFER_SIZE packet_valid s op) ops

/-- No step of the run is a call of `reset`. -/
def no_reset (ops : List Op) : Prop := ∀ op ∈ ops, op ≠ Op.reset

/-- The number of slots in flight is below `bound` after every prefix of the run. -/
def in_flight_below (w BUFFER_SIZE : Nat) (packet_valid : Packet_descriptor → Bool)
    (s : Tx_buffer_descriptor) (ops : List Op) (bound : Nat) : Prop :=
  ∀ k, k ≤ ops.length → in_flight (run w BUFFER_SIZE packet_valid s (ops.take k)) < bound

instance (ops : List Op) : Decidable (no_reset ops) := by
  unfold no_reset; infer_instance

instance (w BUFFER_SIZE : Nat) (packet_valid : Packet_descriptor → Bool)
    (s : Tx_buffer_descriptor) (ops : List Op) (bound : Nat) :
    Decidable (in_flight_below w BUFFER_SIZE packet_valid s ops bound) := by
  unfold in_flight_below; infer_instance

/-! ## Invariants of the ring -/

namespace Tx_buffer_descriptor

/-- The ring has a slot, and both indices are slots of the ring. -/
def well_formed (s : Tx_buffer_descriptor) : Prop :=
  0 < s.buffer_count ∧ s.head_idx < s.buffer_count ∧ s.tail_idx < s.buffer_count

/-- The objects `s` and `t` are the same ring: same slot count, same base
addresses. -/
def same_ring (s t : Tx_buffer_descriptor) : Prop :=
  t.buffer_count = s.buffer_count ∧ t._phys_base = s._phys_base ∧
    t._virt_base = s._virt_base

/-- The ring indices are the numbers of advances modulo the slot count, and
no more slots have been reclaimed than handed over. -/
def counts_inv (s : Tx_buffer_descriptor) : Prop :=
  s.well_formed ∧ handed s % s.buffer_count = s.head_idx ∧
    reclaimed s % s.buffer_count = s.tail_idx ∧ reclaimed s ≤ handed s

/-- The indices of the queued slots in ring order, from the tail up to the
head. -/
def window (s : Tx_buffer_descriptor) : List Nat :=
  (List.range s._queued).map (fun k => (s.tail_idx + k) % s.buffer_count)

/-- The packet a slot stands for when `submit_acks` processes it: none when
the address is 0. -/
def packet_of (w phys_base : Nat) (d : descriptor_t) : Option Packet_descriptor :=
  if d.addr ≠ 0 then some (slot_packet w phys_base d) else none

/-- The packets of the queued slots, in ring order. -/
def pending (w : Nat) (s : Tx_buffer_descriptor) : List Packet_descriptor :=
  (window s).filterMap (fun i => packet_of w s._phys_base (s.slot i))

/-- Every acknowledged packet and every packet of a queued slot, in this
order, form a subsequence of `E`. -/
def fifo_inv (w : Nat) (E : List Packet_descriptor) (s : Tx_buffer_descriptor) : Prop :=
  s.well_formed ∧ (ack_log s.trace ++ pending w s).Sublist E

/-- The physical address of the packet, as a machine word, fits the 32-bit
address field of a descriptor. -/
def addressable (w phys_base : Nat) (p : Packet_descriptor) : Prop :=
  phys_base < 2 ^ w ∧ p.offset < 2 ^ w ∧ wrap_add w phys_base p.offset < 2 ^ 32

instance (s t : Tx_buffer_descriptor) : Decidable (same_frame s t) := by
  unfold same_frame; infer_instance

instance (s : Tx_buffer_descriptor) : Decidable (well_formed s) := by
  unfold well_formed; infer_instance

instance (s t : Tx_buffer_descriptor) : Decidable (same_ring s t) := by
  unfold same_ring; infer_instance

instance (s : Tx_buffer_descriptor) : Decidable (counts_inv s) := by
  unfold counts_inv; infer_instance

instance (w : Nat) (E : List Packet_descriptor) (s : Tx_buffer_descriptor) :
    Decidable (fifo_inv w E s) := by
  unfold fifo_inv; infer_instance

instance (w phys_base : Nat) (p : Packet_descriptor) :
    Decidable (addressable w phys_base p) := by
  unfold addressable; infer_instance

end Tx_buffer_descriptor

/-- The packet of a call of `add_to_queue` is addressable; nothing is asked
of the other steps. -/
def op_addressable (w phys_base : Nat) : Op → Prop
  | Op.add_to_queue p _ => Tx_buffer_descriptor.addressable w phys_base p
  | _ => True

/-- Every packet passed to `add_to_queue` during the run is addressable. -/
def all_addressable (w phys_base : Nat) (ops : List Op) : Prop :=
  ∀ op ∈ ops, op_addressable w phys_base op

instance (w phys_base : Nat) (op : Op) : Decidable (op_addressable w phys_base op) := by
  cases op <;> unfold op_addressable <;> infer_instance

instance (w phys_base : Nat) (ops : List Op) : Decidable (all_addressable w phys_base ops) := by
  unfold all_addressable; infer_instance

/-! ## The end-to-end scenario of the specification -/

/-- Packet P1 of the scenario. -/
def P1 : Packet_descriptor := ⟨0, 64⟩

/-- Packet P2 of the scenario. -/
def P2 : Packet_descriptor := ⟨64, 128⟩

/-- The ring of the scenario: 4 slots, right after the constructor. -/
def scenario_fresh : Tx_buffer_descriptor :=
  Tx_buffer_descriptor.construct 4 0x10000000 0x20000000

/-- The scenario up to the call under test: P1 and P2 enqueued. -/
def scenario_enqueued : Tx_buffer_descriptor :=
  run 32 1608 (fun _ => true) scenario_fresh
    [Op.add_to_queue P1 [], Op.add_to_queue P2 []]

/-- A ring of 2 slots right after the constructor with P1 and P2 enqueued:
both slots are owned by the NIC, the head is back at slot 0. -/
def scenario_full : Tx_buffer_descriptor :=
  run 32 1608 (fun _ => true) (Tx_buffer_descriptor.construct 2 0x10000000 0x20000000)
    [Op.add_to_queue P1 [], Op.add_to_queue P2 []]

/-- The scenario after the NIC has set the used bit of slots 0 and 1. -/
def scenario_completed : Tx_buffer_descriptor :=
  run 32 1608 (fun _ => true) scenario_enqueued
    [Op.hardware ⟨0, 0⟩, Op.hardware ⟨1, 0⟩]

/-! ## The wrap bit -/

namespace Tx_buffer_descriptor

/-- The wrap bit is set on slot `N - 1` and clear on every other slot of the
ring. -/
def wrap_inv (s : Tx_buffer_descriptor) : Prop :=
  ∀ i, i < s.buffer_count →
    Status.Wrap.get (s.slot i).status = if i = s.buffer_count - 1 then 1 else 0

instance (s : Tx_buffer_descriptor) : Decidable (wrap_inv s) := by
  unfold wrap_inv; infer_instance

/-- The ring `t` has the slot count of `s` and the same status word in every
slot. -/
def same_status (s t : Tx_buffer_descriptor) : Prop :=
  t.buffer_count = s.buffer_count ∧ ∀ i, (t.slot i).status = (s.slot i).status

end Tx_buffer_descriptor

/-! ## What one call of `submit_acks` may acknowledge -/

namespace Tx_buffer_descriptor

/-- The acknowledgment that processing the slot `d` issues: its packet, when
the address is non-zero and the sink reports the packet valid. -/
def slot_ack (w phys_base : Nat) (packet_valid : Packet_descriptor → Bool)
    (d : descriptor_t) : Option Packet_descriptor :=
  if d.addr ≠ 0 ∧ packet_valid (slot_packet w phys_base d) = true then
    some (slot_packet w phys_base d)
  else none

/-- The acknowledgments that processing the first `m` slots from the tail of
`s` issues, in ring order. -/
def acks_of_slots (w : Nat) (packet_valid : Packet_descriptor → Bool)
    (s : Tx_buffer_descriptor) (m : Nat) : List Packet_descriptor :=
  (List.range m).filterMap (fun k =>
    slot_ack w s._phys_base packet_valid (s.slot ((s.tail_idx + k) % s.buffer_count)))

end Tx_buffer_descriptor

/-- Packet P3 of the longer scenario. -/
def P3 : Packet_descriptor := ⟨192, 64⟩

/-- Packet P4 of the longer scenario. -/
def P4 : Packet_descriptor := ⟨256, 64⟩

/-- A ring of 8 slots right after the constructor with P1, P2, P3 and P4
enqueued: slots 0 to 3 are queued and owned by the NIC, the tail is 0. -/
def scenario_four_enqueued : Tx_buffer_descriptor :=
  run 32 1608 (fun _ => true) (Tx_buffer_descriptor.construct 8 0x10000000 0x20000000)
    [Op.add_to_queue P1 [], Op.add_to_queue P2 [], Op.add_to_queue P3 [],
      Op.add_to_queue P4 []]

/-- The longer scenario with only slot 0 completed by the NIC: slot 1 is the
first slot from the tail that the NIC still owns. -/
def scenario_first_of_four_completed : Tx_buffer_descriptor :=
  run 32 1608 (fun _ => true) scenario_four_enqueued [Op.hardware ⟨0, 0⟩]

namespace Tx_buffer_descriptor

/-- The acknowledgments issued so far and the queued slots with a non-zero
address are together at most `c`. -/
def ack_count_inv (w c : Nat) (s : Tx_buffer_descriptor) : Prop :=
  s.well_formed ∧ (ack_log s.trace).length + (pending w s).length ≤ c

end Tx_buffer_descriptor

/-! ## Ring states that differ in the error bits -/

/-- The status words `a` and `b` agree outside the error-related bits
(`Crc_present`, bit 16, and the `Error` range, bits 20..29): bits 0..15,
bits 17..19 and the bits from 30 upwards are the same. -/
def same_but_errors (a b : Nat) : Prop :=
  a % 2 ^ 16 = b % 2 ^ 16 ∧ a / 2 ^ 17 % 2 ^ 3 = b / 2 ^ 17 % 2 ^ 3 ∧ a / 2 ^ 30 = b / 2 ^ 30

instance (a b : Nat) : Decidable (same_but_errors a b) := by
  unfold same_but_errors
  exact inferInstance

/-- The trace without its warnings. -/
def quiet : List Event → List Event
  | [] => []
  | Event.warning _ :: es => quiet es
  | e :: es => e :: quiet es

namespace Tx_buffer_descriptor

/-- The ring `t` differs from the ring `s` only in the error-related status
bits of the slots, and in the warnings emitted so far. -/
def error_equiv (s t : Tx_buffer_descriptor) : Prop :=
  t.buffer_count = s.buffer_count ∧ t.head_idx = s.head_idx ∧ t.tail_idx = s.tail_idx ∧
  t._phys_base = s._phys_base ∧ t._virt_base = s._virt_base ∧
  quiet t.trace = quiet s.trace ∧
  ∀ i, i < s.buffer_count →
    (t.slot i).addr = (s.slot i).addr ∧ same_but_errors (s.slot i).status (t.slot i).status

instance (s t : Tx_buffer_descriptor) : Decidable (error_equiv s t) := by
  unfold error_equiv
  exact inferInstance

end Tx_buffer_descriptor

/-- The scenario with P1 and P2 completed by the NIC, which reports errors:
every error-related bit for slot 0, a late collision (bit 26) for slot 1. -/
def scenario_completed_errors : Tx_buffer_descriptor :=
  run 32 1608 (fun _ => true) scenario_enqueued
    [Op.hardware ⟨0, 0xffffffff⟩, Op.hardware ⟨1, 0x4000000⟩]

/-! ## The stores of `add_to_queue` to the head slot -/

namespace Tx_buffer_descriptor

/-- The object after each store of `_reset_descriptor(i, phys_addr)`, in
program order: the store of the address, the store of the status word, and
for the last slot the store that adds the wrap bit. -/
def _reset_descriptor_stores (s : Tx_buffer_descriptor) (i phys_addr : Nat) :
    List Tx_buffer_descriptor :=
  if i > s._max_index then []
  else
    let s1 := s.store_addr i phys_addr
    let s2 := s1.store_status i (Status.Used.bits 1 ||| Status.Last_buffer.bits 1)
    if i = s2._max_index then
      [s1, s2, s2.store_status i ((s2.slot i).status ||| Status.Wrap.bits 1)]
    else [s1, s2]

/-- The object after each store of `add_to_queue` once the polling loop is
left, in program order: the stores of `_reset_descriptor`, the store that adds
the length, and the store that clears the used bit. -/
def add_to_queue_stores (s : Tx_buffer_descriptor) (packet_phys size : Nat) :
    List Tx_buffer_descriptor :=
  let s1 := s._reset_descriptor s._head_index packet_phys
  let s2 := s1.store_status s1.head_idx (s1._head.status ||| Status.Length.bits size)
  let s3 := s2.store_status s2.head_idx (s2._head.status &&& Status.Used.clear_mask)
  s._reset_descriptor_stores s._head_index packet_phys ++ [s2, s3]

end Tx_buffer_descriptor

end Cadence_gem

/-! ## `bitstream.h`

The ROM and the destination buffer are lists of bytes; a `char` cell is read
and written modulo `2 ^ 8`. A read or a write at an index outside the list is
the outcome `out_of_bounds`; it is no C++ exception, so `catch (...)` does not
intercept it. The host is little-endian (`HDR_START = 0xf00f0900` is the
little-endian word of the first four bytes `00 09 0f f0` of a `.bit` file), so
`host_to_big_endian` of Genode's `util/endian.h` reverses the bytes of a word.
The `size_t` values of this file stay far below `2 ^ 32` for every ROM of less
than `2 ^ 31` bytes, so they are plain natural numbers. Log output is left out.
-/

namespace Fpga

/-- How a function ends: with a value, with one of the exceptions of
`Bitstream`, or with an access outside a buffer. -/
inductive Outcome (α : Type) where
  | ok (a : α)
  | Header_length_error
  | Header_error
  | Format_error
  | out_of_bounds
deriving DecidableEq, Repr

/-- Sequencing: the second computation runs on the value of the first. -/
def Outcome.bind {α β : Type} : Outcome α → (α → Outcome β) → Outcome β
  | Outcome.ok a, f => f a
  | Outcome.Header_length_error, _ => Outcome.Header_length_error
  | Outcome.Header_error, _ => Outcome.Header_error
  | Outcome.Format_error, _ => Outcome.Format_error
  | Outcome.out_of_bounds, _ => Outcome.out_of_bounds

/-- Read of the `char` at `buf[i]`. -/
def read_u8 (buf : List Nat) (i : Nat) : Outcome Nat :=
  if i < buf.length then Outcome.ok (buf.getD i 0 % 2 ^ 8) else Outcome.out_of_bounds

/-- Read `*reinterpret_cast<uint16_t*>(&buf[i])` on the little-endian host. -/
def read_u16 (buf : List Nat) (i : Nat) : Outcome Nat :=
  (read_u8 buf i).bind fun b0 =>
  (read_u8 buf (i + 1)).bind fun b1 =>
  Outcome.ok (b0 + 2 ^ 8 * b1)

/-- Read `*reinterpret_cast<uint32_t*>(&buf[i])` on the little-endian host. -/
def read_u32 (buf : List Nat) (i : Nat) : Outcome Nat :=
  (read_u8 buf i).bind fun b0 =>
  (read_u8 buf (i + 1)).bind fun b1 =>
  (read_u8 buf (i + 2)).bind fun b2 =>
  (read_u8 buf (i + 3)).bind fun b3 =>
  Outcome.ok (b0 + 2 ^ 8 * b1 + 2 ^ 16 * b2 + 2 ^ 24 * b3)

/-- Write of the `char` at `buf[i]`. -/
def write_u8 (buf : List Nat) (i v : Nat) : Outcome (List Nat) :=
  if i < buf.length then Outcome.ok (buf.set i (v % 2 ^ 8)) else Outcome.out_of_bounds

/-- Write `*reinterpret_cast<uint32_t*>(&buf[i]) = v` on the little-endian host. -/
def write_u32 (buf : List Nat) (i v : Nat) : Outcome (List Nat) :=
  (write_u8 buf i v).bind fun d0 =>
  (write_u8 d0 (i + 1) (v / 2 ^ 8)).bind fun d1 =>
  (write_u8 d1 (i + 2) (v / 2 ^ 16)).bind fun d2 =>
  write_u8 d2 (i + 3) (v / 2 ^ 24)

/-- `host_to_big_endian` of a `uint16_t` on the little-endian host. -/
def host_to_big_endian_u16 (x : Nat) : Nat :=
  x % 2 ^ 8 * 2 ^ 8 + x / 2 ^ 8 % 2 ^ 8

/-- `host_to_big_endian` of a `uint32_t` on the little-endian host. -/
def host_to_big_endian_u32 (x : Nat) : Nat :=
  x % 2 ^ 8 * 2 ^ 24 + x / 2 ^ 8 % 2 ^ 8 * 2 ^ 16 + x / 2 ^ 16 % 2 ^ 8 * 2 ^ 8 +
    x / 2 ^ 24 % 2 ^ 8

/-- `Genode::memcpy(dst, src + src_pos, n)`, byte by byte from index `i` on;
called with `i = 0`, and `k` the number of bytes still to copy. -/
def memcpy (src : List Nat) (src_pos : Nat) : Nat → Nat → List Nat → Outcome (List Nat)
  | 0, _, dst => Outcome.ok dst
  | k + 1, i, dst =>
    (read_u8 src (src_pos + i)).bind fun b =>
    (write_u8 dst i b).bind fun d =>
    memcpy src src_pos k (i + 1) d

/-- The enumeration `Bitstream::Format`. -/
inductive Format where
  | INVALID
  | RAW
  | SWAP_NEEDED
deriving DecidableEq, Repr

/-- The members of `Fpga::Bitstream`; `_rom` is the content of the attached
ROM dataspace, its length is `_rom.size()`. -/
structure Bitstream where
  _bitstream_size : Nat
  _format : Format
  _offset : Nat
  _rom : List Nat
deriving DecidableEq, Repr

namespace Bitstream

/-- The constant `RAW_START` of `_detect_format`. -/
def RAW_START : Nat := 0xffffffff

/-- The constant `HDR_START` of `_detect_format`. -/
def HDR_START : Nat := 0xf00f0900

/-- The constant `MAGIC_SWAPPED` of `_detect_format`. -/
def MAGIC_SWAPPED : Nat := 0x665599aa

/-- The constant `MAGIC` of `_detect_format`. -/
def MAGIC : Nat := 0xaa995566

/-- `_parse_header_field(magic, buf, buf_sz, pos)`. -/
def _parse_header_field (magic : Nat) (buf : List Nat) (buf_sz pos : Nat) : Outcome Nat :=
  if pos + 3 ≥ buf_sz then Outcome.Header_length_error
  else
    (read_u8 buf pos).bind fun b =>
    if b ≠ magic then Outcome.Header_error
    else
      (read_u16 buf (pos + 1)).bind fun length =>
      Outcome.ok (host_to_big_endian_u16 length + 3)

/-- `_parse_size_field(buf, buf_sz, pos, size)`: the return value and the
value stored in `size`. -/
def _parse_size_field (buf : List Nat) (buf_sz pos : Nat) : Outcome (Nat × Nat) :=
  if pos + 5 ≥ buf_sz then Outcome.Header_length_error
  else
    (read_u8 buf pos).bind fun b =>
    if b ≠ 0x65 then Outcome.Header_error
    else
      (read_u32 buf (pos + 1)).bind fun size =>
      Outcome.ok (5, host_to_big_endian_u32 size)

/-- The `try` block of `_detect_format`: the value of `byte` after the five
fields, and the value stored in `length`. -/
def _detect_format_header (buf : List Nat) (buf_sz : Nat) : Outcome (Nat × Nat) :=
  (_parse_header_field 0x61 buf buf_sz 13).bind fun n1 =>
  (_parse_header_field 0x62 buf buf_sz (13 + n1)).bind fun n2 =>
  (_parse_header_field 0x63 buf buf_sz (13 + n1 + n2)).bind fun n3 =>
  (_parse_header_field 0x64 buf buf_sz (13 + n1 + n2 + n3)).bind fun n4 =>
  (_parse_size_field buf buf_sz (13 + n1 + n2 + n3 + n4)).bind fun r =>
  Outcome.ok (13 + n1 + n2 + n3 + n4 + r.1, r.2)

/-- The loop `for (size_t byte = offset; byte < buf_sz; byte++)` of
`_detect_format`, entered at `byte` with `k = buf_sz - byte` iterations
left. -/
def _detect_format_search (buf : List Nat) : Nat → Nat → Outcome Format
  | 0, _ => Outcome.ok Format.INVALID
  | k + 1, byte =>
    (read_u32 buf byte).bind fun cur_word =>
    if cur_word = MAGIC then Outcome.ok Format.RAW
    else if cur_word = MAGIC_SWAPPED then Outcome.ok Format.SWAP_NEEDED
    else _detect_format_search buf k (byte + 1)

/-- `_detect_format(buf, buf_sz, offset, length)`: the format returned, and
the values of the two reference parameters afterwards. -/
def _detect_format (buf : List Nat) (buf_sz offset length : Nat) :
    Outcome (Format × Nat × Nat) :=
  (read_u32 buf 0).bind fun first_word =>
  if first_word = HDR_START then
    match _detect_format_header buf buf_sz with
    | Outcome.ok r =>
      (_detect_format_search buf (buf_sz - r.1) r.1).bind fun f => Outcome.ok (f, r.1, r.2)
    | Outcome.out_of_bounds => Outcome.out_of_bounds
    | _ => Outcome.ok (Format.INVALID, offset, length)
  else if first_word = RAW_START then
    (_detect_format_search buf (buf_sz - 0) 0).bind fun f => Outcome.ok (f, 0, length)
  else Outcome.ok (Format.INVALID, offset, length)

/-- The constructor `Bitstream(rom, max_size)`. -/
def construct (rom : List Nat) (max_size : Nat) : Outcome Bitstream :=
  (_detect_format rom rom.length 0 0).bind fun r =>
  match r.1 with
  | Format.INVALID => Outcome.Format_error
  | Format.RAW =>
    Outcome.ok ⟨if max_size = 0 then rom.length else min rom.length max_size,
      Format.RAW, r.2.1, rom⟩
  | Format.SWAP_NEEDED => Outcome.ok ⟨r.2.2, Format.SWAP_NEEDED, r.2.1, rom⟩

/-- The loop `for (size_t word { 0 }; word < size / 4; word++, written += 4)` of
`_read_swapped`, entered at `word` with `k = size / 4 - word` iterations left:
the value of `written` and the destination buffer afterwards. -/
def _read_swapped_loop (b : Bitstream) : Nat → Nat → Nat → List Nat → Outcome (Nat × List Nat)
  | 0, _, written, dst => Outcome.ok (written, dst)
  | k + 1, word, written, dst =>
    (read_u32 b._rom (b._offset + 4 * word)).bind fun x =>
    (write_u32 dst (4 * word) (host_to_big_endian_u32 x)).bind fun d =>
    _read_swapped_loop b k (word + 1) (written + 4) d

/-- `_read_swapped(dst, size)`: the return value and the destination buffer. -/
def _read_swapped (b : Bitstream) (dst : List Nat) (size : Nat) : Outcome (Nat × List Nat) :=
  _read_swapped_loop b (size / 4) 0 0 dst

/-- `read_bitstream(dst, dst_sz)`: the return value and the destination
buffer. -/
def read_bitstream (b : Bitstream) (dst : List Nat) (dst_sz : Nat) :
    Outcome (Nat × List Nat) :=
  let sz := min b._bitstream_size dst_sz
  match b._format with
  | Format.RAW => (memcpy b._rom b._offset sz 0 dst).bind fun d => Outcome.ok (sz, d)
  | Format.SWAP_NEEDED => b._read_swapped dst sz
  | Format.INVALID => Outcome.ok (0, dst)

end Bitstream

/-- A `.bit` file: the 13 bytes that `_detect_format` skips, four empty header
fields `a` to `d`, the size field `e` with the big-endian value `length`, and
the payload. -/
def bit_file (length : Nat) (payload : List Nat) : List Nat :=
  [0x00, 0x09, 0x0f, 0xf0, 0x0f, 0xf0, 0x0f, 0xf0, 0x0f, 0xf0, 0x00, 0x00, 0x01,
    0x61, 0, 0, 0x62, 0, 0, 0x63, 0, 0, 0x64, 0, 0,
    0x65, length / 2 ^ 24 % 2 ^ 8, length / 2 ^ 16 % 2 ^ 8, length / 2 ^ 8 % 2 ^ 8,
    length % 2 ^ 8] ++ payload

/-- A `.bit` file with a payload of two words, the first being the sync
word in swapped byte order. -/
def scenario_bit_rom : List Nat :=
  bit_file 8 [0xaa, 0x99, 0x55, 0x66, 0x11, 0x22, 0x33, 0x44]

/-- The same `.bit` file with a size field that announces 4096 bytes. -/
def scenario_bit_rom_long : List Nat :=
  bit_file 4096 [0xaa, 0x99, 0x55, 0x66, 0x11, 0x22, 0x33, 0x44]

end Fpga

/-! # Theorems -/

namespace Genode

theorem wrap_add_of_lt {w a b : Nat} (h : a + b < 2 ^ w) : wrap_add w a b = a + b := by
  unfold wrap_add
  exact Nat.mod_eq_of_lt h

theorem wrap_sub_of_le {w a b : Nat} (hba : b ≤ a) (ha : a < 2 ^ w) :
    wrap_sub w a b = a - b := by
  unfold wrap_sub
  have hb : b < 2 ^ w := Nat.lt_of_le_of_lt hba ha
  rw [Nat.mod_eq_of_lt ha, Nat.mod_eq_of_lt hb]
  have e : a + (2 ^ w - b) = (a - b) + 2 ^ w := by omega
  rw [e, Nat.add_mod_right]
  exact Nat.mod_eq_of_lt (by omega)

end Genode

namespace Cadence_gem

open Genode

/-! ## Trace observations -/

theorem ack_log_append (xs ys : List Event) :
    ack_log (xs ++ ys) = ack_log xs ++ ack_log ys := by
  induction xs with
  | nil => rfl
  | cons e es ih => cases e <;> simp [ack_log, ih]

theorem sleep_log_append (xs ys : List Event) :
    sleep_log (xs ++ ys) = sleep_log xs ++ sleep_log ys := by
  induction xs with
  | nil => rfl
  | cons e es ih => cases e <;> simp [sleep_log, ih]

/-! ## Bit ranges -/

theorem bitfield_get_eq_div_mod (b : Bitfield) (reg : Nat) :
    b.get reg = reg / 2 ^ b.SHIFT % 2 ^ b.WIDTH := by
  unfold Bitfield.get Bitfield.mask
  rw [Nat.and_pow_two_sub_one_eq_mod, Nat.shiftRight_eq_div_pow]

theorem length_bits_of_lt (size : Nat) (h14 : size < 2 ^ 14) :
    Status.Length.bits size = size := by
  unfold Bitfield.bits Bitfield.mask Status.Length
  simp only [Nat.and_pow_two_sub_one_eq_mod, Nat.shiftLeft_eq]
  omega

/-- The status word `add_to_queue` leaves in the head slot. -/
theorem status_commit (size : Nat) (h14 : size < 2 ^ 14) (wrap : Bool) :
    ((((Status.Used.bits 1 ||| Status.Last_buffer.bits 1) % 2 ^ 32 |||
        (if wrap then Status.Wrap.bits 1 else 0)) % 2 ^ 32 |||
        Status.Length.bits size) % 2 ^ 32 &&& Status.Used.clear_mask) % 2 ^ 32 =
      size + 2 ^ 15 + (if wrap then 2 ^ 30 else 0) := by
  have hc : Status.Used.clear_mask = 2 ^ 31 - 1 := by decide
  rw [length_bits_of_lt size h14, hc, Nat.and_pow_two_sub_one_eq_mod]
  cases wrap
  · have e : ((Status.Used.bits 1 ||| Status.Last_buffer.bits 1) % 2 ^ 32 |||
        (if false then Status.Wrap.bits 1 else 0)) % 2 ^ 32 = 2 ^ 14 * 131074 := by decide
    rw [e, ← Nat.mul_add_lt_is_or h14]
    simp
    omega
  · have e : ((Status.Used.bits 1 ||| Status.Last_buffer.bits 1) % 2 ^ 32 |||
        (if true then Status.Wrap.bits 1 else 0)) % 2 ^ 32 = 2 ^ 14 * 196610 := by decide
    rw [e, ← Nat.mul_add_lt_is_or h14]
    simp
    omega

/-! ## Descriptor memory -/

namespace Tx_buffer_descriptor

@[simp] theorem buffer_count_put (s : Tx_buffer_descriptor) (i : Nat) (d : descriptor_t) :
    (s.put i d).buffer_count = s.buffer_count := by
  simp [put, buffer_count]

@[simp] theorem head_idx_put (s : Tx_buffer_descriptor) (i : Nat) (d : descriptor_t) :
    (s.put i d).head_idx = s.head_idx := rfl

@[simp] theorem tail_idx_put (s : Tx_buffer_descriptor) (i : Nat) (d : descriptor_t) :
    (s.put i d).tail_idx = s.tail_idx := rfl

@[simp] theorem trace_put (s : Tx_buffer_descriptor) (i : Nat) (d : descriptor_t) :
    (s.put i d).trace = s.trace := rfl

@[simp] theorem phys_base_put (s : Tx_buffer_descriptor) (i : Nat) (d : descriptor_t) :
    (s.put i d)._phys_base = s._phys_base := rfl

theorem max_index_put (s : Tx_buffer_descriptor) (i : Nat) (d : descriptor_t) :
    (s.put i d)._max_index = s._max_index := by
  simp [_max_index]

theorem slot_put_self (s : Tx_buffer_descriptor) (i : Nat) (d : descriptor_t)
    (hi : i < s.buffer_count) : (s.put i d).slot i = d := by
  unfold slot put buffer_count at *
  simp [List.getD_eq_getElem?_getD, List.getElem?_set, hi]

theorem slot_put_other (s : Tx_buffer_descriptor) (i j : Nat) (d : descriptor_t)
    (hij : i ≠ j) : (s.put i d).slot j = s.slot j := by
  unfold slot put
  simp [List.getD_eq_getElem?_getD, List.getElem?_set, hij]

@[simp] theorem put_put (s : Tx_buffer_descriptor) (i : Nat) (d e : descriptor_t) :
    (s.put i d).put i e = s.put i e := by
  simp [put]

theorem reset_descriptor_eq (s : Tx_buffer_descriptor) (i phys : Nat)
    (hi : i < s.buffer_count) :
    s._reset_descriptor i phys =
      s.put i ⟨phys % 2 ^ 32,
        ((Status.Used.bits 1 ||| Status.Last_buffer.bits 1) % 2 ^ 32 |||
          (if i = s._max_index then Status.Wrap.bits 1 else 0)) % 2 ^ 32⟩ := by
  have hmax : ¬ i > s._max_index := by
    unfold _max_index; omega
  unfold _reset_descriptor
  rw [if_neg hmax]
  simp only [store_addr, store_status, put_put, slot_put_self _ _ _ hi, buffer_count_put,
    max_index_put]
  by_cases hw : i = s._max_index
  · simp only [if_pos hw, put_put, slot_put_self _ _ _ hi]
  · rw [if_neg hw, if_neg hw]
    simp

theorem add_to_queue_commit_eq (s : Tx_buffer_descriptor) (phys size : Nat)
    (hh : s.head_idx < s.buffer_count) (h14 : size < 2 ^ 14) :
    s.add_to_queue_commit phys size =
      (s.put s.head_idx
          ⟨phys % 2 ^ 32,
            size + 2 ^ 15 + (if s.head_idx = s._max_index then 2 ^ 30 else 0)⟩)._advance_head := by
  have hst := status_commit size h14 (decide (s.head_idx = s._max_index))
  unfold add_to_queue_commit
  rw [_head_index, reset_descriptor_eq s _ _ hh]
  simp only [store_status, _head, head_idx_put, put_put, slot_put_self _ _ _ hh]
  simp only [decide_eq_true_eq] at hst
  rw [hst]

/-! ## The NIC and the polling loop -/

theorem hw_writeback_with_trace (s : Tx_buffer_descriptor) (tr : List Event)
    (c : Hw_writeback) :
    hw_writeback { s with trace := tr } c = { hw_writeback s c with trace := tr } := by
  unfold hw_writeback
  by_cases h : c.index < s.buffer_count
  · have h' : c.index < buffer_count { s with trace := tr } := h
    rw [if_pos h, if_pos h']
    rfl
  · have h' : ¬ c.index < buffer_count { s with trace := tr } := h
    rw [if_neg h, if_neg h']

theorem hw_writebacks_with_trace (cs : List Hw_writeback) :
    ∀ (s : Tx_buffer_descriptor) (tr : List Event),
      hw_writebacks { s with trace := tr } cs = { hw_writebacks s cs with trace := tr } := by
  induction cs with
  | nil => intro s tr; rfl
  | cons c cs ih =>
    intro s tr
    simp only [hw_writebacks, List.foldl_cons] at ih ⊢
    rw [hw_writeback_with_trace, ih]

theorem hw_sleeps_with_trace (k : Nat) :
    ∀ (hw : List (List Hw_writeback)) (s : Tx_buffer_descriptor) (tr : List Event),
      hw_sleeps { s with trace := tr } hw k = { hw_sleeps s hw k with trace := tr } := by
  induction k with
  | zero => intro hw s tr; rfl
  | succ k ih =>
    intro hw s tr
    simp only [hw_sleeps]
    rw [hw_writebacks_with_trace, ih]

theorem wait_used_of_used (ticks : Nat) (hw : List (List Hw_writeback))
    (s : Tx_buffer_descriptor) (hused : Status.Used.get s._head.status ≠ 0) :
    wait_used ticks hw s = Result.returned s := by
  cases ticks <;> simp [wait_used, hused]

theorem wait_used_timeout (ticks : Nat) :
    ∀ (hw : List (List Hw_writeback)) (s : Tx_buffer_descriptor),
      (∀ k, k ≤ ticks → Status.Used.get (hw_sleeps s hw k)._head.status = 0) →
      wait_used ticks hw s = Result.Package_send_timeout
        { hw_sleeps s hw ticks with
          trace := s.trace ++ List.replicate ticks (Event.usleep 1000) } := by
  induction ticks with
  | zero =>
    intro hw s h
    have h0 := h 0 (Nat.le_refl 0)
    simp only [hw_sleeps] at h0
    simp [wait_used, h0, hw_sleeps]
  | succ t ih =>
    intro hw s h
    have h0 := h 0 (Nat.zero_le _)
    simp only [hw_sleeps] at h0
    have hstep : ∀ k, k ≤ t →
        Status.Used.get
          (hw_sleeps (s.usleep 1000 (hw.headD [])) hw.tail k)._head.status = 0 := by
      intro k hk
      have := h (k + 1) (Nat.succ_le_succ hk)
      simp only [hw_sleeps] at this
      simp only [usleep, emit, hw_writebacks_with_trace, hw_sleeps_with_trace]
      exact this
    simp only [wait_used, h0, ne_eq, not_true_eq_false, if_false]
    rw [ih _ _ hstep]
    simp only [usleep, emit, hw_writebacks_with_trace, hw_sleeps_with_trace, hw_sleeps]
    simp [List.replicate_succ]

theorem same_frame_refl (s : Tx_buffer_descriptor) : same_frame s s :=
  ⟨rfl, rfl, rfl, rfl, rfl, rfl⟩

theorem same_frame_trans {s t u : Tx_buffer_descriptor} (h1 : same_frame s t)
    (h2 : same_frame t u) : same_frame s u := by
  unfold same_frame at *
  refine ⟨?_, ?_, ?_, ?_, ?_, ?_⟩
  · rw [h2.1, h1.1]
  · rw [h2.2.1, h1.2.1]
  · rw [h2.2.2.1, h1.2.2.1]
  · rw [h2.2.2.2.1, h1.2.2.2.1]
  · rw [h2.2.2.2.2.1, h1.2.2.2.2.1]
  · rw [h2.2.2.2.2.2, h1.2.2.2.2.2]

theorem same_frame_hw_writeback (s : Tx_buffer_descriptor) (c : Hw_writeback) :
    same_frame s (s.hw_writeback c) := by
  unfold hw_writeback
  split
  · exact ⟨rfl, rfl, buffer_count_put _ _ _, rfl, rfl, rfl⟩
  · exact same_frame_refl s

theorem same_frame_hw_writebacks (cs : List Hw_writeback) :
    ∀ s : Tx_buffer_descriptor, same_frame s (s.hw_writebacks cs) := by
  induction cs with
  | nil => intro s; exact same_frame_refl s
  | cons c cs ih =>
    intro s
    exact same_frame_trans (same_frame_hw_writeback s c) (ih (s.hw_writeback c))

theorem same_frame_hw_sleeps (k : Nat) :
    ∀ (hw : List (List Hw_writeback)) (s : Tx_buffer_descriptor),
      same_frame s (s.hw_sleeps hw k) := by
  induction k with
  | zero => intro hw s; exact same_frame_refl s
  | succ k ih =>
    intro hw s
    exact same_frame_trans (same_frame_hw_writebacks _ s) (ih hw.tail _)

theorem hw_sleeps_idle (k : Nat) :
    ∀ (hw : List (List Hw_writeback)) (s : Tx_buffer_descriptor),
      (∀ cs ∈ hw, cs = []) → s.hw_sleeps hw k = s := by
  induction k with
  | zero => intro hw s _; rfl
  | succ k ih =>
    intro hw s h
    cases hw with
    | nil => exact ih [] s (by simp)
    | cons cs rest =>
      have hcs : cs = [] := h cs (List.mem_cons_self _ _)
      subst hcs
      exact ih rest s (fun cs hm => h cs (List.mem_cons_of_mem _ hm))

end Tx_buffer_descriptor

/-! ## C1, C2: the reclaim loop re-reads `_queued()` while it advances the tail -/

/-- C1, the code at the end-to-end scenario of the specification. The
scenario state meets the premise of the claim (two slots queued, both with
the used bit set and a non-zero address, every packet valid for the sink),
yet one call `submit_acks()` acknowledges P1 only: the tail stops at 1,
short of the head at 2, and slot 1 keeps the address of P2. -/
theorem submit_acks_scenario_stops_after_first :
    (scenario_completed._queued = 2 ∧
      Status.Used.get (scenario_completed.slot 0).status = 1 ∧
      Status.Used.get (scenario_completed.slot 1).status = 1 ∧
      (scenario_completed.slot 0).addr = 0x10000000 ∧
      (scenario_completed.slot 1).addr = 0x10000040) ∧
    ack_log (scenario_completed.submit_acks 32 (fun _ => true) false).trace = [P1] ∧
    (scenario_completed.submit_acks 32 (fun _ => true) false).tail_idx = 1 ∧
    (scenario_completed.submit_acks 32 (fun _ => true) false).head_idx = 2 ∧
    ((scenario_completed.submit_acks 32 (fun _ => true) false).slot 0).addr = 0 ∧
    ((scenario_completed.submit_acks 32 (fun _ => true) false).slot 1).addr = 0x10000040 := by
  decide

/-- C2, the code at a ring of 4 slots with P1 and P2 in flight: `reset()`
acknowledges P1 only. The indices are cleared while slot 1 still holds the
address of P2, which is never acknowledged. -/
theorem reset_scenario_drops_second :
    (scenario_enqueued._queued = 2 ∧
      (scenario_enqueued.slot 0).addr = 0x10000000 ∧
      (scenario_enqueued.slot 1).addr = 0x10000040) ∧
    ack_log (scenario_enqueued.reset 32 (fun _ => true)).trace = [P1] ∧
    (scenario_enqueued.reset 32 (fun _ => true)).head_idx = 0 ∧
    (scenario_enqueued.reset 32 (fun _ => true)).tail_idx = 0 ∧
    ((scenario_enqueued.reset 32 (fun _ => true)).slot 1).addr = 0x10000040 ∧
    ack_log ((scenario_enqueued.reset 32 (fun _ => true)).submit_acks 32
      (fun _ => true) true).trace = [P1] := by
  decide

/-! ## C3: the indices after `reset` -/

/-- C3: after `reset()` the head index and the tail index are 0, and
`_queued()` is 0, in every ring state. -/
theorem reset_clears_indices (w : Nat) (packet_valid : Packet_descriptor → Bool)
    (s : Tx_buffer_descriptor) :
    (s.reset w packet_valid).head_idx = 0 ∧ (s.reset w packet_valid).tail_idx = 0 ∧
      (s.reset w packet_valid)._queued = 0 := by
  simp [Tx_buffer_descriptor.reset, Tx_buffer_descriptor._reset_head,
    Tx_buffer_descriptor._reset_tail, Tx_buffer_descriptor._queued,
    Tx_buffer_descriptor.buffer_count]

/-! ## C6, C7: the DMA pool -/

/-- C6, counterexample: in the pool `(base, size) = (0x1000, 0x100)` the
address `0x1080` lies inside `[base, base+size)`, yet
`packet_descriptor(0x1080, 0x100)` is the invalid descriptor `(0,0)` and not
`(0x1080 - base, 0x100)`: the region runs past the end of the pool. -/
theorem packet_descriptor_inside_rejected :
    ((0x1000 : Nat) ≤ 0x1080 ∧ 0x1080 < 0x1000 + 0x100) ∧
      Dma_pool_base.packet_descriptor 32 ⟨0x1000, 0x100⟩ 0x1080 0x100 = ⟨0, 0⟩ ∧
      Dma_pool_base.packet_descriptor 32 ⟨0x1000, 0x100⟩ 0x1080 0x100 ≠
        ⟨0x1080 - 0x1000, 0x100⟩ := by
  decide

/-- C6, amended: when neither the end of the region nor the end of the pool
overflows the machine word, `packet_descriptor(dma_addr, len)` is the invalid
descriptor `(0,0)` if `dma_addr < base` or `dma_addr + len > base + size`, and
`(dma_addr - base, len)` otherwise. -/
theorem packet_descriptor_region (w : Nat) (pool : Dma_pool_base) (dma_addr len : Nat)
    (hreg : dma_addr + len < 2 ^ w) (hpool : pool._dma_base_addr + pool._size < 2 ^ w) :
    (dma_addr < pool._dma_base_addr ∨ pool._dma_base_addr + pool._size < dma_addr + len →
      pool.packet_descriptor w dma_addr len = ⟨0, 0⟩) ∧
    (pool._dma_base_addr ≤ dma_addr ∧ dma_addr + len ≤ pool._dma_base_addr + pool._size →
      pool.packet_descriptor w dma_addr len = ⟨dma_addr - pool._dma_base_addr, len⟩) := by
  unfold Dma_pool_base.packet_descriptor
  rw [wrap_add_of_lt hreg, wrap_add_of_lt hpool]
  constructor
  · intro h
    rw [if_pos h]
  · intro h
    rw [if_neg (by omega), wrap_sub_of_le h.1 (by omega)]

/-- Witness for C6: the region `[0x1040, 0x1080)` in the pool `(0x1000, 0x2000)`. -/
theorem packet_descriptor_region_witness :
    (0x1040 + 64 < 2 ^ 32 ∧ 0x1000 + 0x2000 < 2 ^ 32) ∧
    ((0x1040 < 0x1000 ∨ 0x1000 + 0x2000 < 0x1040 + 64 →
      Dma_pool_base.packet_descriptor 32 ⟨0x1000, 0x2000⟩ 0x1040 64 = ⟨0, 0⟩) ∧
    (0x1000 ≤ 0x1040 ∧ 0x1040 + 64 ≤ 0x1000 + 0x2000 →
      Dma_pool_base.packet_descriptor 32 ⟨0x1000, 0x2000⟩ 0x1040 64 =
        ⟨0x1040 - 0x1000, 64⟩)) :=
  ⟨by decide, packet_descriptor_region 32 ⟨0x1000, 0x2000⟩ 0x1040 64 (by decide) (by decide)⟩

/-- C7, counterexample: in the pool `(base, size) = (0x1000, 0x100)` the
address `0x1080` lies inside `[base, base+size)`, yet with `len = 0x100` the
round trip `dma_addr(packet_descriptor(0x1080, 0x100))` yields `base`, not
`0x1080`. -/
theorem round_trip_inside_fails :
    ((0x1000 : Nat) ≤ 0x1080 ∧ 0x1080 < 0x1000 + 0x100) ∧
      Dma_pool_base.dma_addr 32 ⟨0x1000, 0x100⟩
        (Dma_pool_base.packet_descriptor 32 ⟨0x1000, 0x100⟩ 0x1080 0x100) = 0x1000 ∧
      Dma_pool_base.dma_addr 32 ⟨0x1000, 0x100⟩
        (Dma_pool_base.packet_descriptor 32 ⟨0x1000, 0x100⟩ 0x1080 0x100) ≠ 0x1080 := by
  decide

/-- C7, amended: for every pool `(base, size)` whose end does not overflow
the machine word, and every `dma_addr` and `len` with `base ≤ dma_addr` and
`dma_addr + len ≤ base + size`, the round trip
`dma_addr(packet_descriptor(dma_addr, len))` yields `dma_addr`. -/
theorem round_trip_region (w : Nat) (pool : Dma_pool_base) (dma_addr len : Nat)
    (hpool : pool._dma_base_addr + pool._size < 2 ^ w)
    (hlo : pool._dma_base_addr ≤ dma_addr)
    (hhi : dma_addr + len ≤ pool._dma_base_addr + pool._size) :
    pool.dma_addr w (pool.packet_descriptor w dma_addr len) = dma_addr := by
  have hreg : dma_addr + len < 2 ^ w := Nat.lt_of_le_of_lt hhi hpool
  unfold Dma_pool_base.packet_descriptor
  rw [wrap_add_of_lt hreg, wrap_add_of_lt hpool, if_neg (by omega),
    wrap_sub_of_le hlo (by omega)]
  unfold Dma_pool_base.dma_addr
  show wrap_add w pool._dma_base_addr (dma_addr - pool._dma_base_addr) = dma_addr
  rw [wrap_add_of_lt (by omega)]
  omega

/-- Witness for C7: the region `[0x1040, 0x1080)` in the pool `(0x1000, 0x2000)`. -/
theorem round_trip_region_witness :
    (0x1000 + 0x2000 < 2 ^ 32 ∧ 0x1000 ≤ 0x1040 ∧ 0x1040 + 64 ≤ 0x1000 + 0x2000) ∧
    Dma_pool_base.dma_addr 32 ⟨0x1000, 0x2000⟩
      (Dma_pool_base.packet_descriptor 32 ⟨0x1000, 0x2000⟩ 0x1040 64) = 0x1040 :=
  ⟨by decide, round_trip_region 32 ⟨0x1000, 0x2000⟩ 0x1040 64 (by decide) (by decide)
    (by decide)⟩

/-! ## C8: a packet larger than a slot buffer -/

/-- C8: for every ring state and every packet whose size exceeds
`BUFFER_SIZE`, `add_to_queue` returns, and the only effect is the warning:
head, tail and the descriptor memory are unchanged, the timer does not
sleep, and nothing is acknowledged. -/
theorem add_to_queue_too_big (w BUFFER_SIZE : Nat) (hw : List (List Hw_writeback))
    (p : Packet_descriptor) (s : Tx_buffer_descriptor) (hsize : BUFFER_SIZE < p.size) :
    ∃ s', s.add_to_queue w BUFFER_SIZE hw p = Result.returned s' ∧
      s'.head_idx = s.head_idx ∧ s'.tail_idx = s.tail_idx ∧
      s'._descriptors = s._descriptors ∧
      s'.trace = s.trace ++ [Event.warning Warning.package_too_big] ∧
      sleep_log s'.trace = sleep_log s.trace ∧ ack_log s'.trace = ack_log s.trace := by
  refine ⟨s.emit (Event.warning Warning.package_too_big), ?_, rfl, rfl, rfl, rfl, ?_, ?_⟩
  · unfold Tx_buffer_descriptor.add_to_queue
    rw [if_pos hsize]
  · simp [Tx_buffer_descriptor.emit, sleep_log_append, sleep_log]
  · simp [Tx_buffer_descriptor.emit, ack_log_append, ack_log]

/-- Witness for C8: a packet of 2000 bytes, slot buffers of 1608 bytes. -/
theorem add_to_queue_too_big_witness :
    1608 < (Packet_descriptor.mk 0 2000).size ∧
    ∃ s', scenario_enqueued.add_to_queue 32 1608 [] ⟨0, 2000⟩ = Result.returned s' ∧
      s'.head_idx = scenario_enqueued.head_idx ∧ s'.tail_idx = scenario_enqueued.tail_idx ∧
      s'._descriptors = scenario_enqueued._descriptors ∧
      s'.trace = scenario_enqueued.trace ++ [Event.warning Warning.package_too_big] ∧
      sleep_log s'.trace = sleep_log scenario_enqueued.trace ∧
      ack_log s'.trace = ack_log scenario_enqueued.trace :=
  ⟨by decide, add_to_queue_too_big 32 1608 [] ⟨0, 2000⟩ scenario_enqueued (by decide)⟩

/-! ## C9, C10: `add_to_queue` with a packet of admissible size -/

theorem add_to_queue_admissible (w BUFFER_SIZE : Nat) (hw : List (List Hw_writeback))
    (p : Packet_descriptor) (s : Tx_buffer_descriptor) (hsize : p.size ≤ BUFFER_SIZE) :
    s.add_to_queue w BUFFER_SIZE hw p =
      match Tx_buffer_descriptor.wait_used 10 hw
          { s with trace := s.trace ++ Tx_buffer_descriptor.add_to_queue_prologue w p s } with
      | Result.Package_send_timeout s3 => Result.Package_send_timeout s3
      | Result.returned s3 =>
        Result.returned (s3.add_to_queue_commit (wrap_add w s._phys_base p.offset) p.size) := by
  have hsz : ¬ p.size > BUFFER_SIZE := by omega
  unfold Tx_buffer_descriptor.add_to_queue Tx_buffer_descriptor.add_to_queue_prologue
  rw [if_neg hsz]
  by_cases ha : wrap_add w s._phys_base p.offset &&& 0x1f ≠ 0
  · simp only [if_pos ha, Tx_buffer_descriptor.emit, List.append_assoc, List.singleton_append]
  · simp only [if_neg ha, Tx_buffer_descriptor.emit, List.nil_append]

theorem sleep_log_prologue (w : Nat) (p : Packet_descriptor) (s : Tx_buffer_descriptor) :
    sleep_log (Tx_buffer_descriptor.add_to_queue_prologue w p s) = [] := by
  unfold Tx_buffer_descriptor.add_to_queue_prologue
  split <;> rfl

theorem ack_log_prologue (w : Nat) (p : Packet_descriptor) (s : Tx_buffer_descriptor) :
    ack_log (Tx_buffer_descriptor.add_to_queue_prologue w p s) = [] := by
  unfold Tx_buffer_descriptor.add_to_queue_prologue
  split <;> rfl

theorem sleep_log_replicate_usleep (n us : Nat) :
    sleep_log (List.replicate n (Event.usleep us)) = List.replicate n us := by
  induction n with
  | zero => rfl
  | succ n ih => simp [List.replicate_succ, sleep_log, ih]

theorem ack_log_replicate_usleep (n us : Nat) :
    ack_log (List.replicate n (Event.usleep us)) = [] := by
  induction n with
  | zero => rfl
  | succ n ih => simp [List.replicate_succ, ack_log, ih]

/-- C9: for every ring state and every packet of admissible size, if the
used bit of the head slot is clear at each of the 11 tests of the polling
loop (whatever the NIC does to the ring during the sleeps), `add_to_queue`
throws `Package_send_timeout` after exactly 10 sleeps of 1000 microseconds.
Nothing is acknowledged, head and tail are unchanged, and the call stores
nothing into the descriptor memory: the memory is what the NIC alone made of
it, and is unchanged when the NIC is idle. -/
theorem add_to_queue_timeout (w BUFFER_SIZE : Nat) (hw : List (List Hw_writeback))
    (p : Packet_descriptor) (s : Tx_buffer_descriptor) (hsize : p.size ≤ BUFFER_SIZE)
    (hclear : ∀ k, k ≤ 10 → Status.Used.get (s.hw_sleeps hw k)._head.status = 0) :
    ∃ s', s.add_to_queue w BUFFER_SIZE hw p = Result.Package_send_timeout s' ∧
      sleep_log s'.trace = sleep_log s.trace ++ List.replicate 10 1000 ∧
      ack_log s'.trace = ack_log s.trace ∧
      s'.head_idx = s.head_idx ∧ s'.tail_idx = s.tail_idx ∧
      s'._descriptors = (s.hw_sleeps hw 10)._descriptors ∧
      ((∀ cs ∈ hw, cs = []) → s'._descriptors = s._descriptors) := by
  have hclear' : ∀ k, k ≤ 10 → Status.Used.get
      (Tx_buffer_descriptor.hw_sleeps
        { s with trace := s.trace ++ Tx_buffer_descriptor.add_to_queue_prologue w p s } hw k)._head.status = 0 := by
    intro k hk
    rw [Tx_buffer_descriptor.hw_sleeps_with_trace]
    exact hclear k hk
  have hframe := Tx_buffer_descriptor.same_frame_hw_sleeps 10 hw s
  rw [add_to_queue_admissible w BUFFER_SIZE hw p s hsize,
    Tx_buffer_descriptor.wait_used_timeout 10 hw _ hclear',
    Tx_buffer_descriptor.hw_sleeps_with_trace]
  refine ⟨_, rfl, ?_, ?_, hframe.1, hframe.2.1, rfl, ?_⟩
  · simp only [sleep_log_append, sleep_log_prologue, sleep_log_replicate_usleep,
      List.append_nil]
  · simp only [ack_log_append, ack_log_prologue, ack_log_replicate_usleep, List.append_nil]
  · intro hidle
    show (s.hw_sleeps hw 10)._descriptors = s._descriptors
    rw [Tx_buffer_descriptor.hw_sleeps_idle 10 hw s hidle]

/-- Witness for C9: the ring of 2 slots with both slots in flight, idle NIC. -/
theorem add_to_queue_timeout_witness :
    ((Packet_descriptor.mk 192 64).size ≤ 1608 ∧
      ∀ k, k ≤ 10 → Status.Used.get (scenario_full.hw_sleeps [] k)._head.status = 0) ∧
    ∃ s', scenario_full.add_to_queue 32 1608 [] ⟨192, 64⟩ = Result.Package_send_timeout s' ∧
      sleep_log s'.trace = sleep_log scenario_full.trace ++ List.replicate 10 1000 ∧
      ack_log s'.trace = ack_log scenario_full.trace ∧
      s'.head_idx = scenario_full.head_idx ∧ s'.tail_idx = scenario_full.tail_idx ∧
      s'._descriptors = (scenario_full.hw_sleeps [] 10)._descriptors ∧
      ((∀ cs ∈ ([] : List (List Hw_writeback)), cs = []) →
        s'._descriptors = scenario_full._descriptors) :=
  ⟨by decide, add_to_queue_timeout 32 1608 [] ⟨192, 64⟩ scenario_full (by decide) (by decide)⟩

/-- C10: for every ring state whose head index `h` is a slot of the ring and
whose head slot has the used bit set, and every packet `p` with
`p.size ≤ BUFFER_SIZE` and `p.size < 2^14`, `add_to_queue(p)` returns and
leaves slot `h` with address `phys_base + p.offset` (the machine-word sum,
stored in the 32-bit field), length field `p.size`, last_buffer 1, used 0,
wrap 1 exactly if `h = N - 1`, and every other status bit 0 (the status word
is `p.size + 2^15`, plus `2^30` in the last slot); the head becomes
`(h + 1) mod N`; the tail and every other slot are unchanged. -/
theorem add_to_queue_configures_head (w BUFFER_SIZE : Nat) (hw : List (List Hw_writeback))
    (p : Packet_descriptor) (s : Tx_buffer_descriptor)
    (hhead : s.head_idx < s.buffer_count)
    (hused : Status.Used.get s._head.status ≠ 0)
    (hsize : p.size ≤ BUFFER_SIZE) (h14 : p.size < 2 ^ 14) :
    ∃ s', s.add_to_queue w BUFFER_SIZE hw p = Result.returned s' ∧
      (s'.slot s.head_idx).addr = wrap_add w s._phys_base p.offset % 2 ^ 32 ∧
      (32 ≤ w → s._phys_base + p.offset < 2 ^ 32 →
        (s'.slot s.head_idx).addr = s._phys_base + p.offset) ∧
      Status.Length.get (s'.slot s.head_idx).status = p.size ∧
      Status.Last_buffer.get (s'.slot s.head_idx).status = 1 ∧
      Status.Used.get (s'.slot s.head_idx).status = 0 ∧
      (Status.Wrap.get (s'.slot s.head_idx).status = 1 ↔ s.head_idx = s.buffer_count - 1) ∧
      (s'.slot s.head_idx).status =
        p.size + 2 ^ 15 + (if s.head_idx = s.buffer_count - 1 then 2 ^ 30 else 0) ∧
      s'.head_idx = (s.head_idx + 1) % s.buffer_count ∧
      s'.tail_idx = s.tail_idx ∧
      s'.buffer_count = s.buffer_count ∧
      ∀ i, i ≠ s.head_idx → s'.slot i = s.slot i := by
  have hst : ∀ st : Nat,
      st = p.size + 2 ^ 15 + (if s.head_idx = s.buffer_count - 1 then 2 ^ 30 else 0) →
      Status.Length.get st = p.size ∧ Status.Last_buffer.get st = 1 ∧
        Status.Used.get st = 0 ∧ (Status.Wrap.get st = 1 ↔ s.head_idx = s.buffer_count - 1) := by
    intro st hst
    simp only [bitfield_get_eq_div_mod, Status.Length, Status.Last_buffer, Status.Used,
      Status.Wrap]
    split at hst <;> rename_i hw' <;> simp only [hw', true_iff, false_iff, iff_true, iff_false] <;>
      norm_num at hst ⊢ <;> omega
  obtain ⟨t, ht⟩ : ∃ t : Tx_buffer_descriptor,
      t = { s with trace := s.trace ++ Tx_buffer_descriptor.add_to_queue_prologue w p s } := ⟨_, rfl⟩
  have e1 : t.head_idx = s.head_idx := by rw [ht]
  have e2 : t.tail_idx = s.tail_idx := by rw [ht]
  have e3 : t.buffer_count = s.buffer_count := by rw [ht]; rfl
  have e4 : ∀ i, t.slot i = s.slot i := by intro i; rw [ht]; rfl
  have e5 : t._head = s._head := by rw [ht]; rfl
  have e6 : t._max_index = s.buffer_count - 1 := by rw [ht]; rfl
  rw [add_to_queue_admissible w BUFFER_SIZE hw p s hsize, ← ht,
    Tx_buffer_descriptor.wait_used_of_used 10 hw t (by rw [e5]; exact hused)]
  simp only []
  rw [Tx_buffer_descriptor.add_to_queue_commit_eq t _ _ (by rw [e1, e3]; exact hhead) h14]
  have hslot : ((t.put t.head_idx
      ⟨wrap_add w s._phys_base p.offset % 2 ^ 32,
        p.size + 2 ^ 15 + (if t.head_idx = t._max_index then 2 ^ 30 else 0)⟩)._advance_head).slot
        s.head_idx =
      ⟨wrap_add w s._phys_base p.offset % 2 ^ 32,
        p.size + 2 ^ 15 + (if s.head_idx = s.buffer_count - 1 then 2 ^ 30 else 0)⟩ := by
    show (t.put t.head_idx _).slot s.head_idx = _
    rw [← e1, Tx_buffer_descriptor.slot_put_self t _ _ (by rw [e1, e3]; exact hhead), e6, e1]
  obtain ⟨g1, g2, g3, g4⟩ := hst _ rfl
  refine ⟨_, rfl, ?_, ?_, ?_, ?_, ?_, ?_, ?_, ?_, ?_, ?_, ?_⟩
  · rw [hslot]
  · intro hw32 hfit
    rw [hslot]
    have h2 : (2 : Nat) ^ 32 ≤ 2 ^ w := Nat.pow_le_pow_right (by decide) hw32
    show wrap_add w s._phys_base p.offset % 2 ^ 32 = s._phys_base + p.offset
    rw [wrap_add_of_lt (Nat.lt_of_lt_of_le hfit h2), Nat.mod_eq_of_lt hfit]
  · rw [hslot]; exact g1
  · rw [hslot]; exact g2
  · rw [hslot]; exact g3
  · rw [hslot]; exact g4
  · rw [hslot]
  · show ((t.put _ _).head_idx + 1) % (t.put _ _).buffer_count = _
    rw [Tx_buffer_descriptor.buffer_count_put, Tx_buffer_descriptor.head_idx_put, e1, e3]
  · exact e2
  · show (t.put _ _).buffer_count = _
    rw [Tx_buffer_descriptor.buffer_count_put, e3]
  · intro i hi
    show (t.put t.head_idx _).slot i = _
    rw [Tx_buffer_descriptor.slot_put_other t _ _ _ (by rw [e1]; exact fun h => hi h.symm), e4]

/-- Witness for C10: P1 enqueued into the ring of 4 slots right after the
constructor. -/
theorem add_to_queue_configures_head_witness :
    (scenario_fresh.head_idx < scenario_fresh.buffer_count ∧
      Status.Used.get scenario_fresh._head.status ≠ 0 ∧
      P1.size ≤ 1608 ∧ P1.size < 2 ^ 14) ∧
    ∃ s', scenario_fresh.add_to_queue 32 1608 [] P1 = Result.returned s' ∧
      (s'.slot scenario_fresh.head_idx).addr =
        wrap_add 32 scenario_fresh._phys_base P1.offset % 2 ^ 32 ∧
      (32 ≤ 32 → scenario_fresh._phys_base + P1.offset < 2 ^ 32 →
        (s'.slot scenario_fresh.head_idx).addr = scenario_fresh._phys_base + P1.offset) ∧
      Status.Length.get (s'.slot scenario_fresh.head_idx).status = P1.size ∧
      Status.Last_buffer.get (s'.slot scenario_fresh.head_idx).status = 1 ∧
      Status.Used.get (s'.slot scenario_fresh.head_idx).status = 0 ∧
      (Status.Wrap.get (s'.slot scenario_fresh.head_idx).status = 1 ↔
        scenario_fresh.head_idx = scenario_fresh.buffer_count - 1) ∧
      (s'.slot scenario_fresh.head_idx).status =
        P1.size + 2 ^ 15 +
          (if scenario_fresh.head_idx = scenario_fresh.buffer_count - 1 then 2 ^ 30 else 0) ∧
      s'.head_idx = (scenario_fresh.head_idx + 1) % scenario_fresh.buffer_count ∧
      s'.tail_idx = scenario_fresh.tail_idx ∧
      s'.buffer_count = scenario_fresh.buffer_count ∧
      ∀ i, i ≠ scenario_fresh.head_idx → s'.slot i = scenario_fresh.slot i :=
  ⟨by decide, add_to_queue_configures_head 32 1608 [] P1 scenario_fresh (by decide)
    (by decide) (by decide) (by decide)⟩

/-! ## C4: occupancy and the advance counters -/

namespace Tx_buffer_descriptor

theorem mod_two_cases {x n : Nat} (h : x < 2 * n) :
    x % n = if x < n then x else x - n := by
  split
  · exact Nat.mod_eq_of_lt (by assumption)
  · rw [Nat.mod_eq_sub_mod (by omega), Nat.mod_eq_of_lt (by omega)]

theorem queued_lt (s : Tx_buffer_descriptor) (hwf : s.well_formed) :
    s._queued < s.buffer_count :=
  Nat.mod_lt _ hwf.1

theorem submit_acks_loop_induct (w : Nat) (packet_valid : Packet_descriptor → Bool)
    (force : Bool) (P : Tx_buffer_descriptor → Prop)
    (hbody : ∀ s, P s → 0 < s._queued → P (submit_acks_body w packet_valid s)) :
    ∀ (fuel i : Nat) (s : Tx_buffer_descriptor), P s →
      P (submit_acks_loop w packet_valid force fuel i s) := by
  intro fuel
  induction fuel with
  | zero => intro i s h; exact h
  | succ fuel ih =>
    intro i s h
    unfold submit_acks_loop
    split
    · split
      · exact h
      · exact ih _ _ (hbody s h (by omega))
    · exact h

theorem wait_used_induct (P : Tx_buffer_descriptor → Prop)
    (hsleep : ∀ s cs, P s → P (s.usleep 1000 cs)) :
    ∀ (ticks : Nat) (hw : List (List Hw_writeback)) (s : Tx_buffer_descriptor), P s →
      P (wait_used ticks hw s).state := by
  intro ticks
  induction ticks with
  | zero =>
    intro hw s h
    unfold wait_used
    split <;> exact h
  | succ t ih =>
    intro hw s h
    unfold wait_used
    split
    · exact h
    · exact ih _ _ (hsleep _ _ h)

theorem warn_if_eq (s : Tx_buffer_descriptor) (b : Bitfield) (st : Nat) (msg : Warning) :
    s.warn_if b st msg =
      { s with trace := s.trace ++ (if b.get st ≠ 0 then [Event.warning msg] else []) } := by
  unfold warn_if
  split <;> simp [emit]

theorem submit_acks_configured_eq (w : Nat) (packet_valid : Packet_descriptor → Bool)
    (s : Tx_buffer_descriptor) (ht : s.tail_idx < s.buffer_count) :
    submit_acks_configured w packet_valid s =
      { s.put s.tail_idx ⟨0, s._tail.status⟩ with
        trace := s.trace ++ reclaim_events w packet_valid s } := by
  have key : ∀ e : Event, (s.emit e).store_addr (s.emit e).tail_idx 0 =
      { s.put s.tail_idx ⟨0, s._tail.status⟩ with trace := s.trace ++ [e] } := by
    intro e
    simp [emit, store_addr, put, slot, _tail]
  have kst : ∀ e : Event, (_tail
      { s.put s.tail_idx ⟨0, s._tail.status⟩ with trace := s.trace ++ [e] }).status =
      s._tail.status := by
    intro e
    show ((s.put s.tail_idx ⟨0, s._tail.status⟩).slot s.tail_idx).status = _
    rw [slot_put_self _ _ _ ht]
  unfold submit_acks_configured reclaim_events status_warnings slot_packet
  simp only [warn_if_eq]
  cases hv : packet_valid ⟨wrap_sub w s._tail.addr s._phys_base,
      Status.Length.get s._tail.status⟩
  · simp only [Bool.false_eq_true, if_false, key, kst]
    simp [put, apply_ite (List.map Event.warning)]
  · simp only [if_true, key, kst]
    simp [put, apply_ite (List.map Event.warning)]

theorem add_to_queue_commit_put (s : Tx_buffer_descriptor) (phys size : Nat)
    (hh : s.head_idx < s.buffer_count) :
    ∃ d : descriptor_t, s.add_to_queue_commit phys size = (s.put s.head_idx d)._advance_head := by
  unfold add_to_queue_commit
  rw [_head_index, reset_descriptor_eq s _ _ hh]
  simp only [store_status, _head, head_idx_put, put_put, slot_put_self _ _ _ hh]
  exact ⟨_, rfl⟩

theorem add_to_queue_cases (w BUFFER_SIZE : Nat) (hw : List (List Hw_writeback))
    (p : Packet_descriptor) (s : Tx_buffer_descriptor) (hsize : p.size ≤ BUFFER_SIZE) :
    s.add_to_queue w BUFFER_SIZE hw p = Result.Package_send_timeout
        (wait_used 10 hw { s with trace := s.trace ++ add_to_queue_prologue w p s }).state ∨
    s.add_to_queue w BUFFER_SIZE hw p = Result.returned
        ((wait_used 10 hw { s with trace := s.trace ++ add_to_queue_prologue w p s }).state.add_to_queue_commit
          (wrap_add w s._phys_base p.offset) p.size) := by
  rw [add_to_queue_admissible w BUFFER_SIZE hw p s hsize]
  cases wait_used 10 hw { s with trace := s.trace ++ add_to_queue_prologue w p s } with
  | returned t => right; rfl
  | Package_send_timeout t => left; rfl

theorem count_prologue (w : Nat) (p : Packet_descriptor) (s : Tx_buffer_descriptor) :
    (add_to_queue_prologue w p s).count Event.advance_head = 0 ∧
      (add_to_queue_prologue w p s).count Event.advance_tail = 0 := by
  unfold add_to_queue_prologue
  split <;> simp

theorem count_reclaim_events (w : Nat) (packet_valid : Packet_descriptor → Bool)
    (s : Tx_buffer_descriptor) :
    (reclaim_events w packet_valid s).count Event.advance_head = 0 ∧
      (reclaim_events w packet_valid s).count Event.advance_tail = 0 := by
  unfold reclaim_events
  constructor <;>
  · rw [List.count_cons, List.count_eq_zero_of_not_mem (by simp)]
    split <;> simp

theorem counts_inv_with_trace (s : Tx_buffer_descriptor) (es : List Event)
    (hh : es.count Event.advance_head = 0) (ht : es.count Event.advance_tail = 0)
    (h : counts_inv s) : counts_inv { s with trace := s.trace ++ es } := by
  obtain ⟨hwf, h1, h2, h3⟩ := h
  refine ⟨hwf, ?_, ?_, ?_⟩
  · show (s.trace ++ es).count Event.advance_head % s.buffer_count = s.head_idx
    rw [List.count_append, hh]; exact h1
  · show (s.trace ++ es).count Event.advance_tail % s.buffer_count = s.tail_idx
    rw [List.count_append, ht]; exact h2
  · show (s.trace ++ es).count Event.advance_tail ≤ (s.trace ++ es).count Event.advance_head 
    rw [List.count_append, List.count_append, hh, ht]; exact h3

theorem counts_inv_same_frame (s t : Tx_buffer_descriptor) (hf : same_frame s t)
    (h : counts_inv s) : counts_inv t := by
  obtain ⟨f1, f2, f3, _, _, f6⟩ := hf
  unfold counts_inv well_formed handed reclaimed at *
  rw [f1, f2, f3, f6]
  exact h

theorem same_frame_put (s : Tx_buffer_descriptor) (i : Nat) (d : descriptor_t) :
    same_frame s (s.put i d) :=
  ⟨rfl, rfl, buffer_count_put _ _ _, rfl, rfl, rfl⟩

theorem counts_inv_usleep (s : Tx_buffer_descriptor) (us : Nat) (cs : List Hw_writeback)
    (h : counts_inv s) : counts_inv (s.usleep us cs) := by
  unfold usleep
  refine counts_inv_same_frame _ _ (same_frame_hw_writebacks cs _) ?_
  exact counts_inv_with_trace s [Event.usleep us] (by simp) (by simp) h

theorem counts_inv_advance_head (s : Tx_buffer_descriptor) (h : counts_inv s) :
    counts_inv s._advance_head := by
  obtain ⟨⟨hn, hh, ht⟩, h1, h2, h3⟩ := h
  have hm : (s.head_idx + 1) % s.buffer_count < s.buffer_count := Nat.mod_lt _ hn
  refine ⟨⟨hn, hm, ht⟩, ?_, ?_, ?_⟩
  · show (s.trace ++ [Event.advance_head]).count Event.advance_head % s.buffer_count =
      (s.head_idx + 1) % s.buffer_count
    rw [List.count_append, ← h1]
    simp [handed, Nat.add_mod]
  · show (s.trace ++ [Event.advance_head]).count Event.advance_tail % s.buffer_count = s.tail_idx
    rw [List.count_append]
    simpa using h2
  · show (s.trace ++ [Event.advance_head]).count Event.advance_tail ≤
      (s.trace ++ [Event.advance_head]).count Event.advance_head
    rw [List.count_append, List.count_append]
    simp [handed, reclaimed] at h3 ⊢
    omega

theorem counts_inv_advance_tail (s : Tx_buffer_descriptor) (h : counts_inv s)
    (hq : 0 < s._queued) : counts_inv s._advance_tail := by
  obtain ⟨⟨hn, hh, ht⟩, h1, h2, h3⟩ := h
  have hm : (s.tail_idx + 1) % s.buffer_count < s.buffer_count := Nat.mod_lt _ hn
  have hne : reclaimed s ≠ handed s := by
    intro e
    have : s.head_idx = s.tail_idx := by rw [← h1, ← h2, e]
    unfold _queued at hq
    rw [this] at hq
    have : s.tail_idx + s.buffer_count - s.tail_idx = s.buffer_count := by omega
    rw [this, Nat.mod_self] at hq
    omega
  refine ⟨⟨hn, hh, hm⟩, ?_, ?_, ?_⟩
  · show (s.trace ++ [Event.advance_tail]).count Event.advance_head % s.buffer_count = s.head_idx
    rw [List.count_append]
    simpa using h1
  · show (s.trace ++ [Event.advance_tail]).count Event.advance_tail % s.buffer_count =
      (s.tail_idx + 1) % s.buffer_count
    rw [List.count_append, ← h2]
    simp [reclaimed, Nat.add_mod]
  · show (s.trace ++ [Event.advance_tail]).count Event.advance_tail ≤
      (s.trace ++ [Event.advance_tail]).count Event.advance_head
    rw [List.count_append, List.count_append]
    simp [handed, reclaimed] at h3 hne ⊢
    omega

theorem counts_inv_body (w : Nat) (packet_valid : Packet_descriptor → Bool)
    (s : Tx_buffer_descriptor) (h : counts_inv s) (hq : 0 < s._queued) :
    counts_inv (submit_acks_body w packet_valid s) := by
  unfold submit_acks_body
  by_cases ha : s._tail.addr ≠ 0
  · simp only [if_pos ha]
    rw [submit_acks_configured_eq w packet_valid s h.1.2.2]
    have hc := count_reclaim_events w packet_valid s
    have h' : counts_inv (s.put s.tail_idx ⟨0, s._tail.status⟩) :=
      counts_inv_same_frame _ _ (same_frame_put _ _ _) h
    have hq' : 0 < _queued ({ s.put s.tail_idx ⟨0, s._tail.status⟩ with
        trace := s.trace ++ reclaim_events w packet_valid s }) := by
      unfold _queued at hq ⊢
      show 0 < (s.head_idx + (s.put _ _).buffer_count - s.tail_idx) % (s.put _ _).buffer_count
      rw [buffer_count_put]
      exact hq
    exact counts_inv_advance_tail _
      (counts_inv_with_trace _ _ hc.1 hc.2 h') hq'
  · simp only [if_neg ha]
    exact counts_inv_advance_tail s h hq

theorem counts_inv_submit_acks (w : Nat) (packet_valid : Packet_descriptor → Bool)
    (force : Bool) (s : Tx_buffer_descriptor) (h : counts_inv s) :
    counts_inv (s.submit_acks w packet_valid force) :=
  submit_acks_loop_induct w packet_valid force counts_inv
    (fun s hs hq => counts_inv_body w packet_valid s hs hq) _ _ s h

theorem counts_inv_hw_writeback (s : Tx_buffer_descriptor) (c : Hw_writeback)
    (h : counts_inv s) : counts_inv (s.hw_writeback c) :=
  counts_inv_same_frame _ _ (same_frame_hw_writeback s c) h

theorem counts_inv_add_to_queue (w BUFFER_SIZE : Nat) (hw : List (List Hw_writeback))
    (p : Packet_descriptor) (s : Tx_buffer_descriptor) (h : counts_inv s) :
    counts_inv (s.add_to_queue w BUFFER_SIZE hw p).state := by
  by_cases hsize : p.size ≤ BUFFER_SIZE
  · have hc := count_prologue w p s
    have ht : counts_inv (wait_used 10 hw
        { s with trace := s.trace ++ add_to_queue_prologue w p s }).state :=
      wait_used_induct counts_inv (fun s cs hs => counts_inv_usleep s 1000 cs hs) 10 hw _
        (counts_inv_with_trace s _ hc.1 hc.2 h)
    rcases add_to_queue_cases w BUFFER_SIZE hw p s hsize with e | e
    · rw [e]; exact ht
    · rw [e]
      obtain ⟨d, hd⟩ := add_to_queue_commit_put _ (wrap_add w s._phys_base p.offset) p.size
        ht.1.2.1
      show counts_inv (add_to_queue_commit _ _ _)
      rw [hd]
      exact counts_inv_advance_head _ (counts_inv_same_frame _ _ (same_frame_put _ _ _) ht)
  · have hsz : p.size > BUFFER_SIZE := by omega
    unfold add_to_queue
    rw [if_pos hsz]
    exact counts_inv_with_trace s [Event.warning Warning.package_too_big] (by simp) (by simp) h

end Tx_buffer_descriptor

theorem counts_inv_step (w BUFFER_SIZE : Nat) (packet_valid : Packet_descriptor → Bool)
    (s : Tx_buffer_descriptor) (op : Op) (hop : op ≠ Op.reset)
    (h : Tx_buffer_descriptor.counts_inv s) :
    Tx_buffer_descriptor.counts_inv (step w BUFFER_SIZE packet_valid s op) := by
  cases op with
  | add_to_queue p hw => exact Tx_buffer_descriptor.counts_inv_add_to_queue w BUFFER_SIZE hw p s h
  | submit_acks force => exact Tx_buffer_descriptor.counts_inv_submit_acks w packet_valid force s h
  | reset => exact absurd rfl hop
  | hardware c => exact Tx_buffer_descriptor.counts_inv_hw_writeback s c h

theorem counts_inv_run (w BUFFER_SIZE : Nat) (packet_valid : Packet_descriptor → Bool)
    (ops : List Op) :
    ∀ s : Tx_buffer_descriptor, no_reset ops → Tx_buffer_descriptor.counts_inv s →
      Tx_buffer_descriptor.counts_inv (run w BUFFER_SIZE packet_valid s ops) := by
  induction ops with
  | nil => intro s _ h; exact h
  | cons op ops ih =>
    intro s hno h
    show Tx_buffer_descriptor.counts_inv
      (run w BUFFER_SIZE packet_valid (step w BUFFER_SIZE packet_valid s op) ops)
    exact ih _ (fun o ho => hno o (List.mem_cons_of_mem _ ho))
      (counts_inv_step w BUFFER_SIZE packet_valid s op (hno op (List.mem_cons_self _ _)) h)

namespace Tx_buffer_descriptor

theorem same_frame_reset_descriptor (s : Tx_buffer_descriptor) (i phys : Nat) :
    same_frame s (s._reset_descriptor i phys) := by
  unfold _reset_descriptor store_status store_addr
  split
  · exact same_frame_refl s
  · simp only []
    split
    · exact same_frame_trans (same_frame_trans (same_frame_put _ _ _) (same_frame_put _ _ _))
        (same_frame_put _ _ _)
    · exact same_frame_trans (same_frame_put _ _ _) (same_frame_put _ _ _)

theorem same_frame_foldl_reset (l : List Nat) :
    ∀ s : Tx_buffer_descriptor,
      same_frame s (l.foldl (fun s i => s._reset_descriptor i 0) s) := by
  induction l with
  | nil => intro s; exact same_frame_refl s
  | cons i l ih =>
    intro s
    exact same_frame_trans (same_frame_reset_descriptor s i 0) (ih _)

theorem same_frame_construct (n phys_base virt_base : Nat) :
    same_frame (unconfigured n phys_base virt_base) (construct n phys_base virt_base) :=
  same_frame_foldl_reset _ _

theorem buffer_count_construct (n phys_base virt_base : Nat) :
    (construct n phys_base virt_base).buffer_count = n := by
  rw [(same_frame_construct n phys_base virt_base).2.2.1]
  simp [buffer_count, unconfigured]

theorem counts_inv_construct (n phys_base virt_base : Nat) (hn : 0 < n) :
    counts_inv (construct n phys_base virt_base) := by
  refine counts_inv_same_frame _ _ (same_frame_construct n phys_base virt_base) ?_
  have hb : (unconfigured n phys_base virt_base).buffer_count = n := by
    simp [buffer_count, unconfigured]
  refine ⟨⟨?_, ?_, ?_⟩, ?_, ?_, ?_⟩
  · rw [hb]; exact hn
  · rw [hb]; exact hn
  · rw [hb]; exact hn
  · simp [handed, unconfigured]
  · simp [reclaimed, unconfigured]
  · simp [handed, reclaimed, unconfigured]

theorem same_ring_of_same_frame {s t u : Tx_buffer_descriptor} (h : same_ring s t)
    (hf : same_frame t u) : same_ring s u :=
  ⟨hf.2.2.1.trans h.1, hf.2.2.2.1.trans h.2.1, hf.2.2.2.2.1.trans h.2.2⟩

theorem same_ring_with_trace {s t : Tx_buffer_descriptor} (h : same_ring s t)
    (tr : List Event) : same_ring s { t with trace := tr } := h

theorem same_ring_usleep {s t : Tx_buffer_descriptor} (h : same_ring s t) (us : Nat)
    (cs : List Hw_writeback) : same_ring s (t.usleep us cs) :=
  same_ring_of_same_frame (same_ring_with_trace h _) (same_frame_hw_writebacks cs _)

theorem same_ring_body (w : Nat) (packet_valid : Packet_descriptor → Bool)
    {s t : Tx_buffer_descriptor} (h : same_ring s t) :
    same_ring s (submit_acks_body w packet_valid t) := by
  have hc : ∀ x : Tx_buffer_descriptor, same_ring s x →
      same_ring s (submit_acks_configured w packet_valid x) := by
    intro x hx
    have e : same_ring x (submit_acks_configured w packet_valid x) := by
      unfold submit_acks_configured same_ring
      simp only [warn_if_eq, store_addr]
      refine ⟨?_, ?_, ?_⟩ <;> split <;> simp [emit, put, buffer_count]
    exact ⟨e.1.trans hx.1, e.2.1.trans hx.2.1, e.2.2.trans hx.2.2⟩
  unfold submit_acks_body
  split
  · exact hc t h
  · exact h

theorem same_ring_submit_acks (w : Nat) (packet_valid : Packet_descriptor → Bool)
    (force : Bool) {s t : Tx_buffer_descriptor} (h : same_ring s t) :
    same_ring s (t.submit_acks w packet_valid force) :=
  submit_acks_loop_induct w packet_valid force (same_ring s)
    (fun _ hx _ => same_ring_body w packet_valid hx) _ _ t h

theorem same_ring_commit {s t : Tx_buffer_descriptor} (h : same_ring s t)
    (phys size : Nat) : same_ring s (t.add_to_queue_commit phys size) := by
  obtain ⟨_, _, f3, f4, f5, _⟩ := same_frame_reset_descriptor t t._head_index phys
  obtain ⟨h1, h2, h3⟩ := h
  unfold add_to_queue_commit same_ring
  simp only [_advance_head, store_status, put, buffer_count, List.length_set] at *
  exact ⟨f3.trans h1, f4.trans h2, f5.trans h3⟩

theorem same_ring_add_to_queue (w BUFFER_SIZE : Nat) (hw : List (List Hw_writeback))
    (p : Packet_descriptor) {s t : Tx_buffer_descriptor} (h : same_ring s t) :
    same_ring s (t.add_to_queue w BUFFER_SIZE hw p).state := by
  by_cases hsize : p.size ≤ BUFFER_SIZE
  · have ht : same_ring s (wait_used 10 hw
        { t with trace := t.trace ++ add_to_queue_prologue w p t }).state :=
      wait_used_induct (same_ring s) (fun _ cs hx => same_ring_usleep hx 1000 cs) 10 hw _
        (same_ring_with_trace h _)
    rcases add_to_queue_cases w BUFFER_SIZE hw p t hsize with e | e
    · rw [e]; exact ht
    · rw [e]
      exact same_ring_commit ht _ _
  · have hsz : p.size > BUFFER_SIZE := by omega
    unfold add_to_queue
    rw [if_pos hsz]
    exact h

theorem queued_of_counts_inv (s : Tx_buffer_descriptor) (h : counts_inv s)
    (hlt : in_flight s < s.buffer_count) : s._queued = in_flight s := by
  obtain ⟨⟨hn, hh, ht⟩, h1, h2, h3⟩ := h
  unfold in_flight at *
  unfold _queued
  have hsplit : handed s = reclaimed s + (handed s - reclaimed s) := by omega
  have hd : (handed s - reclaimed s) % s.buffer_count = handed s - reclaimed s :=
    Nat.mod_eq_of_lt hlt
  have hhead : s.head_idx = (s.tail_idx + (handed s - reclaimed s)) % s.buffer_count := by
    rw [← h1, ← h2]
    conv_lhs => rw [hsplit]
    rw [Nat.add_mod, hd]
  rw [hhead, mod_two_cases (by omega : s.tail_idx + (handed s - reclaimed s) < 2 * s.buffer_count)]
  split
  · rw [mod_two_cases (by omega)]
    split <;> omega
  · rw [mod_two_cases (by omega)]
    split <;> omega

end Tx_buffer_descriptor

theorem Tx_buffer_descriptor.same_ring_refl (s : Tx_buffer_descriptor) :
    Tx_buffer_descriptor.same_ring s s := ⟨rfl, rfl, rfl⟩

theorem same_ring_step (w BUFFER_SIZE : Nat) (packet_valid : Packet_descriptor → Bool)
    (op : Op) {s t : Tx_buffer_descriptor} (h : Tx_buffer_descriptor.same_ring s t) :
    Tx_buffer_descriptor.same_ring s (step w BUFFER_SIZE packet_valid t op) := by
  cases op with
  | add_to_queue p hw => exact Tx_buffer_descriptor.same_ring_add_to_queue w BUFFER_SIZE hw p h
  | submit_acks force => exact Tx_buffer_descriptor.same_ring_submit_acks w packet_valid force h
  | reset => exact Tx_buffer_descriptor.same_ring_submit_acks w packet_valid true h
  | hardware c =>
    exact Tx_buffer_descriptor.same_ring_of_same_frame h
      (Tx_buffer_descriptor.same_frame_hw_writeback t c)

theorem same_ring_run (w BUFFER_SIZE : Nat) (packet_valid : Packet_descriptor → Bool)
    (ops : List Op) :
    ∀ s t : Tx_buffer_descriptor, Tx_buffer_descriptor.same_ring s t →
      Tx_buffer_descriptor.same_ring s (run w BUFFER_SIZE packet_valid t ops) := by
  induction ops with
  | nil => intro s t h; exact h
  | cons op ops ih =>
    intro s t h
    exact ih s _ (same_ring_step w BUFFER_SIZE packet_valid op h)

/-- C4, counterexample: on a ring of `N = 2` slots right after the
constructor, two calls of `add_to_queue` succeed; the number of slots in
flight is 0, 1, 2 along the run and so never exceeds `N`, yet at the end
`_queued()` is 0 while 2 slots have been handed over and none reclaimed. -/
theorem queued_wraps_at_capacity :
    no_reset [Op.add_to_queue P1 [], Op.add_to_queue P2 []] ∧
    in_flight_below 32 1608 (fun _ => true)
      (Tx_buffer_descriptor.construct 2 0x10000000 0x20000000)
      [Op.add_to_queue P1 [], Op.add_to_queue P2 []] (2 + 1) ∧
    in_flight scenario_full = 2 ∧ scenario_full._queued = 0 := by
  decide

/-- C4, amended: for every run of `add_to_queue` and `submit_acks` calls
and NIC write-backs (no `reset`), started on a ring of `N` slots right after
the constructor, in which the number of slots in flight stays below `N`,
`_queued()` equals the number of slots handed to the hardware minus the
number of slots reclaimed. -/
theorem queued_counts_in_flight (w BUFFER_SIZE : Nat)
    (packet_valid : Packet_descriptor → Bool) (n phys_base virt_base : Nat) (ops : List Op)
    (hno : no_reset ops)
    (hbelow : in_flight_below w BUFFER_SIZE packet_valid
      (Tx_buffer_descriptor.construct n phys_base virt_base) ops n) :
    (run w BUFFER_SIZE packet_valid
        (Tx_buffer_descriptor.construct n phys_base virt_base) ops)._queued =
      handed (run w BUFFER_SIZE packet_valid
        (Tx_buffer_descriptor.construct n phys_base virt_base) ops) -
      reclaimed (run w BUFFER_SIZE packet_valid
        (Tx_buffer_descriptor.construct n phys_base virt_base) ops) := by
  have hn : 0 < n := by
    have := hbelow 0 (Nat.zero_le _)
    omega
  have hinv := counts_inv_run w BUFFER_SIZE packet_valid ops _ hno
    (Tx_buffer_descriptor.counts_inv_construct n phys_base virt_base hn)
  have hlast := hbelow ops.length (Nat.le_refl _)
  rw [List.take_length] at hlast
  have hcount : (run w BUFFER_SIZE packet_valid
      (Tx_buffer_descriptor.construct n phys_base virt_base) ops).buffer_count = n := by
    rw [(same_ring_run w BUFFER_SIZE packet_valid ops _ _
      (Tx_buffer_descriptor.same_ring_refl _)).1]
    exact Tx_buffer_descriptor.buffer_count_construct n phys_base virt_base
  exact Tx_buffer_descriptor.queued_of_counts_inv _ hinv (by rw [hcount]; exact hlast)

/-- Witness for C4: the end-to-end scenario on a ring of 4 slots. -/
theorem queued_counts_in_flight_witness :
    (no_reset [Op.add_to_queue P1 [], Op.add_to_queue P2 [], Op.hardware ⟨0, 0⟩,
        Op.hardware ⟨1, 0⟩, Op.submit_acks false] ∧
      in_flight_below 32 1608 (fun _ => true)
        (Tx_buffer_descriptor.construct 4 0x10000000 0x20000000)
        [Op.add_to_queue P1 [], Op.add_to_queue P2 [], Op.hardware ⟨0, 0⟩,
          Op.hardware ⟨1, 0⟩, Op.submit_acks false] 4) ∧
    (run 32 1608 (fun _ => true) (Tx_buffer_descriptor.construct 4 0x10000000 0x20000000)
        [Op.add_to_queue P1 [], Op.add_to_queue P2 [], Op.hardware ⟨0, 0⟩,
          Op.hardware ⟨1, 0⟩, Op.submit_acks false])._queued =
      handed (run 32 1608 (fun _ => true)
        (Tx_buffer_descriptor.construct 4 0x10000000 0x20000000)
        [Op.add_to_queue P1 [], Op.add_to_queue P2 [], Op.hardware ⟨0, 0⟩,
          Op.hardware ⟨1, 0⟩, Op.submit_acks false]) -
      reclaimed (run 32 1608 (fun _ => true)
        (Tx_buffer_descriptor.construct 4 0x10000000 0x20000000)
        [Op.add_to_queue P1 [], Op.add_to_queue P2 [], Op.hardware ⟨0, 0⟩,
          Op.hardware ⟨1, 0⟩, Op.submit_acks false]) :=
  ⟨by decide, queued_counts_in_flight 32 1608 (fun _ => true) 4 0x10000000 0x20000000
    [Op.add_to_queue P1 [], Op.add_to_queue P2 [], Op.hardware ⟨0, 0⟩,
      Op.hardware ⟨1, 0⟩, Op.submit_acks false] (by decide) (by decide)⟩

/-! ## C5: acknowledgments follow the enqueue order -/

namespace Tx_buffer_descriptor

theorem queued_advance_tail (s : Tx_buffer_descriptor) (hwf : s.well_formed)
    (hq : 0 < s._queued) : s._advance_tail._queued = s._queued - 1 := by
  obtain ⟨hn, hh, ht⟩ := hwf
  unfold _queued at *
  show (s.head_idx + s.buffer_count - (s.tail_idx + 1) % s.buffer_count) % s.buffer_count = _
  rw [mod_two_cases (by omega : s.head_idx + s.buffer_count - s.tail_idx < 2 * s.buffer_count)]
    at hq ⊢
  rw [mod_two_cases (by omega : s.tail_idx + 1 < 2 * s.buffer_count)]
  split at hq <;> split <;> rw [mod_two_cases (by omega)] <;> split <;> omega

theorem queued_advance_head (s : Tx_buffer_descriptor) (hwf : s.well_formed) :
    s._advance_head._queued = if s._queued + 1 < s.buffer_count then s._queued + 1 else 0 := by
  obtain ⟨hn, hh, ht⟩ := hwf
  unfold _queued at *
  show ((s.head_idx + 1) % s.buffer_count + s.buffer_count - s.tail_idx) % s.buffer_count = _
  rw [mod_two_cases (by omega : s.head_idx + s.buffer_count - s.tail_idx < 2 * s.buffer_count)]
  rw [mod_two_cases (by omega : s.head_idx + 1 < 2 * s.buffer_count)]
  split <;> split <;> rw [mod_two_cases (by omega)] <;> split <;> split <;> omega

theorem window_advance_tail (s : Tx_buffer_descriptor) (hwf : s.well_formed)
    (hq : 0 < s._queued) : window s = s.tail_idx :: window s._advance_tail := by
  have hq' := queued_advance_tail s hwf hq
  obtain ⟨hn, hh, ht⟩ := hwf
  unfold window
  rw [hq']
  obtain ⟨q, hqe⟩ : ∃ q, s._queued = q + 1 := ⟨s._queued - 1, by omega⟩
  rw [hqe, List.range_succ_eq_map, List.map_cons, List.map_map]
  simp only [Nat.add_sub_cancel, Nat.add_zero]
  rw [Nat.mod_eq_of_lt ht]
  congr 1
  apply List.map_congr_left
  intro k _
  show (s.tail_idx + (k + 1)) % s.buffer_count =
    ((s.tail_idx + 1) % s.buffer_count + k) % (s._advance_tail).buffer_count
  show (s.tail_idx + (k + 1)) % s.buffer_count =
    ((s.tail_idx + 1) % s.buffer_count + k) % s.buffer_count
  rw [Nat.mod_add_mod]
  congr 1
  omega

theorem window_advance_tail_ne (s : Tx_buffer_descriptor) (hwf : s.well_formed)
    (hq : 0 < s._queued) : ∀ i ∈ window s._advance_tail, i ≠ s.tail_idx := by
  have hq' := queued_advance_tail s hwf hq
  have hlt := queued_lt s hwf
  obtain ⟨hn, hh, ht⟩ := hwf
  intro i hi
  unfold window at hi
  rw [hq'] at hi
  obtain ⟨k, hk, rfl⟩ := List.mem_map.mp hi
  rw [List.mem_range] at hk
  show ((s.tail_idx + 1) % s.buffer_count + k) % s.buffer_count ≠ s.tail_idx
  rw [Nat.mod_add_mod, mod_two_cases (by omega)]
  split <;> omega

theorem window_advance_head (s : Tx_buffer_descriptor) (hwf : s.well_formed)
    (hroom : s._queued + 1 < s.buffer_count) :
    window s._advance_head = window s ++ [s.head_idx] := by
  have hq' := queued_advance_head s hwf
  rw [if_pos hroom] at hq'
  obtain ⟨hn, hh, ht⟩ := hwf
  unfold window
  rw [hq', List.range_succ, List.map_append]
  show _ ++ [(s.tail_idx + s._queued) % s.buffer_count] = _
  congr 2
  unfold _queued
  rw [mod_two_cases (by omega : s.head_idx + s.buffer_count - s.tail_idx < 2 * s.buffer_count)]
  split <;> rw [mod_two_cases (by omega)] <;> split <;> omega

theorem window_full (s : Tx_buffer_descriptor) (hwf : s.well_formed)
    (hfull : ¬ s._queued + 1 < s.buffer_count) : window s._advance_head = [] := by
  have hq' := queued_advance_head s hwf
  rw [if_neg hfull] at hq'
  unfold window
  rw [hq']
  rfl

theorem window_ne_head (s : Tx_buffer_descriptor) (hwf : s.well_formed) :
    ∀ i ∈ window s, i ≠ s.head_idx := by
  obtain ⟨hn, hh, ht⟩ := hwf
  intro i hi
  unfold window at hi
  obtain ⟨k, hk, rfl⟩ := List.mem_map.mp hi
  rw [List.mem_range] at hk
  unfold _queued at hk
  rw [mod_two_cases (by omega : s.head_idx + s.buffer_count - s.tail_idx < 2 * s.buffer_count)]
    at hk
  rw [mod_two_cases (by split at hk <;> omega)]
  split at hk <;> split <;> omega

theorem pending_congr (w : Nat) (s t : Tx_buffer_descriptor)
    (hh : t.head_idx = s.head_idx) (ht : t.tail_idx = s.tail_idx)
    (hn : t.buffer_count = s.buffer_count) (hp : t._phys_base = s._phys_base)
    (hs : ∀ i ∈ window s, packet_of w s._phys_base (t.slot i) =
      packet_of w s._phys_base (s.slot i)) :
    pending w t = pending w s := by
  have hw : window t = window s := by
    unfold window _queued
    rw [hh, ht, hn]
  unfold pending
  rw [hw, hp]
  exact List.filterMap_congr hs

theorem length_get_hw (st e : Nat) :
    Status.Length.get
      ((st ||| Status.Used.bits 1 ||| (e &&& HW_ERROR_MASK)) % 2 ^ 32) =
      Status.Length.get st := by
  rw [bitfield_get_eq_div_mod, bitfield_get_eq_div_mod]
  show _ / 2 ^ 0 % 2 ^ 14 = st / 2 ^ 0 % 2 ^ 14
  rw [Nat.pow_zero, Nat.div_one, Nat.div_one]
  apply Nat.eq_of_testBit_eq
  intro i
  have hu : Status.Used.bits 1 = 2 ^ 16 * 32768 := by decide
  have hm : HW_ERROR_MASK = 2 ^ 16 * 16369 := by decide
  simp only [Nat.testBit_mod_two_pow, Nat.testBit_or, Nat.testBit_and, hu, hm,
    Nat.testBit_mul_pow_two]
  by_cases h14 : i < 14
  · have h16 : ¬ i ≥ 16 := by omega
    have h32 : i < 32 := by omega
    simp [h14, h16, h32]
  · simp [h14]

theorem packet_of_hw (w phys_base : Nat) (d : descriptor_t) (e : Nat) :
    packet_of w phys_base
      { d with status := (d.status ||| Status.Used.bits 1 ||| (e &&& HW_ERROR_MASK)) % 2 ^ 32 } =
      packet_of w phys_base d := by
  unfold packet_of slot_packet
  simp only [length_get_hw]

theorem pending_hw_writeback (w : Nat) (s : Tx_buffer_descriptor) (c : Hw_writeback) :
    pending w (s.hw_writeback c) = pending w s := by
  obtain ⟨f1, f2, f3, f4, _, _⟩ := same_frame_hw_writeback s c
  refine pending_congr w s _ f1 f2 f3 f4 ?_
  intro i _
  unfold hw_writeback
  split
  · rename_i hc
    unfold store_status
    by_cases hi : c.index = i
    · subst hi
      rw [slot_put_self _ _ _ hc]
      exact packet_of_hw w s._phys_base (s.slot c.index) c.errors
    · rw [slot_put_other _ _ _ _ hi]
  · rfl

theorem pending_hw_writebacks (w : Nat) (cs : List Hw_writeback) :
    ∀ s : Tx_buffer_descriptor, pending w (s.hw_writebacks cs) = pending w s := by
  induction cs with
  | nil => intro s; rfl
  | cons c cs ih =>
    intro s
    show pending w ((s.hw_writeback c).hw_writebacks cs) = _
    rw [ih, pending_hw_writeback]

theorem wrap_sub_wrap_add (w a b : Nat) (ha : a < 2 ^ w) (hb : b < 2 ^ w) :
    wrap_sub w (wrap_add w a b) a = b := by
  unfold wrap_sub wrap_add
  generalize 2 ^ w = m at *
  rw [Nat.mod_mod, Nat.mod_eq_of_lt ha, mod_two_cases (by omega : a + b < 2 * m)]
  split <;> rw [mod_two_cases (by omega)] <;> split <;> omega

theorem well_formed_same_frame {s t : Tx_buffer_descriptor} (hf : same_frame s t)
    (h : s.well_formed) : t.well_formed := by
  obtain ⟨f1, f2, f3, _, _, _⟩ := hf
  unfold well_formed at *
  rw [f1, f2, f3]
  exact h

theorem fifo_inv_with_trace (w : Nat) (E : List Packet_descriptor)
    (s : Tx_buffer_descriptor) (es : List Event) (hes : ack_log es = [])
    (h : fifo_inv w E s) : fifo_inv w E { s with trace := s.trace ++ es } := by
  refine ⟨h.1, ?_⟩
  show (ack_log (s.trace ++ es) ++ pending w s).Sublist E
  rw [ack_log_append, hes, List.append_nil]
  exact h.2

theorem fifo_inv_hw_writebacks (w : Nat) (E : List Packet_descriptor)
    (s : Tx_buffer_descriptor) (cs : List Hw_writeback) (h : fifo_inv w E s) :
    fifo_inv w E (s.hw_writebacks cs) := by
  have hf := same_frame_hw_writebacks cs s
  refine ⟨well_formed_same_frame hf h.1, ?_⟩
  rw [hf.2.2.2.2.2, pending_hw_writebacks]
  exact h.2

theorem fifo_inv_usleep (w : Nat) (E : List Packet_descriptor)
    (s : Tx_buffer_descriptor) (us : Nat) (cs : List Hw_writeback) (h : fifo_inv w E s) :
    fifo_inv w E (s.usleep us cs) :=
  fifo_inv_hw_writebacks w E _ cs (fifo_inv_with_trace w E s [Event.usleep us] rfl h)

theorem ack_log_map_warning (ws : List Warning) : ack_log (ws.map Event.warning) = [] := by
  induction ws with
  | nil => rfl
  | cons x xs ih => simpa [ack_log] using ih

theorem ack_log_reclaim_events (w : Nat) (packet_valid : Packet_descriptor → Bool)
    (s : Tx_buffer_descriptor) :
    ack_log (reclaim_events w packet_valid s) =
      if packet_valid (slot_packet w s._phys_base s._tail) then
        [slot_packet w s._phys_base s._tail] else [] := by
  unfold reclaim_events
  split <;> simp [ack_log, ack_log_map_warning]

theorem pending_split (w : Nat) (s : Tx_buffer_descriptor) (hwf : s.well_formed)
    (hq : 0 < s._queued) :
    pending w s = (packet_of w s._phys_base s._tail).toList ++ pending w s._advance_tail := by
  unfold pending
  rw [window_advance_tail s hwf hq, List.filterMap_cons]
  show _ = (packet_of w s._phys_base (s.slot s.tail_idx)).toList ++
    List.filterMap (fun i => packet_of w s._phys_base (s.slot i)) (window s._advance_tail)
  cases packet_of w s._phys_base (s.slot s.tail_idx) <;> rfl

theorem fifo_inv_body (w : Nat) (packet_valid : Packet_descriptor → Bool)
    (E : List Packet_descriptor) (s : Tx_buffer_descriptor) (h : fifo_inv w E s)
    (hq : 0 < s._queued) : fifo_inv w E (submit_acks_body w packet_valid s) := by
  obtain ⟨hwf, hsub⟩ := h
  have hwf' : s._advance_tail.well_formed :=
    ⟨hwf.1, hwf.2.1, Nat.mod_lt _ hwf.1⟩
  rw [pending_split w s hwf hq] at hsub
  unfold submit_acks_body
  by_cases ha : s._tail.addr ≠ 0
  · simp only [if_pos ha]
    rw [submit_acks_configured_eq w packet_valid s hwf.2.2]
    have hpend : pending w (_advance_tail { s.put s.tail_idx ⟨0, s._tail.status⟩ with
        trace := s.trace ++ reclaim_events w packet_valid s }) = pending w s._advance_tail := by
      refine pending_congr w s._advance_tail _ rfl ?_ ?_ rfl ?_
      · show (s.tail_idx + 1) % (s.put _ _).buffer_count = (s.tail_idx + 1) % s.buffer_count
        rw [buffer_count_put]
      · show (s.put _ _).buffer_count = s.buffer_count
        rw [buffer_count_put]
      · intro i hi
        have hne := window_advance_tail_ne s hwf hq i hi
        show packet_of w s._phys_base ((s.put s.tail_idx _).slot i) = _
        rw [slot_put_other _ _ _ _ (fun e => hne e.symm)]
        rfl
    refine ⟨?_, ?_⟩
    · refine ⟨?_, ?_, ?_⟩
      · show 0 < (s.put _ _).buffer_count
        rw [buffer_count_put]; exact hwf.1
      · show s.head_idx < (s.put _ _).buffer_count
        rw [buffer_count_put]; exact hwf.2.1
      · show (s.tail_idx + 1) % (s.put _ _).buffer_count < (s.put _ _).buffer_count
        rw [buffer_count_put]; exact Nat.mod_lt _ hwf.1
    · rw [hpend]
      show (ack_log ((s.trace ++ reclaim_events w packet_valid s) ++ [Event.advance_tail]) ++
        pending w s._advance_tail).Sublist E
      rw [ack_log_append, ack_log_append, ack_log_reclaim_events]
      have hpk : packet_of w s._phys_base s._tail = some (slot_packet w s._phys_base s._tail) := by
        unfold packet_of
        rw [if_pos ha]
      rw [hpk] at hsub
      refine List.Sublist.trans ?_ hsub
      simp only [ack_log, List.append_nil, List.append_assoc]
      refine List.Sublist.append (List.Sublist.refl _) (List.Sublist.append ?_ (List.Sublist.refl _))
      split
      · exact List.Sublist.refl _
      · exact List.nil_sublist _
  · simp only [if_neg ha]
    refine ⟨hwf', ?_⟩
    show (ack_log (s.trace ++ [Event.advance_tail]) ++ pending w s._advance_tail).Sublist E
    rw [ack_log_append]
    refine List.Sublist.trans ?_ hsub
    simp only [ack_log, List.append_nil]
    exact List.Sublist.append (List.Sublist.refl _) (List.sublist_append_right _ _)

theorem fifo_inv_submit_acks (w : Nat) (packet_valid : Packet_descriptor → Bool)
    (force : Bool) (E : List Packet_descriptor) (s : Tx_buffer_descriptor)
    (h : fifo_inv w E s) : fifo_inv w E (s.submit_acks w packet_valid force) :=
  submit_acks_loop_induct w packet_valid force (fifo_inv w E)
    (fun s hs hq => fifo_inv_body w packet_valid E s hs hq) _ _ s h

theorem fifo_inv_reset (w : Nat) (packet_valid : Packet_descriptor → Bool)
    (E : List Packet_descriptor) (s : Tx_buffer_descriptor) (h : fifo_inv w E s) :
    fifo_inv w E (s.reset w packet_valid) := by
  obtain ⟨hwf, hsub⟩ := fifo_inv_submit_acks w packet_valid true E s h
  refine ⟨⟨hwf.1, hwf.1, hwf.1⟩, ?_⟩
  have hp : pending w (s.reset w packet_valid) = [] := by
    have hq : (s.reset w packet_valid)._queued = 0 := by
      simp [reset, _reset_head, _reset_tail, _queued, buffer_count]
    unfold pending window
    rw [hq]
    rfl
  rw [hp, List.append_nil]
  exact List.Sublist.trans (List.sublist_append_left _ _) hsub

theorem length_get_commit (size : Nat) (h14 : size < 2 ^ 14) (wrap : Prop) [Decidable wrap] :
    Status.Length.get (size + 2 ^ 15 + (if wrap then 2 ^ 30 else 0)) = size := by
  rw [bitfield_get_eq_div_mod]
  show _ / 2 ^ 0 % 2 ^ 14 = size
  split <;> omega

theorem fifo_inv_commit (w : Nat) (E : List Packet_descriptor) (p : Packet_descriptor)
    (t : Tx_buffer_descriptor) (h : fifo_inv w E t) (h14 : p.size < 2 ^ 14)
    (haddr : addressable w t._phys_base p) :
    fifo_inv w (E ++ [p])
      (t.add_to_queue_commit (wrap_add w t._phys_base p.offset) p.size) := by
  obtain ⟨hwf, hsub⟩ := h
  obtain ⟨hpb, hoff, hfit⟩ := haddr
  rw [add_to_queue_commit_eq t _ _ hwf.2.1 h14]
  have hwfp : (t.put t.head_idx
      ⟨wrap_add w t._phys_base p.offset % 2 ^ 32,
        p.size + 2 ^ 15 + (if t.head_idx = t._max_index then 2 ^ 30 else 0)⟩).well_formed :=
    well_formed_same_frame (same_frame_put _ _ _) hwf
  have hpk : packet_of w t._phys_base
      ⟨wrap_add w t._phys_base p.offset % 2 ^ 32,
        p.size + 2 ^ 15 + (if t.head_idx = t._max_index then 2 ^ 30 else 0)⟩ =
      if wrap_add w t._phys_base p.offset ≠ 0 then some p else none := by
    unfold packet_of slot_packet
    simp only [Nat.mod_eq_of_lt hfit, length_get_commit p.size h14,
      wrap_sub_wrap_add w _ _ hpb hoff]
  have hpend : (pending w (t.put t.head_idx
      ⟨wrap_add w t._phys_base p.offset % 2 ^ 32,
        p.size + 2 ^ 15 + (if t.head_idx = t._max_index then 2 ^ 30 else 0)⟩)._advance_head).Sublist
      (pending w t ++ [p]) := by
    by_cases hroom : t._queued + 1 < t.buffer_count
    · have hroom' : (t.put t.head_idx
          ⟨wrap_add w t._phys_base p.offset % 2 ^ 32,
            p.size + 2 ^ 15 + (if t.head_idx = t._max_index then 2 ^ 30 else 0)⟩)._queued + 1 <
          (t.put t.head_idx
          ⟨wrap_add w t._phys_base p.offset % 2 ^ 32,
            p.size + 2 ^ 15 +
              (if t.head_idx = t._max_index then 2 ^ 30 else 0)⟩).buffer_count := by
        unfold _queued
        simp only [buffer_count_put, head_idx_put, tail_idx_put]
        exact hroom
      unfold pending
      rw [window_advance_head _ hwfp hroom', List.filterMap_append]
      refine List.Sublist.append ?_ ?_
      · have hw : window (t.put t.head_idx
            ⟨wrap_add w t._phys_base p.offset % 2 ^ 32,
              p.size + 2 ^ 15 + (if t.head_idx = t._max_index then 2 ^ 30 else 0)⟩) =
            window t := by
          unfold window _queued
          simp only [buffer_count_put, head_idx_put, tail_idx_put]
        rw [hw]
        have e : List.filterMap (fun i => packet_of w t._phys_base ((t.put t.head_idx
            ⟨wrap_add w t._phys_base p.offset % 2 ^ 32,
              p.size + 2 ^ 15 + (if t.head_idx = t._max_index then 2 ^ 30 else 0)⟩).slot i))
            (window t) =
            List.filterMap (fun i => packet_of w t._phys_base (t.slot i)) (window t) := by
          refine List.filterMap_congr ?_
          intro i hi
          have hne := window_ne_head t hwf i hi
          rw [slot_put_other _ _ _ _ (fun e => hne e.symm)]
        exact e ▸ List.Sublist.refl _
      · show (List.filterMap (fun i => packet_of w t._phys_base ((t.put t.head_idx _).slot i))
          [t.head_idx]).Sublist [p]
        rw [List.filterMap_cons, slot_put_self _ _ _ hwf.2.1, hpk]
        by_cases hz : wrap_add w t._phys_base p.offset ≠ 0
        · simp only [if_pos hz, List.filterMap_nil]
          exact List.Sublist.refl _
        · simp only [if_neg hz, List.filterMap_nil]
          exact List.nil_sublist _
    · have hfull' : ¬ (t.put t.head_idx
          ⟨wrap_add w t._phys_base p.offset % 2 ^ 32,
            p.size + 2 ^ 15 + (if t.head_idx = t._max_index then 2 ^ 30 else 0)⟩)._queued + 1 <
          (t.put t.head_idx
          ⟨wrap_add w t._phys_base p.offset % 2 ^ 32,
            p.size + 2 ^ 15 +
              (if t.head_idx = t._max_index then 2 ^ 30 else 0)⟩).buffer_count := by
        unfold _queued
        simp only [buffer_count_put, head_idx_put, tail_idx_put]
        exact hroom
      unfold pending
      rw [window_full _ hwfp hfull']
      exact List.nil_sublist _
  refine ⟨⟨hwfp.1, Nat.mod_lt _ hwfp.1, hwfp.2.2⟩, ?_⟩
  show (ack_log (t.trace ++ [Event.advance_head]) ++ pending w _).Sublist (E ++ [p])
  rw [ack_log_append]
  simp only [ack_log, List.append_nil]
  refine List.Sublist.trans (List.Sublist.append (List.Sublist.refl _) hpend) ?_
  rw [← List.append_assoc]
  exact List.Sublist.append hsub (List.Sublist.refl _)

theorem fifo_inv_add_to_queue (w BUFFER_SIZE : Nat) (hw : List (List Hw_writeback))
    (E : List Packet_descriptor) (p : Packet_descriptor) (s : Tx_buffer_descriptor)
    (hBS : BUFFER_SIZE < 2 ^ 14) (haddr : addressable w s._phys_base p)
    (h : fifo_inv w E s) :
    fifo_inv w (E ++ (if enqueues w BUFFER_SIZE hw p s then [p] else []))
      (s.add_to_queue w BUFFER_SIZE hw p).state := by
  by_cases hsize : p.size ≤ BUFFER_SIZE
  · have ht := wait_used_induct (fun t => fifo_inv w E t ∧ same_ring s t)
      (fun t cs ht => ⟨fifo_inv_usleep w E t 1000 cs ht.1, same_ring_usleep ht.2 1000 cs⟩)
      10 hw { s with trace := s.trace ++ add_to_queue_prologue w p s }
      ⟨fifo_inv_with_trace w E s _ (ack_log_prologue w p s) h, same_ring_refl s⟩
    simp only [] at ht
    unfold enqueues
    rcases add_to_queue_cases w BUFFER_SIZE hw p s hsize with e | e
    · rw [e]
      simp only [Bool.false_eq_true, if_false, List.append_nil]
      exact ht.1
    · rw [e]
      simp only [hsize, decide_True, if_true]
      have hp := ht.2.2.1
      have haddr' : addressable w (wait_used 10 hw
          { s with trace := s.trace ++ add_to_queue_prologue w p s }).state._phys_base p := by
        rw [hp]; exact haddr
      have := fifo_inv_commit w E p _ ht.1 (by omega) haddr'
      rw [hp] at this
      exact this
  · have hsz : p.size > BUFFER_SIZE := by omega
    have he : enqueues w BUFFER_SIZE hw p s = false := by
      unfold enqueues add_to_queue
      rw [if_pos hsz]
      simp [hsize]
    rw [he]
    unfold add_to_queue
    rw [if_pos hsz]
    simp only [Bool.false_eq_true, if_false, List.append_nil]
    exact fifo_inv_with_trace w E s [Event.warning Warning.package_too_big] rfl h

end Tx_buffer_descriptor

theorem fifo_inv_run (w BUFFER_SIZE : Nat) (packet_valid : Packet_descriptor → Bool)
    (hBS : BUFFER_SIZE < 2 ^ 14) (ops : List Op) :
    ∀ (s : Tx_buffer_descriptor) (E : List Packet_descriptor),
      all_addressable w s._phys_base ops → Tx_buffer_descriptor.fifo_inv w E s →
      Tx_buffer_descriptor.fifo_inv w (E ++ enqueue_log w BUFFER_SIZE packet_valid s ops)
        (run w BUFFER_SIZE packet_valid s ops) := by
  induction ops with
  | nil =>
    intro s E _ h
    simpa [enqueue_log, run] using h
  | cons op ops ih =>
    intro s E haddr h
    have hp : (step w BUFFER_SIZE packet_valid s op)._phys_base = s._phys_base :=
      (same_ring_step w BUFFER_SIZE packet_valid op
        (Tx_buffer_descriptor.same_ring_refl s)).2.1
    have hrest : all_addressable w (step w BUFFER_SIZE packet_valid s op)._phys_base ops := by
      rw [hp]
      exact fun o hm => haddr o (List.mem_cons_of_mem _ hm)
    show Tx_buffer_descriptor.fifo_inv w _
      (run w BUFFER_SIZE packet_valid (step w BUFFER_SIZE packet_valid s op) ops)
    cases op with
    | add_to_queue p hw =>
      have h1 := Tx_buffer_descriptor.fifo_inv_add_to_queue w BUFFER_SIZE hw E p s hBS
        (haddr (Op.add_to_queue p hw) (List.mem_cons_self _ _)) h
      have h2 := ih _ _ hrest h1
      rw [List.append_assoc] at h2
      exact h2
    | submit_acks force =>
      exact ih _ _ hrest (Tx_buffer_descriptor.fifo_inv_submit_acks w packet_valid force E s h)
    | reset =>
      exact ih _ _ hrest (Tx_buffer_descriptor.fifo_inv_reset w packet_valid E s h)
    | hardware c =>
      exact ih _ _ hrest (Tx_buffer_descriptor.fifo_inv_hw_writebacks w E s [c] h)

/-- C5: acknowledgments are issued in FIFO order. For every run of
`add_to_queue`, `submit_acks` (forced or not) and `reset` calls interleaved
with NIC write-backs (between calls and during the sleeps of
`add_to_queue`), started on a ring of at least one slot right after the
constructor, the sequence of acknowledged packets is a subsequence of the
sequence of packets handed to the hardware: if A was enqueued before B and
both are acknowledged, A is acknowledged first. The slot capacity
`BUFFER_SIZE` is below `2^14` (the width of the length field), and the
physical address of every packet fits the 32-bit address field. -/
theorem acks_in_enqueue_order (w BUFFER_SIZE : Nat)
    (packet_valid : Packet_descriptor → Bool) (n phys_base virt_base : Nat) (ops : List Op)
    (hn : 0 < n) (hBS : BUFFER_SIZE < 2 ^ 14)
    (haddr : all_addressable w phys_base ops) :
    (ack_log (run w BUFFER_SIZE packet_valid
      (Tx_buffer_descriptor.construct n phys_base virt_base) ops).trace).Sublist
    (enqueue_log w BUFFER_SIZE packet_valid
      (Tx_buffer_descriptor.construct n phys_base virt_base) ops) := by
  have hf := Tx_buffer_descriptor.same_frame_construct n phys_base virt_base
  have hwf := (Tx_buffer_descriptor.counts_inv_construct n phys_base virt_base hn).1
  have h0 : Tx_buffer_descriptor.fifo_inv w []
      (Tx_buffer_descriptor.construct n phys_base virt_base) := by
    refine ⟨hwf, ?_⟩
    have hq : (Tx_buffer_descriptor.construct n phys_base virt_base)._queued = 0 := by
      unfold Tx_buffer_descriptor._queued
      rw [hf.1, hf.2.1]
      simp [Tx_buffer_descriptor.unconfigured]
    have hp : Tx_buffer_descriptor.pending w
        (Tx_buffer_descriptor.construct n phys_base virt_base) = [] := by
      unfold Tx_buffer_descriptor.pending Tx_buffer_descriptor.window
      rw [hq]
      rfl
    rw [hp, hf.2.2.2.2.2]
    exact List.Sublist.refl _
  have hpb : (Tx_buffer_descriptor.construct n phys_base virt_base)._phys_base = phys_base :=
    hf.2.2.2.1
  have h := fifo_inv_run w BUFFER_SIZE packet_valid hBS ops _ [] (by rw [hpb]; exact haddr) h0
  rw [List.nil_append] at h
  exact List.Sublist.trans (List.sublist_append_left _ _) h.2

/-- Witness for C5: on the ring of 4 slots P1 and P2 are enqueued and
completed by the NIC; two calls of `submit_acks` acknowledge P1, then P2; P1 is
enqueued once more and acknowledged by `reset`. The acknowledgment log is
P1, P2, P1, as is the enqueue log. -/
theorem acks_in_enqueue_order_witness :
    (0 < 4 ∧ 1608 < 2 ^ 14 ∧
      all_addressable 32 0x10000000
        [Op.add_to_queue P1 [], Op.add_to_queue P2 [], Op.hardware ⟨0, 0⟩,
          Op.hardware ⟨1, 0⟩, Op.submit_acks false, Op.submit_acks false,
          Op.add_to_queue P1 [], Op.reset]) ∧
    (ack_log (run 32 1608 (fun _ => true)
      (Tx_buffer_descriptor.construct 4 0x10000000 0x20000000)
        [Op.add_to_queue P1 [], Op.add_to_queue P2 [], Op.hardware ⟨0, 0⟩,
          Op.hardware ⟨1, 0⟩, Op.submit_acks false, Op.submit_acks false,
          Op.add_to_queue P1 [], Op.reset]).trace).Sublist
    (enqueue_log 32 1608 (fun _ => true)
      (Tx_buffer_descriptor.construct 4 0x10000000 0x20000000)
        [Op.add_to_queue P1 [], Op.add_to_queue P2 [], Op.hardware ⟨0, 0⟩,
          Op.hardware ⟨1, 0⟩, Op.submit_acks false, Op.submit_acks false,
          Op.add_to_queue P1 [], Op.reset]) ∧
    ack_log (run 32 1608 (fun _ => true)
      (Tx_buffer_descriptor.construct 4 0x10000000 0x20000000)
        [Op.add_to_queue P1 [], Op.add_to_queue P2 [], Op.hardware ⟨0, 0⟩,
          Op.hardware ⟨1, 0⟩, Op.submit_acks false, Op.submit_acks false,
          Op.add_to_queue P1 [], Op.reset]).trace = [P1, P2, P1] ∧
    enqueue_log 32 1608 (fun _ => true)
      (Tx_buffer_descriptor.construct 4 0x10000000 0x20000000)
        [Op.add_to_queue P1 [], Op.add_to_queue P2 [], Op.hardware ⟨0, 0⟩,
          Op.hardware ⟨1, 0⟩, Op.submit_acks false, Op.submit_acks false,
          Op.add_to_queue P1 [], Op.reset] = [P1, P2, P1] :=
  ⟨by decide, acks_in_enqueue_order 32 1608 (fun _ => true) 4 0x10000000 0x20000000
    [Op.add_to_queue P1 [], Op.add_to_queue P2 [], Op.hardware ⟨0, 0⟩,
          Op.hardware ⟨1, 0⟩, Op.submit_acks false, Op.submit_acks false,
          Op.add_to_queue P1 [], Op.reset] (by decide) (by decide) (by decide), by decide, by decide⟩

/-! ## The reclaim loop: its fuel, and how far one call gets -/

namespace Tx_buffer_descriptor

theorem body_frame (w : Nat) (packet_valid : Packet_descriptor → Bool)
    (s : Tx_buffer_descriptor) (ht : s.tail_idx < s.buffer_count) :
    (submit_acks_body w packet_valid s).head_idx = s.head_idx ∧
    (submit_acks_body w packet_valid s).tail_idx = (s.tail_idx + 1) % s.buffer_count ∧
    (submit_acks_body w packet_valid s).buffer_count = s.buffer_count := by
  unfold submit_acks_body
  by_cases ha : s._tail.addr ≠ 0
  · simp only [if_pos ha]
    rw [submit_acks_configured_eq w packet_valid s ht]
    refine ⟨rfl, ?_, ?_⟩
    · show (s.tail_idx + 1) % (s.put _ _).buffer_count = _
      rw [buffer_count_put]
    · show (s.put _ _).buffer_count = _
      rw [buffer_count_put]
  · simp only [if_neg ha]
    exact ⟨rfl, rfl, rfl⟩

theorem well_formed_body (w : Nat) (packet_valid : Packet_descriptor → Bool)
    (s : Tx_buffer_descriptor) (hwf : s.well_formed) :
    (submit_acks_body w packet_valid s).well_formed := by
  obtain ⟨f1, f2, f3⟩ := body_frame w packet_valid s hwf.2.2
  unfold well_formed
  rw [f1, f2, f3]
  exact ⟨hwf.1, hwf.2.1, Nat.mod_lt _ hwf.1⟩

theorem queued_body (w : Nat) (packet_valid : Packet_descriptor → Bool)
    (s : Tx_buffer_descriptor) (hwf : s.well_formed) (hq : 0 < s._queued) :
    (submit_acks_body w packet_valid s)._queued = s._queued - 1 := by
  obtain ⟨f1, f2, f3⟩ := body_frame w packet_valid s hwf.2.2
  rw [← queued_advance_tail s hwf hq]
  unfold _queued
  rw [f1, f2, f3]
  rfl

/-- The fuel `submit_acks` gives its loop is enough: on a well-formed ring
the loop started with counter `i` and fuel `fuel`, where
`_queued() ≤ fuel + i`, ends because its condition fails or it breaks, and
more fuel does not change the result. -/
theorem submit_acks_loop_fuel (w : Nat) (packet_valid : Packet_descriptor → Bool)
    (force : Bool) (k : Nat) :
    ∀ (fuel i : Nat) (s : Tx_buffer_descriptor), s.well_formed → s._queued ≤ fuel + i →
      submit_acks_loop w packet_valid force (fuel + k) i s =
        submit_acks_loop w packet_valid force fuel i s := by
  intro fuel
  induction fuel with
  | zero =>
    intro i s _ hq
    cases k with
    | zero => rfl
    | succ k =>
      rw [Nat.zero_add]
      unfold submit_acks_loop
      rw [if_neg (by omega)]
  | succ fuel ih =>
    intro i s hwf hq
    rw [Nat.add_right_comm]
    unfold submit_acks_loop
    by_cases hi : i < s._queued
    · rw [if_pos hi, if_pos hi]
      split
      · rfl
      · refine ih _ _ (well_formed_body w packet_valid s hwf) ?_
        rw [queued_body w packet_valid s hwf (by omega)]
        omega
    · rw [if_neg hi, if_neg hi]

theorem submit_acks_fuel (w : Nat) (packet_valid : Packet_descriptor → Bool)
    (force : Bool) (k : Nat) (s : Tx_buffer_descriptor) (hwf : s.well_formed) :
    submit_acks_loop w packet_valid force (s._queued + k) 0 s =
      s.submit_acks w packet_valid force :=
  submit_acks_loop_fuel w packet_valid force k s._queued 0 s hwf (Nat.le_refl _)

theorem submit_acks_loop_leaves (w : Nat) (packet_valid : Packet_descriptor → Bool)
    (force : Bool) :
    ∀ (fuel i : Nat) (s : Tx_buffer_descriptor), s.well_formed → i ≤ s._queued + 1 →
      s._queued + i ≤ 2 * (submit_acks_loop w packet_valid force fuel i s)._queued + 1 := by
  intro fuel
  induction fuel with
  | zero =>
    intro i s _ hi
    unfold submit_acks_loop
    omega
  | succ fuel ih =>
    intro i s hwf hi
    unfold submit_acks_loop
    by_cases hc : i < s._queued
    · rw [if_pos hc]
      split
      · omega
      · have hq := queued_body w packet_valid s hwf (by omega)
        have := ih (i + 1) _ (well_formed_body w packet_valid s hwf) (by omega)
        omega
    · rw [if_neg hc]
      omega

/-- Whatever the state of the slots and whether forced or not, one call of
`submit_acks` on a well-formed ring leaves at least half of the queued
slots (rounded down) queued: the loop counter grows while `_queued()`, read
anew for every test of the loop condition, shrinks. -/
theorem submit_acks_leaves_half (w : Nat) (packet_valid : Packet_descriptor → Bool)
    (force : Bool) (s : Tx_buffer_descriptor) (hwf : s.well_formed) :
    s._queued / 2 ≤ (s.submit_acks w packet_valid force)._queued := by
  have := submit_acks_loop_leaves w packet_valid force s._queued 0 s hwf (by omega)
  unfold submit_acks
  omega

end Tx_buffer_descriptor

/-! ## C11: the wrap bit -/

namespace Tx_buffer_descriptor

theorem wrap_get_eq_testBit (st : Nat) :
    Status.Wrap.get st = if st.testBit 30 then 1 else 0 := by
  rw [bitfield_get_eq_div_mod, Nat.testBit_to_div_mod]
  show st / 2 ^ 30 % 2 ^ 1 = _
  simp only [decide_eq_true_eq]
  split <;> omega

theorem length_bits_eq_mod (size : Nat) : Status.Length.bits size = size % 2 ^ 14 := by
  unfold Bitfield.bits Bitfield.mask Status.Length
  simp only [Nat.and_pow_two_sub_one_eq_mod, Nat.shiftLeft_eq]
  omega

/-- Bit 30 of the status word that `_reset_descriptor` and the two stores of
`add_to_queue` leave in a slot. -/
theorem wrap_get_commit (size : Nat) (last : Prop) [Decidable last] :
    Status.Wrap.get
      (((((Status.Used.bits 1 ||| Status.Last_buffer.bits 1) % 2 ^ 32 |||
        (if last then Status.Wrap.bits 1 else 0)) % 2 ^ 32 |||
        Status.Length.bits size) % 2 ^ 32 &&& Status.Used.clear_mask) % 2 ^ 32) =
      if last then 1 else 0 := by
  rw [wrap_get_eq_testBit, length_bits_eq_mod]
  have hc : Status.Used.clear_mask.testBit 30 = true := by decide
  rw [Nat.testBit_mod_two_pow, Nat.testBit_and, Nat.testBit_mod_two_pow, Nat.testBit_or,
    Nat.testBit_mod_two_pow size, hc]
  by_cases h : last
  · have hk : (((Status.Used.bits 1 ||| Status.Last_buffer.bits 1) % 2 ^ 32 |||
        Status.Wrap.bits 1) % 2 ^ 32).testBit 30 = true := by decide
    simp only [if_pos h, hk]
    simp
  · have hk : (((Status.Used.bits 1 ||| Status.Last_buffer.bits 1) % 2 ^ 32 |||
        0) % 2 ^ 32).testBit 30 = false := by decide
    simp only [if_neg h, hk]
    simp

theorem wrap_get_reset (last : Prop) [Decidable last] :
    Status.Wrap.get
      (((Status.Used.bits 1 ||| Status.Last_buffer.bits 1) % 2 ^ 32 |||
        (if last then Status.Wrap.bits 1 else 0)) % 2 ^ 32) =
      if last then 1 else 0 := by
  by_cases h : last
  · simp only [if_pos h]; decide
  · simp only [if_neg h]; decide

theorem wrap_get_hw (st e : Nat) :
    Status.Wrap.get ((st ||| Status.Used.bits 1 ||| (e &&& HW_ERROR_MASK)) % 2 ^ 32) =
      Status.Wrap.get st := by
  rw [wrap_get_eq_testBit, wrap_get_eq_testBit]
  have hu : (Status.Used.bits 1).testBit 30 = false := by decide
  have hm : HW_ERROR_MASK.testBit 30 = false := by decide
  rw [Nat.testBit_mod_two_pow, Nat.testBit_or, Nat.testBit_or, Nat.testBit_and, hu, hm]
  simp

theorem same_status_refl (s : Tx_buffer_descriptor) : same_status s s :=
  ⟨rfl, fun _ => rfl⟩

theorem same_status_trans {s t u : Tx_buffer_descriptor} (h1 : same_status s t)
    (h2 : same_status t u) : same_status s u :=
  ⟨h2.1.trans h1.1, fun i => (h2.2 i).trans (h1.2 i)⟩

theorem same_status_put_addr (s : Tx_buffer_descriptor) (i a : Nat) :
    same_status s (s.put i ⟨a, (s.slot i).status⟩) := by
  refine ⟨buffer_count_put _ _ _, fun j => ?_⟩
  by_cases hij : i = j
  · subst hij
    by_cases hi : i < s.buffer_count
    · rw [slot_put_self _ _ _ hi]
    · have : s.put i ⟨a, (s.slot i).status⟩ = s := by
        unfold put buffer_count at *
        rw [List.set_eq_of_length_le (by omega)]
      rw [this]
  · rw [slot_put_other _ _ _ _ hij]

theorem same_status_body (w : Nat) (packet_valid : Packet_descriptor → Bool)
    (s : Tx_buffer_descriptor) (ht : s.tail_idx < s.buffer_count) :
    same_status s (submit_acks_body w packet_valid s) := by
  unfold submit_acks_body
  by_cases ha : s._tail.addr ≠ 0
  · simp only [if_pos ha]
    rw [submit_acks_configured_eq w packet_valid s ht]
    exact same_status_put_addr s s.tail_idx 0
  · simp only [if_neg ha]
    exact same_status_refl s

theorem wrap_inv_same_status {s t : Tx_buffer_descriptor} (h : same_status s t)
    (hs : wrap_inv s) : wrap_inv t := by
  intro i hi
  rw [h.1] at hi ⊢
  rw [h.2 i]
  exact hs i hi

theorem wrap_inv_put (s : Tx_buffer_descriptor) (i : Nat) (d : descriptor_t)
    (hi : i < s.buffer_count)
    (hd : Status.Wrap.get d.status = if i = s.buffer_count - 1 then 1 else 0)
    (hs : wrap_inv s) : wrap_inv (s.put i d) := by
  intro j hj
  rw [buffer_count_put] at hj ⊢
  by_cases hij : i = j
  · subst hij
    rw [slot_put_self _ _ _ hi]
    exact hd
  · rw [slot_put_other _ _ _ _ hij]
    exact hs j hj

theorem wrap_inv_hw_writeback (s : Tx_buffer_descriptor) (c : Hw_writeback)
    (hs : wrap_inv s) : wrap_inv (s.hw_writeback c) := by
  unfold hw_writeback
  split
  · rename_i hc
    unfold store_status
    refine wrap_inv_put s c.index _ hc ?_ hs
    show Status.Wrap.get ((_ ||| Status.Used.bits 1 ||| (c.errors &&& HW_ERROR_MASK)) % 2 ^ 32) = _
    rw [wrap_get_hw]
    exact hs c.index hc
  · exact hs

theorem wrap_inv_hw_writebacks (cs : List Hw_writeback) :
    ∀ s : Tx_buffer_descriptor, wrap_inv s → wrap_inv (s.hw_writebacks cs) := by
  induction cs with
  | nil => intro s h; exact h
  | cons c cs ih =>
    intro s h
    exact ih _ (wrap_inv_hw_writeback s c h)

theorem wrap_inv_reset_descriptor (s : Tx_buffer_descriptor) (i phys : Nat)
    (hi : i < s.buffer_count) (hs : ∀ j, j < s.buffer_count → j ≠ i →
      Status.Wrap.get (s.slot j).status = if j = s.buffer_count - 1 then 1 else 0) :
    ∀ j, j < s.buffer_count → (j = i ∨ j ≠ i) →
      Status.Wrap.get ((s._reset_descriptor i phys).slot j).status =
        if j = s.buffer_count - 1 then 1 else 0 := by
  intro j hj _
  rw [reset_descriptor_eq s i phys hi]
  by_cases hij : i = j
  · subst hij
    rw [slot_put_self _ _ _ hi]
    exact wrap_get_reset (i = s.buffer_count - 1)
  · rw [slot_put_other _ _ _ _ hij]
    exact hs j hj (fun e => hij e.symm)

theorem foldl_reset_wrap (n phys_base virt_base : Nat) (k : Nat) (hk : k ≤ n) :
    ((List.range k).foldl (fun s i => s._reset_descriptor i 0)
        (unconfigured n phys_base virt_base)).buffer_count = n ∧
    ∀ j, j < k →
      Status.Wrap.get (((List.range k).foldl (fun s i => s._reset_descriptor i 0)
        (unconfigured n phys_base virt_base)).slot j).status = if j = n - 1 then 1 else 0 := by
  induction k with
  | zero =>
    refine ⟨?_, fun j hj => absurd hj (Nat.not_lt_zero j)⟩
    simp [buffer_count, unconfigured]
  | succ k ih =>
    obtain ⟨hc, hw⟩ := ih (by omega)
    rw [List.range_succ, List.foldl_append]
    simp only [List.foldl_cons, List.foldl_nil]
    have hkn : k < ((List.range k).foldl (fun s i => s._reset_descriptor i 0)
        (unconfigured n phys_base virt_base)).buffer_count := by rw [hc]; omega
    rw [reset_descriptor_eq _ k 0 hkn]
    refine ⟨by rw [buffer_count_put, hc], fun j hj => ?_⟩
    by_cases hkj : k = j
    · subst hkj
      rw [slot_put_self _ _ _ hkn]
      have hmax : ((List.range k).foldl (fun s i => s._reset_descriptor i 0)
          (unconfigured n phys_base virt_base))._max_index = n - 1 := by
        unfold _max_index
        rw [hc]
      show Status.Wrap.get (((Status.Used.bits 1 ||| Status.Last_buffer.bits 1) % 2 ^ 32 |||
        (if k = _ then Status.Wrap.bits 1 else 0)) % 2 ^ 32) = _
      rw [hmax]
      exact wrap_get_reset (k = n - 1)
    · rw [slot_put_other _ _ _ _ hkj]
      exact hw j (by omega)

theorem wrap_inv_construct (n phys_base virt_base : Nat) (hn : 0 < n) :
    wrap_inv (construct n phys_base virt_base) := by
  have hm : (unconfigured n phys_base virt_base)._max_index + 1 = n := by
    simp [_max_index, buffer_count, unconfigured]
    omega
  obtain ⟨hc, hw⟩ := foldl_reset_wrap n phys_base virt_base n (Nat.le_refl n)
  intro i hi
  unfold construct at hi ⊢
  rw [hm] at hi ⊢
  rw [hc] at hi ⊢
  exact hw i hi

theorem add_to_queue_commit_general (s : Tx_buffer_descriptor) (phys size : Nat)
    (hh : s.head_idx < s.buffer_count) :
    s.add_to_queue_commit phys size =
      (s.put s.head_idx ⟨phys % 2 ^ 32,
        ((((Status.Used.bits 1 ||| Status.Last_buffer.bits 1) % 2 ^ 32 |||
          (if s.head_idx = s._max_index then Status.Wrap.bits 1 else 0)) % 2 ^ 32 |||
          Status.Length.bits size) % 2 ^ 32 &&& Status.Used.clear_mask) % 2 ^ 32⟩)._advance_head := by
  unfold add_to_queue_commit
  rw [_head_index, reset_descriptor_eq s _ _ hh]
  simp only [store_status, _head, head_idx_put, put_put, slot_put_self _ _ _ hh]

/-- The ring is well formed and carries the wrap bit on its last slot only. -/
theorem ring_inv_usleep (s : Tx_buffer_descriptor) (us : Nat) (cs : List Hw_writeback)
    (h : s.well_formed ∧ wrap_inv s) :
    (s.usleep us cs).well_formed ∧ wrap_inv (s.usleep us cs) := by
  unfold usleep
  exact ⟨well_formed_same_frame (same_frame_hw_writebacks cs _) h.1,
    wrap_inv_hw_writebacks cs _ h.2⟩

theorem ring_inv_commit (s : Tx_buffer_descriptor) (phys size : Nat)
    (h : s.well_formed ∧ wrap_inv s) :
    (s.add_to_queue_commit phys size).well_formed ∧
      wrap_inv (s.add_to_queue_commit phys size) := by
  obtain ⟨hwf, hw⟩ := h
  rw [add_to_queue_commit_general s phys size hwf.2.1]
  have hp := wrap_inv_put s s.head_idx
    ⟨phys % 2 ^ 32,
      ((((Status.Used.bits 1 ||| Status.Last_buffer.bits 1) % 2 ^ 32 |||
        (if s.head_idx = s._max_index then Status.Wrap.bits 1 else 0)) % 2 ^ 32 |||
        Status.Length.bits size) % 2 ^ 32 &&& Status.Used.clear_mask) % 2 ^ 32⟩
    hwf.2.1 (wrap_get_commit size (s.head_idx = s._max_index)) hw
  have hwfp := well_formed_same_frame (same_frame_put s s.head_idx
    ⟨phys % 2 ^ 32,
      ((((Status.Used.bits 1 ||| Status.Last_buffer.bits 1) % 2 ^ 32 |||
        (if s.head_idx = s._max_index then Status.Wrap.bits 1 else 0)) % 2 ^ 32 |||
        Status.Length.bits size) % 2 ^ 32 &&& Status.Used.clear_mask) % 2 ^ 32⟩) hwf
  exact ⟨⟨hwfp.1, Nat.mod_lt _ hwfp.1, hwfp.2.2⟩, hp⟩

theorem ring_inv_add_to_queue (w BUFFER_SIZE : Nat) (hw : List (List Hw_writeback))
    (p : Packet_descriptor) (s : Tx_buffer_descriptor) (h : s.well_formed ∧ wrap_inv s) :
    (s.add_to_queue w BUFFER_SIZE hw p).state.well_formed ∧
      wrap_inv (s.add_to_queue w BUFFER_SIZE hw p).state := by
  by_cases hsize : p.size ≤ BUFFER_SIZE
  · have ht := wait_used_induct (fun t => t.well_formed ∧ wrap_inv t)
      (fun t cs ht => ring_inv_usleep t 1000 cs ht) 10 hw
      { s with trace := s.trace ++ add_to_queue_prologue w p s } h
    rcases add_to_queue_cases w BUFFER_SIZE hw p s hsize with e | e
    · rw [e]; exact ht
    · rw [e]; exact ring_inv_commit _ _ _ ht
  · have hsz : p.size > BUFFER_SIZE := by omega
    unfold add_to_queue
    rw [if_pos hsz]
    exact h

theorem ring_inv_submit_acks (w : Nat) (packet_valid : Packet_descriptor → Bool)
    (force : Bool) (s : Tx_buffer_descriptor) (h : s.well_formed ∧ wrap_inv s) :
    (s.submit_acks w packet_valid force).well_formed ∧
      wrap_inv (s.submit_acks w packet_valid force) :=
  submit_acks_loop_induct w packet_valid force (fun t => t.well_formed ∧ wrap_inv t)
    (fun t ht _ => ⟨well_formed_body w packet_valid t ht.1,
      wrap_inv_same_status (same_status_body w packet_valid t ht.1.2.2) ht.2⟩) _ _ s h

end Tx_buffer_descriptor

theorem ring_inv_step (w BUFFER_SIZE : Nat) (packet_valid : Packet_descriptor → Bool)
    (s : Tx_buffer_descriptor) (op : Op)
    (h : s.well_formed ∧ Tx_buffer_descriptor.wrap_inv s) :
    (step w BUFFER_SIZE packet_valid s op).well_formed ∧
      Tx_buffer_descriptor.wrap_inv (step w BUFFER_SIZE packet_valid s op) := by
  cases op with
  | add_to_queue p hw => exact Tx_buffer_descriptor.ring_inv_add_to_queue w BUFFER_SIZE hw p s h
  | submit_acks force => exact Tx_buffer_descriptor.ring_inv_submit_acks w packet_valid force s h
  | reset =>
    obtain ⟨hwf, hwr⟩ := Tx_buffer_descriptor.ring_inv_submit_acks w packet_valid true s h
    exact ⟨⟨hwf.1, hwf.1, hwf.1⟩, hwr⟩
  | hardware c =>
    exact ⟨Tx_buffer_descriptor.well_formed_same_frame
      (Tx_buffer_descriptor.same_frame_hw_writeback s c) h.1,
      Tx_buffer_descriptor.wrap_inv_hw_writeback s c h.2⟩

theorem ring_inv_run (w BUFFER_SIZE : Nat) (packet_valid : Packet_descriptor → Bool)
    (ops : List Op) :
    ∀ s : Tx_buffer_descriptor, s.well_formed ∧ Tx_buffer_descriptor.wrap_inv s →
      (run w BUFFER_SIZE packet_valid s ops).well_formed ∧
        Tx_buffer_descriptor.wrap_inv (run w BUFFER_SIZE packet_valid s ops) := by
  induction ops with
  | nil => intro s h; exact h
  | cons op ops ih =>
    intro s h
    exact ih _ (ring_inv_step w BUFFER_SIZE packet_valid s op h)

/-- C11: the wrap-bit invariant. After the constructor and after every run
of `add_to_queue`, `submit_acks` and `reset` calls interleaved with NIC
write-backs (which set only the used bit and error-related bits), on a ring
of `N ≥ 1` slots, the wrap bit (status bit 30) of slot `i` is 1 if
`i = N - 1` and 0 otherwise: it is set on exactly one slot, the last. -/
theorem wrap_bit_on_last_slot_only (w BUFFER_SIZE : Nat)
    (packet_valid : Packet_descriptor → Bool) (n phys_base virt_base : Nat) (ops : List Op)
    (hn : 0 < n) :
    (run w BUFFER_SIZE packet_valid
      (Tx_buffer_descriptor.construct n phys_base virt_base) ops).buffer_count = n ∧
    ∀ i, i < n →
      Status.Wrap.get ((run w BUFFER_SIZE packet_valid
        (Tx_buffer_descriptor.construct n phys_base virt_base) ops).slot i).status =
        if i = n - 1 then 1 else 0 := by
  have hcount : (run w BUFFER_SIZE packet_valid
      (Tx_buffer_descriptor.construct n phys_base virt_base) ops).buffer_count = n := by
    rw [(same_ring_run w BUFFER_SIZE packet_valid ops _ _
      (Tx_buffer_descriptor.same_ring_refl _)).1]
    exact Tx_buffer_descriptor.buffer_count_construct n phys_base virt_base
  have h := ring_inv_run w BUFFER_SIZE packet_valid ops _
    ⟨(Tx_buffer_descriptor.counts_inv_construct n phys_base virt_base hn).1,
      Tx_buffer_descriptor.wrap_inv_construct n phys_base virt_base hn⟩
  refine ⟨hcount, fun i hi => ?_⟩
  have := h.2 i (by rw [hcount]; exact hi)
  rw [hcount] at this
  exact this

/-- Witness for C11: the ring of 4 slots after the end-to-end scenario and a
`reset`. -/
theorem wrap_bit_on_last_slot_only_witness :
    0 < 4 ∧
    ((run 32 1608 (fun _ => true) (Tx_buffer_descriptor.construct 4 0x10000000 0x20000000)
      [Op.add_to_queue P1 [], Op.add_to_queue P2 [], Op.hardware ⟨0, 0x3FF10000⟩,
        Op.hardware ⟨1, 0⟩, Op.submit_acks false, Op.reset]).buffer_count = 4 ∧
    ∀ i, i < 4 →
      Status.Wrap.get ((run 32 1608 (fun _ => true)
        (Tx_buffer_descriptor.construct 4 0x10000000 0x20000000)
        [Op.add_to_queue P1 [], Op.add_to_queue P2 [], Op.hardware ⟨0, 0x3FF10000⟩,
          Op.hardware ⟨1, 0⟩, Op.submit_acks false, Op.reset]).slot i).status =
        if i = 4 - 1 then 1 else 0) :=
  ⟨by decide, wrap_bit_on_last_slot_only 32 1608 (fun _ => true) 4 0x10000000 0x20000000
    [Op.add_to_queue P1 [], Op.add_to_queue P2 [], Op.hardware ⟨0, 0x3FF10000⟩,
      Op.hardware ⟨1, 0⟩, Op.submit_acks false, Op.reset] (by decide)⟩

/-! ## C15: what `submit_acks` does to one slot -/

/-- C15: for every slot that `submit_acks` processes (one pass through the
loop body, the tail index being a slot of the ring): if the address of the
slot is non-zero, the packet descriptor `(address - phys_base, length field)`
is acknowledged if and only if the sink reports it valid, and in both cases
the address of the slot is set to 0; if the address is zero nothing is
acknowledged and the slot is left as it is; in all three cases the tail
advances by one modulo `N`, and the head stays. -/
theorem submit_acks_body_slot (w : Nat) (packet_valid : Packet_descriptor → Bool)
    (s : Tx_buffer_descriptor) (ht : s.tail_idx < s.buffer_count) :
    (s._tail.addr ≠ 0 →
      ack_log (Tx_buffer_descriptor.submit_acks_body w packet_valid s).trace =
        ack_log s.trace ++
          (if packet_valid ⟨wrap_sub w s._tail.addr s._phys_base,
              Status.Length.get s._tail.status⟩ then
            [⟨wrap_sub w s._tail.addr s._phys_base, Status.Length.get s._tail.status⟩]
          else []) ∧
      ((Tx_buffer_descriptor.submit_acks_body w packet_valid s).slot s.tail_idx).addr = 0) ∧
    (s._tail.addr = 0 →
      ack_log (Tx_buffer_descriptor.submit_acks_body w packet_valid s).trace =
        ack_log s.trace ∧
      (Tx_buffer_descriptor.submit_acks_body w packet_valid s).slot s.tail_idx = s._tail) ∧
    (Tx_buffer_descriptor.submit_acks_body w packet_valid s).tail_idx =
      (s.tail_idx + 1) % s.buffer_count ∧
    (Tx_buffer_descriptor.submit_acks_body w packet_valid s).head_idx = s.head_idx := by
  obtain ⟨f1, f2, _⟩ := Tx_buffer_descriptor.body_frame w packet_valid s ht
  refine ⟨?_, ?_, f2, f1⟩
  · intro ha
    unfold Tx_buffer_descriptor.submit_acks_body
    simp only [if_pos ha]
    rw [Tx_buffer_descriptor.submit_acks_configured_eq w packet_valid s ht]
    constructor
    · show ack_log ((s.trace ++ Tx_buffer_descriptor.reclaim_events w packet_valid s) ++
        [Event.advance_tail]) = _
      rw [ack_log_append, ack_log_append, Tx_buffer_descriptor.ack_log_reclaim_events]
      simp only [ack_log, List.append_nil]
      rfl
    · show ((s.put s.tail_idx ⟨0, s._tail.status⟩).slot s.tail_idx).addr = 0
      rw [Tx_buffer_descriptor.slot_put_self _ _ _ ht]
  · intro ha
    unfold Tx_buffer_descriptor.submit_acks_body
    have hn : ¬ s._tail.addr ≠ 0 := fun h => h ha
    simp only [if_neg hn]
    constructor
    · show ack_log (s.trace ++ [Event.advance_tail]) = _
      rw [ack_log_append]
      simp only [ack_log, List.append_nil]
    · rfl

/-- Witness for C15: the tail slot of the scenario, completed by the NIC. -/
theorem submit_acks_body_slot_witness :
    scenario_completed.tail_idx < scenario_completed.buffer_count ∧
    ((scenario_completed._tail.addr ≠ 0 →
      ack_log (Tx_buffer_descriptor.submit_acks_body 32 (fun _ => true)
          scenario_completed).trace =
        ack_log scenario_completed.trace ++
          (if (fun _ => true) (Packet_descriptor.mk
              (wrap_sub 32 scenario_completed._tail.addr scenario_completed._phys_base)
              (Status.Length.get scenario_completed._tail.status)) then
            [⟨wrap_sub 32 scenario_completed._tail.addr scenario_completed._phys_base,
              Status.Length.get scenario_completed._tail.status⟩]
          else []) ∧
      ((Tx_buffer_descriptor.submit_acks_body 32 (fun _ => true) scenario_completed).slot
        scenario_completed.tail_idx).addr = 0) ∧
    (scenario_completed._tail.addr = 0 →
      ack_log (Tx_buffer_descriptor.submit_acks_body 32 (fun _ => true)
          scenario_completed).trace = ack_log scenario_completed.trace ∧
      (Tx_buffer_descriptor.submit_acks_body 32 (fun _ => true) scenario_completed).slot
        scenario_completed.tail_idx = scenario_completed._tail) ∧
    (Tx_buffer_descriptor.submit_acks_body 32 (fun _ => true) scenario_completed).tail_idx =
      (scenario_completed.tail_idx + 1) % scenario_completed.buffer_count ∧
    (Tx_buffer_descriptor.submit_acks_body 32 (fun _ => true) scenario_completed).head_idx =
      scenario_completed.head_idx) :=
  ⟨by decide, submit_acks_body_slot 32 (fun _ => true) scenario_completed (by decide)⟩

/-! ## C20: the "Unknown error" warning -/

theorem bitfield_get_ne_zero_iff (b : Bitfield) (st : Nat) :
    b.get st ≠ 0 ↔ ∃ k, b.SHIFT ≤ k ∧ k < b.SHIFT + b.WIDTH ∧ st.testBit k = true := by
  unfold Bitfield.get Bitfield.mask
  constructor
  · intro h
    obtain ⟨j, hj⟩ := Nat.ne_zero_implies_bit_true h
    rw [Nat.testBit_and, Nat.testBit_shiftRight, Nat.testBit_two_pow_sub_one] at hj
    simp only [Bool.and_eq_true, decide_eq_true_eq] at hj
    exact ⟨b.SHIFT + j, by omega, by omega, hj.1⟩
  · rintro ⟨k, h1, h2, h3⟩ h0
    have : ((st >>> b.SHIFT) &&& (2 ^ b.WIDTH - 1)).testBit (k - b.SHIFT) = true := by
      rw [Nat.testBit_and, Nat.testBit_shiftRight, Nat.testBit_two_pow_sub_one]
      have e : b.SHIFT + (k - b.SHIFT) = k := by omega
      simp only [e, h3, Bool.true_and, decide_eq_true_eq]
      omega
    rw [h0, Nat.zero_testBit] at this
    exact absurd this (by decide)

theorem mem_ite_single {α : Type} (c : Prop) [Decidable c] (a x : α) :
    x ∈ (if c then [a] else []) ↔ c ∧ x = a := by
  split <;> simp [*]

theorem mem_status_warnings (st : Nat) (x : Warning) :
    x ∈ Tx_buffer_descriptor.status_warnings st ↔
      (Status.Retry_limit.get st ≠ 0 ∧ x = Warning.retry_limit_exceeded) ∨
      (Status.Corrupt.get st ≠ 0 ∧ x = Warning.transmit_frame_corruption) ∨
      (Status.Late_collision.get st ≠ 0 ∧ x = Warning.late_collision_error) ∨
      (Status.Crc_present.get st ≠ 0 ∧ x = Warning.crc_already_present) ∨
      (Status.Chksum_err.get st ≠ 0 ∧
        x = Warning.tx_checksum_error (Status.Chksum_err.get st)) ∨
      (Status.Error.get st ≠ 0 ∧ x = Warning.unknown_error (Status.Error.get st)) := by
  unfold Tx_buffer_descriptor.status_warnings
  simp only [List.mem_append, mem_ite_single, or_assoc]

theorem mem_reclaim_events_warning (w : Nat) (packet_valid : Packet_descriptor → Bool)
    (s : Tx_buffer_descriptor) (x : Warning) (hx : x ≠ Warning.invalid_packet_descriptor) :
    Event.warning x ∈ Tx_buffer_descriptor.reclaim_events w packet_valid s ↔
      x ∈ Tx_buffer_descriptor.status_warnings s._tail.status := by
  unfold Tx_buffer_descriptor.reclaim_events
  rw [List.mem_cons, List.mem_map]
  constructor
  · rintro (h | ⟨y, hy, e⟩)
    · split at h
      · cases h
      · cases h
        exact absurd rfl hx
    · cases e
      exact hy
  · intro h
    exact Or.inr ⟨x, h, rfl⟩

/-- C20: in the block of `submit_acks` run for a slot with non-zero address,
the "Unknown error" warning is emitted exactly when at least one of the
status bits 20..29 is set; hence whenever a checksum-error, late-collision,
frame-corruption or retry-limit warning is emitted for the slot, the
"Unknown error" warning is emitted for it as well. -/
theorem unknown_error_warning (w : Nat) (packet_valid : Packet_descriptor → Bool)
    (s : Tx_buffer_descriptor) (ht : s.tail_idx < s.buffer_count) :
    ∃ evs, (Tx_buffer_descriptor.submit_acks_configured w packet_valid s).trace =
        s.trace ++ evs ∧
      ((∃ v, Event.warning (Warning.unknown_error v) ∈ evs) ↔
        ∃ k, 20 ≤ k ∧ k ≤ 29 ∧ s._tail.status.testBit k = true) ∧
      (((∃ v, Event.warning (Warning.tx_checksum_error v) ∈ evs) ∨
          Event.warning Warning.late_collision_error ∈ evs ∨
          Event.warning Warning.transmit_frame_corruption ∈ evs ∨
          Event.warning Warning.retry_limit_exceeded ∈ evs) →
        ∃ v, Event.warning (Warning.unknown_error v) ∈ evs) := by
  have hiff : (∃ v, Event.warning (Warning.unknown_error v) ∈
        Tx_buffer_descriptor.reclaim_events w packet_valid s) ↔
      ∃ k, 20 ≤ k ∧ k ≤ 29 ∧ s._tail.status.testBit k = true := by
    constructor
    · rintro ⟨v, hv⟩
      rw [mem_reclaim_events_warning _ _ _ _ (by simp), mem_status_warnings] at hv
      simp only [reduceCtorEq, and_false, false_or, Warning.unknown_error.injEq] at hv
      obtain ⟨k, h1, h2, h3⟩ := (bitfield_get_ne_zero_iff Status.Error _).mp hv.1
      exact ⟨k, h1, by simp only [Status.Error] at h2; omega, h3⟩
    · rintro ⟨k, h1, h2, h3⟩
      have hne : Status.Error.get s._tail.status ≠ 0 :=
        (bitfield_get_ne_zero_iff Status.Error _).mpr
          ⟨k, h1, by simp only [Status.Error]; omega, h3⟩
      refine ⟨Status.Error.get s._tail.status, ?_⟩
      rw [mem_reclaim_events_warning _ _ _ _ (by simp), mem_status_warnings]
      simp [hne]
  refine ⟨Tx_buffer_descriptor.reclaim_events w packet_valid s, ?_, hiff, ?_⟩
  · rw [Tx_buffer_descriptor.submit_acks_configured_eq w packet_valid s ht]
  · intro h
    rw [hiff]
    rcases h with ⟨v, hv⟩ | hv | hv | hv
    · rw [mem_reclaim_events_warning _ _ _ _ (by simp), mem_status_warnings] at hv
      simp only [reduceCtorEq, and_false, false_or, or_false,
        Warning.tx_checksum_error.injEq] at hv
      obtain ⟨k, h1, h2, h3⟩ := (bitfield_get_ne_zero_iff Status.Chksum_err _).mp hv.1
      simp only [Status.Chksum_err] at h1 h2
      exact ⟨k, h1, by omega, h3⟩
    · rw [mem_reclaim_events_warning _ _ _ _ (by simp), mem_status_warnings] at hv
      simp only [reduceCtorEq, and_false, false_or, or_false, and_true] at hv
      obtain ⟨k, h1, h2, h3⟩ := (bitfield_get_ne_zero_iff Status.Late_collision _).mp hv
      simp only [Status.Late_collision] at h1 h2
      exact ⟨k, by omega, by omega, h3⟩
    · rw [mem_reclaim_events_warning _ _ _ _ (by simp), mem_status_warnings] at hv
      simp only [reduceCtorEq, and_false, false_or, or_false, and_true] at hv
      obtain ⟨k, h1, h2, h3⟩ := (bitfield_get_ne_zero_iff Status.Corrupt _).mp hv
      simp only [Status.Corrupt] at h1 h2
      exact ⟨k, by omega, by omega, h3⟩
    · rw [mem_reclaim_events_warning _ _ _ _ (by simp), mem_status_warnings] at hv
      simp only [reduceCtorEq, and_false, false_or, or_false, and_true] at hv
      obtain ⟨k, h1, h2, h3⟩ := (bitfield_get_ne_zero_iff Status.Retry_limit _).mp hv
      simp only [Status.Retry_limit] at h1 h2
      exact ⟨k, by omega, by omega, h3⟩

/-- Witness for C20: the tail slot of the scenario, for which the NIC reports
every error-related bit. The address of the slot is non-zero, bit 26 of its
status word is set, and the late-collision warning and the "Unknown error"
warning (with the value 1023 of the bits 20..29) are both emitted. -/
theorem unknown_error_warning_witness :
    scenario_completed_errors.tail_idx < scenario_completed_errors.buffer_count ∧
    (∃ evs, (Tx_buffer_descriptor.submit_acks_configured 32 (fun _ => true)
        scenario_completed_errors).trace = scenario_completed_errors.trace ++ evs ∧
      ((∃ v, Event.warning (Warning.unknown_error v) ∈ evs) ↔
        ∃ k, 20 ≤ k ∧ k ≤ 29 ∧ scenario_completed_errors._tail.status.testBit k = true) ∧
      (((∃ v, Event.warning (Warning.tx_checksum_error v) ∈ evs) ∨
          Event.warning Warning.late_collision_error ∈ evs ∨
          Event.warning Warning.transmit_frame_corruption ∈ evs ∨
          Event.warning Warning.retry_limit_exceeded ∈ evs) →
        ∃ v, Event.warning (Warning.unknown_error v) ∈ evs)) ∧
    scenario_completed_errors._tail.addr ≠ 0 ∧
    scenario_completed_errors._tail.status.testBit 26 = true ∧
    Event.warning Warning.late_collision_error ∈
      Tx_buffer_descriptor.reclaim_events 32 (fun _ => true) scenario_completed_errors ∧
    Event.warning (Warning.unknown_error 1023) ∈
      Tx_buffer_descriptor.reclaim_events 32 (fun _ => true) scenario_completed_errors ∧
    (Tx_buffer_descriptor.submit_acks_configured 32 (fun _ => true)
        scenario_completed_errors).trace =
      scenario_completed_errors.trace ++
        Tx_buffer_descriptor.reclaim_events 32 (fun _ => true) scenario_completed_errors :=
  ⟨by decide, unknown_error_warning 32 (fun _ => true) scenario_completed_errors (by decide),
    by decide, by decide, by decide, by decide, by decide⟩

/-! ## C12: where `submit_acks(false)` stops -/

namespace Tx_buffer_descriptor

theorem submit_acks_loop_induct_guard (w : Nat) (packet_valid : Packet_descriptor → Bool)
    (force : Bool) (P : Tx_buffer_descriptor → Prop)
    (hbody : ∀ s, P s → 0 < s._queued →
      (Status.Used.get s._tail.status ≠ 0 ∨ force = true) →
      P (submit_acks_body w packet_valid s)) :
    ∀ (fuel i : Nat) (s : Tx_buffer_descriptor), P s →
      P (submit_acks_loop w packet_valid force fuel i s) := by
  intro fuel
  induction fuel with
  | zero => intro i s h; exact h
  | succ fuel ih =>
    intro i s h
    unfold submit_acks_loop
    split
    · split
      · exact h
      · rename_i hq hg
        refine ih _ _ (hbody s h (by omega) ?_)
        by_cases hu : Status.Used.get s._tail.status = 0
        · right
          cases force
          · exact absurd ⟨hu, rfl⟩ hg
          · rfl
        · exact Or.inl hu
    · exact h

theorem body_slot_other (w : Nat) (packet_valid : Packet_descriptor → Bool)
    (s : Tx_buffer_descriptor) (ht : s.tail_idx < s.buffer_count) (i : Nat)
    (hi : i ≠ s.tail_idx) : (submit_acks_body w packet_valid s).slot i = s.slot i := by
  unfold submit_acks_body
  by_cases ha : s._tail.addr ≠ 0
  · simp only [if_pos ha]
    rw [submit_acks_configured_eq w packet_valid s ht]
    show (s.put s.tail_idx _).slot i = _
    rw [slot_put_other _ _ _ _ (fun e => hi e.symm)]
  · simp only [if_neg ha]
    rfl

theorem body_ack_log (w : Nat) (packet_valid : Packet_descriptor → Bool)
    (s : Tx_buffer_descriptor) (ht : s.tail_idx < s.buffer_count) :
    ack_log (submit_acks_body w packet_valid s).trace =
      ack_log s.trace ++ (slot_ack w s._phys_base packet_valid s._tail).toList := by
  unfold submit_acks_body slot_ack
  by_cases ha : s._tail.addr ≠ 0
  · simp only [if_pos ha]
    rw [submit_acks_configured_eq w packet_valid s ht]
    show ack_log ((s.trace ++ reclaim_events w packet_valid s) ++ [Event.advance_tail]) = _
    rw [ack_log_append, ack_log_append, ack_log_reclaim_events]
    simp only [ack_log, List.append_nil, ha, not_false_eq_true, true_and, ne_eq]
    split <;> rfl
  · simp only [if_neg ha]
    show ack_log (s.trace ++ [Event.advance_tail]) = _
    rw [ack_log_append]
    simp only [ack_log, List.append_nil, ha, false_and, if_false, Option.toList]

theorem body_phys_base (w : Nat) (packet_valid : Packet_descriptor → Bool)
    (s : Tx_buffer_descriptor) :
    (submit_acks_body w packet_valid s)._phys_base = s._phys_base :=
  (same_ring_body w packet_valid (same_ring_refl s)).2.1

theorem ring_pos_ne {n a k m : Nat} (ha : a < n) (hkm : k < m) (hm : m < n) :
    (a + m) % n ≠ (a + k) % n := by
  rw [mod_two_cases (by omega : a + m < 2 * n), mod_two_cases (by omega : a + k < 2 * n)]
  split <;> split <;> omega

theorem acks_of_slots_succ (w : Nat) (packet_valid : Packet_descriptor → Bool)
    (s : Tx_buffer_descriptor) (m : Nat) :
    acks_of_slots w packet_valid s (m + 1) =
      acks_of_slots w packet_valid s m ++
        (slot_ack w s._phys_base packet_valid
          (s.slot ((s.tail_idx + m) % s.buffer_count))).toList := by
  unfold acks_of_slots
  rw [List.range_succ, List.filterMap_append]
  congr 1

/-- What `submit_acks(false)` can have done to the ring `s` by the time it
has processed `m` slots, none of them at or past position `j` from the
tail. -/
theorem reclaim_prefix_body (w : Nat) (packet_valid : Packet_descriptor → Bool)
    (s : Tx_buffer_descriptor) (hwf : s.well_formed) (j : Nat) (hj : j < s.buffer_count)
    (hclear : Status.Used.get (s.slot ((s.tail_idx + j) % s.buffer_count)).status = 0)
    (t : Tx_buffer_descriptor)
    (ht : ∃ m, m ≤ j ∧ t.tail_idx = (s.tail_idx + m) % s.buffer_count ∧
      t._phys_base = s._phys_base ∧ same_status s t ∧
      (∀ i, (∀ k, k < m → i ≠ (s.tail_idx + k) % s.buffer_count) → t.slot i = s.slot i) ∧
      ack_log t.trace = ack_log s.trace ++ acks_of_slots w packet_valid s m)
    (hg : Status.Used.get t._tail.status ≠ 0 ∨ false = true) :
    ∃ m, m ≤ j ∧ (submit_acks_body w packet_valid t).tail_idx =
        (s.tail_idx + m) % s.buffer_count ∧
      (submit_acks_body w packet_valid t)._phys_base = s._phys_base ∧
      same_status s (submit_acks_body w packet_valid t) ∧
      (∀ i, (∀ k, k < m → i ≠ (s.tail_idx + k) % s.buffer_count) →
        (submit_acks_body w packet_valid t).slot i = s.slot i) ∧
      ack_log (submit_acks_body w packet_valid t).trace =
        ack_log s.trace ++ acks_of_slots w packet_valid s m := by
  obtain ⟨m, hm, htail, hpb, hst, hslots, hack⟩ := ht
  have hused : Status.Used.get t._tail.status ≠ 0 := by
    rcases hg with h | h
    · exact h
    · cases h
  have htlt : t.tail_idx < t.buffer_count := by
    rw [htail, hst.1]
    exact Nat.mod_lt _ hwf.1
  have hmj : m < j := by
    rcases Nat.lt_or_ge m j with h | h
    · exact h
    · have e : m = j := by omega
      exfalso
      apply hused
      show Status.Used.get (t.slot t.tail_idx).status = 0
      rw [hst.2, htail, e]
      exact hclear
  have htslot : t._tail = s.slot ((s.tail_idx + m) % s.buffer_count) := by
    show t.slot t.tail_idx = _
    rw [htail]
    exact hslots _ (fun k hk => ring_pos_ne hwf.2.2 hk (by omega))
  obtain ⟨_, f2, f3⟩ := body_frame w packet_valid t htlt
  refine ⟨m + 1, hmj, ?_, ?_, ?_, ?_, ?_⟩
  · rw [f2, htail, hst.1, Nat.mod_add_mod, Nat.add_assoc]
  · rw [body_phys_base, hpb]
  · exact same_status_trans hst (same_status_body w packet_valid t htlt)
  · intro i hi
    have hne : i ≠ t.tail_idx := by
      rw [htail]
      exact hi m (Nat.lt_succ_self m)
    rw [body_slot_other w packet_valid t htlt i hne]
    exact hslots i (fun k hk => hi k (by omega))
  · rw [body_ack_log w packet_valid t htlt, hack, acks_of_slots_succ, htslot, hpb,
      List.append_assoc]

end Tx_buffer_descriptor

/-- The break test of `submit_acks(force=false)` keeps the call from passing a
slot that the NIC still owns. On a well-formed ring, let the slot at position
`j` from the tail be queued with its used bit clear. Then the call processes
`m ≤ j` slots: the tail ends at `tail + m` (mod `N`), not past that slot; the
slot at position `j` and every later slot of the ring is left as it was,
address and status; and the acknowledgments issued are those of the `m` slots
before it. If the used bit of the tail slot is clear, the call leaves the
whole object unchanged, so nothing is acknowledged. -/
theorem submit_acks_not_past_clear (w : Nat) (packet_valid : Packet_descriptor → Bool)
    (s : Tx_buffer_descriptor) (j : Nat) (hwf : s.well_formed) (hj : j < s._queued)
    (hclear : Status.Used.get (s.slot ((s.tail_idx + j) % s.buffer_count)).status = 0) :
    (∃ m, m ≤ j ∧
      (s.submit_acks w packet_valid false).tail_idx = (s.tail_idx + m) % s.buffer_count ∧
      (∀ k, j ≤ k → k < s.buffer_count →
        (s.submit_acks w packet_valid false).slot ((s.tail_idx + k) % s.buffer_count) =
          s.slot ((s.tail_idx + k) % s.buffer_count)) ∧
      ack_log (s.submit_acks w packet_valid false).trace =
        ack_log s.trace ++ Tx_buffer_descriptor.acks_of_slots w packet_valid s m) ∧
    (Status.Used.get s._tail.status = 0 → s.submit_acks w packet_valid false = s) := by
  constructor
  · have hjn : j < s.buffer_count :=
      Nat.lt_trans hj (Tx_buffer_descriptor.queued_lt s hwf)
    have h := Tx_buffer_descriptor.submit_acks_loop_induct_guard w packet_valid false
      (fun t => ∃ m, m ≤ j ∧ t.tail_idx = (s.tail_idx + m) % s.buffer_count ∧
        t._phys_base = s._phys_base ∧ Tx_buffer_descriptor.same_status s t ∧
        (∀ i, (∀ k, k < m → i ≠ (s.tail_idx + k) % s.buffer_count) → t.slot i = s.slot i) ∧
        ack_log t.trace = ack_log s.trace ++ Tx_buffer_descriptor.acks_of_slots w packet_valid s m)
      (fun t ht _ hg =>
        Tx_buffer_descriptor.reclaim_prefix_body w packet_valid s hwf j hjn hclear t ht hg)
      s._queued 0 s
      ⟨0, Nat.zero_le _, by rw [Nat.add_zero, Nat.mod_eq_of_lt hwf.2.2], rfl,
        Tx_buffer_descriptor.same_status_refl s, fun _ _ => rfl, by
          simp [Tx_buffer_descriptor.acks_of_slots]⟩
    obtain ⟨m, hm, htail, _, _, hslots, hack⟩ := h
    refine ⟨m, hm, htail, fun k hjk hk => ?_, hack⟩
    exact hslots _ (fun k' hk' => Tx_buffer_descriptor.ring_pos_ne hwf.2.2 (by omega) hk)
  · intro hu
    unfold Tx_buffer_descriptor.submit_acks
    cases hq : s._queued with
    | zero => rfl
    | succ q =>
      unfold Tx_buffer_descriptor.submit_acks_loop
      rw [if_pos (by omega), if_pos ⟨hu, rfl⟩]

/-- The break test at work: P1 to P4 queued on the ring of 8 slots, slot 0
completed by the NIC, slot 1 (position 1 from the tail) still owned by it.
The second iteration of the loop finds the used bit of slot 1 clear and
leaves the loop: P1 is acknowledged, the tail ends at slot 1. -/
theorem submit_acks_not_past_clear_example :
    (scenario_first_of_four_completed.well_formed ∧
      1 < scenario_first_of_four_completed._queued ∧
      Status.Used.get (scenario_first_of_four_completed.slot
        ((scenario_first_of_four_completed.tail_idx + 1) %
          scenario_first_of_four_completed.buffer_count)).status = 0) ∧
    ((∃ m, m ≤ 1 ∧
      (scenario_first_of_four_completed.submit_acks 32 (fun _ => true) false).tail_idx =
        (scenario_first_of_four_completed.tail_idx + m) %
          scenario_first_of_four_completed.buffer_count ∧
      (∀ k, 1 ≤ k → k < scenario_first_of_four_completed.buffer_count →
        (scenario_first_of_four_completed.submit_acks 32 (fun _ => true) false).slot
            ((scenario_first_of_four_completed.tail_idx + k) %
              scenario_first_of_four_completed.buffer_count) =
          scenario_first_of_four_completed.slot
            ((scenario_first_of_four_completed.tail_idx + k) %
              scenario_first_of_four_completed.buffer_count)) ∧
      ack_log (scenario_first_of_four_completed.submit_acks 32 (fun _ => true) false).trace =
        ack_log scenario_first_of_four_completed.trace ++
          Tx_buffer_descriptor.acks_of_slots 32 (fun _ => true)
            scenario_first_of_four_completed m) ∧
    (Status.Used.get scenario_first_of_four_completed._tail.status = 0 →
      scenario_first_of_four_completed.submit_acks 32 (fun _ => true) false =
        scenario_first_of_four_completed)) ∧
    (scenario_first_of_four_completed.submit_acks 32 (fun _ => true) false).tail_idx = 1 ∧
    (scenario_first_of_four_completed.submit_acks 32 (fun _ => true) false)._queued = 3 ∧
    ack_log (scenario_first_of_four_completed.submit_acks 32 (fun _ => true) false).trace =
      [P1] :=
  ⟨by decide, submit_acks_not_past_clear 32 (fun _ => true) scenario_first_of_four_completed 1
    (by decide) (by decide) (by decide), by decide, by decide, by decide⟩

namespace Tx_buffer_descriptor

theorem ack_count_inv_of_fifo (w c : Nat) (s t : Tx_buffer_descriptor)
    (hs : ack_count_inv w c s)
    (ht : fifo_inv w (ack_log s.trace ++ pending w s) t) : ack_count_inv w c t := by
  refine ⟨ht.1, ?_⟩
  have := ht.2.length_le
  rw [List.length_append, List.length_append] at this
  exact Nat.le_trans this hs.2

theorem fifo_inv_self (w : Nat) (s : Tx_buffer_descriptor) (hwf : s.well_formed) :
    fifo_inv w (ack_log s.trace ++ pending w s) s :=
  ⟨hwf, List.Sublist.refl _⟩

theorem ack_count_inv_usleep (w c : Nat) (s : Tx_buffer_descriptor) (us : Nat)
    (cs : List Hw_writeback) (h : ack_count_inv w c s) :
    ack_count_inv w c (s.usleep us cs) :=
  ack_count_inv_of_fifo w c s _ h (fifo_inv_usleep w _ s us cs (fifo_inv_self w s h.1))

theorem ack_count_inv_submit_acks (w c : Nat) (packet_valid : Packet_descriptor → Bool)
    (force : Bool) (s : Tx_buffer_descriptor) (h : ack_count_inv w c s) :
    ack_count_inv w c (s.submit_acks w packet_valid force) :=
  ack_count_inv_of_fifo w c s _ h
    (fifo_inv_submit_acks w packet_valid force _ s (fifo_inv_self w s h.1))

theorem ack_count_inv_reset (w c : Nat) (packet_valid : Packet_descriptor → Bool)
    (s : Tx_buffer_descriptor) (h : ack_count_inv w c s) :
    ack_count_inv w c (s.reset w packet_valid) :=
  ack_count_inv_of_fifo w c s _ h
    (fifo_inv_reset w packet_valid _ s (fifo_inv_self w s h.1))

theorem ack_count_inv_hw_writeback (w c : Nat) (s : Tx_buffer_descriptor)
    (x : Hw_writeback) (h : ack_count_inv w c s) : ack_count_inv w c (s.hw_writeback x) :=
  ack_count_inv_of_fifo w c s _ h
    (fifo_inv_hw_writebacks w _ s [x] (fifo_inv_self w s h.1))

theorem pending_commit (w : Nat) (t : Tx_buffer_descriptor) (hwf : t.well_formed)
    (d : descriptor_t) :
    (pending w (t.put t.head_idx d)._advance_head).Sublist
      (pending w t ++ (packet_of w t._phys_base d).toList) := by
  have hwfp : (t.put t.head_idx d).well_formed :=
    well_formed_same_frame (same_frame_put _ _ _) hwf
  have hqe : (t.put t.head_idx d)._queued = t._queued := by
    unfold _queued
    simp only [buffer_count_put, head_idx_put, tail_idx_put]
  by_cases hroom : t._queued + 1 < t.buffer_count
  · have hroom' : (t.put t.head_idx d)._queued + 1 < (t.put t.head_idx d).buffer_count := by
      rw [hqe, buffer_count_put]
      exact hroom
    unfold pending
    rw [window_advance_head _ hwfp hroom', List.filterMap_append]
    refine List.Sublist.append ?_ ?_
    · have hw : window (t.put t.head_idx d) = window t := by
        unfold window
        rw [hqe, buffer_count_put, tail_idx_put]
      rw [hw]
      have e : List.filterMap (fun i => packet_of w t._phys_base ((t.put t.head_idx d).slot i))
          (window t) =
          List.filterMap (fun i => packet_of w t._phys_base (t.slot i)) (window t) := by
        refine List.filterMap_congr ?_
        intro i hi
        have hne := window_ne_head t hwf i hi
        rw [slot_put_other _ _ _ _ (fun e => hne e.symm)]
      exact e ▸ List.Sublist.refl _
    · show (List.filterMap (fun i => packet_of w t._phys_base ((t.put t.head_idx d).slot i))
        [t.head_idx]).Sublist _
      rw [List.filterMap_cons, slot_put_self _ _ _ hwf.2.1]
      cases packet_of w t._phys_base d
      · exact List.nil_sublist _
      · exact List.Sublist.refl _
  · have hfull' : ¬ (t.put t.head_idx d)._queued + 1 < (t.put t.head_idx d).buffer_count := by
      rw [hqe, buffer_count_put]
      exact hroom
    unfold pending
    rw [window_full _ hwfp hfull']
    exact List.nil_sublist _

theorem ack_count_inv_commit (w c : Nat) (t : Tx_buffer_descriptor) (phys size : Nat)
    (h : ack_count_inv w c t) : ack_count_inv w (c + 1) (t.add_to_queue_commit phys size) := by
  obtain ⟨hwf, hc⟩ := h
  rw [add_to_queue_commit_general t phys size hwf.2.1]
  have hp := (pending_commit w t hwf ⟨phys % 2 ^ 32,
    ((((Status.Used.bits 1 ||| Status.Last_buffer.bits 1) % 2 ^ 32 |||
      (if t.head_idx = t._max_index then Status.Wrap.bits 1 else 0)) % 2 ^ 32 |||
      Status.Length.bits size) % 2 ^ 32 &&& Status.Used.clear_mask) % 2 ^ 32⟩).length_le
  have hwfp := well_formed_same_frame (same_frame_put t t.head_idx
    ⟨phys % 2 ^ 32,
      ((((Status.Used.bits 1 ||| Status.Last_buffer.bits 1) % 2 ^ 32 |||
        (if t.head_idx = t._max_index then Status.Wrap.bits 1 else 0)) % 2 ^ 32 |||
        Status.Length.bits size) % 2 ^ 32 &&& Status.Used.clear_mask) % 2 ^ 32⟩) hwf
  refine ⟨⟨hwfp.1, Nat.mod_lt _ hwfp.1, hwfp.2.2⟩, ?_⟩
  have hack : ack_log ((t.put t.head_idx
      ⟨phys % 2 ^ 32,
        ((((Status.Used.bits 1 ||| Status.Last_buffer.bits 1) % 2 ^ 32 |||
          (if t.head_idx = t._max_index then Status.Wrap.bits 1 else 0)) % 2 ^ 32 |||
          Status.Length.bits size) % 2 ^ 32 &&& Status.Used.clear_mask) % 2 ^ 32⟩)._advance_head).trace =
      ack_log t.trace := by
    show ack_log (t.trace ++ [Event.advance_head]) = _
    rw [ack_log_append]
    simp only [ack_log, List.append_nil]
  rw [hack]
  rw [List.length_append] at hp
  have h1 : (packet_of w t._phys_base ⟨phys % 2 ^ 32,
      ((((Status.Used.bits 1 ||| Status.Last_buffer.bits 1) % 2 ^ 32 |||
        (if t.head_idx = t._max_index then Status.Wrap.bits 1 else 0)) % 2 ^ 32 |||
        Status.Length.bits size) % 2 ^ 32 &&& Status.Used.clear_mask) % 2 ^ 32⟩).toList.length ≤ 1 := by
    cases packet_of w t._phys_base _ <;> simp
  omega

theorem ack_count_inv_add_to_queue (w BUFFER_SIZE : Nat) (hw : List (List Hw_writeback))
    (c : Nat) (p : Packet_descriptor) (s : Tx_buffer_descriptor)
    (h : ack_count_inv w c s) :
    ack_count_inv w (c + (if enqueues w BUFFER_SIZE hw p s then [p] else []).length)
      (s.add_to_queue w BUFFER_SIZE hw p).state := by
  by_cases hsize : p.size ≤ BUFFER_SIZE
  · have ht := wait_used_induct (ack_count_inv w c)
      (fun t cs ht => ack_count_inv_usleep w c t 1000 cs ht) 10 hw
      { s with trace := s.trace ++ add_to_queue_prologue w p s }
      (ack_count_inv_of_fifo w c s _ h
        (fifo_inv_with_trace w _ s _ (ack_log_prologue w p s) (fifo_inv_self w s h.1)))
    unfold enqueues
    rcases add_to_queue_cases w BUFFER_SIZE hw p s hsize with e | e
    · rw [e]
      simp only [Bool.false_eq_true, if_false, List.length_nil, Nat.add_zero]
      exact ht
    · rw [e]
      simp only [hsize, decide_True, if_true, List.length_singleton]
      exact ack_count_inv_commit w c _ _ _ ht
  · have hsz : p.size > BUFFER_SIZE := by omega
    have he : enqueues w BUFFER_SIZE hw p s = false := by
      unfold enqueues add_to_queue
      rw [if_pos hsz]
      simp [hsize]
    rw [he]
    unfold add_to_queue
    rw [if_pos hsz]
    simp only [Bool.false_eq_true, if_false, List.length_nil, Nat.add_zero]
    exact ack_count_inv_of_fifo w c s _ h
      (fifo_inv_with_trace w _ s [Event.warning Warning.package_too_big] rfl
        (fifo_inv_self w s h.1))

end Tx_buffer_descriptor

theorem ack_count_inv_run (w BUFFER_SIZE : Nat) (packet_valid : Packet_descriptor → Bool)
    (ops : List Op) :
    ∀ (s : Tx_buffer_descriptor) (c : Nat), Tx_buffer_descriptor.ack_count_inv w c s →
      Tx_buffer_descriptor.ack_count_inv w
        (c + (enqueue_log w BUFFER_SIZE packet_valid s ops).length)
        (run w BUFFER_SIZE packet_valid s ops) := by
  induction ops with
  | nil =>
    intro s c h
    simpa [enqueue_log, run] using h
  | cons op ops ih =>
    intro s c h
    show Tx_buffer_descriptor.ack_count_inv w _
      (run w BUFFER_SIZE packet_valid (step w BUFFER_SIZE packet_valid s op) ops)
    cases op with
    | add_to_queue p hw =>
      have h1 := Tx_buffer_descriptor.ack_count_inv_add_to_queue w BUFFER_SIZE hw c p s h
      have h2 := ih _ _ h1
      simp only [enqueue_log, List.length_append]
      rw [← Nat.add_assoc]
      exact h2
    | submit_acks force =>
      exact ih _ _ (Tx_buffer_descriptor.ack_count_inv_submit_acks w c packet_valid force s h)
    | reset =>
      exact ih _ _ (Tx_buffer_descriptor.ack_count_inv_reset w c packet_valid s h)
    | hardware x =>
      exact ih _ _ (Tx_buffer_descriptor.ack_count_inv_hw_writeback w c s x h)

/-- C13 (no double acknowledgment). One pass of the loop body of `submit_acks`
over the tail slot leaves that slot with address 0, and a tail slot whose
address is 0 produces no acknowledgment. Hence, for a ring of `n > 0` slots
fresh from the constructor and any sequence of `add_to_queue`,
`submit_acks(force)`, `reset` and hardware completions, the number of
acknowledgments is at most the number of successful `add_to_queue` calls; and
when the slot capacity is below `2^14` and every packet address fits the
address field, the acknowledged packets form a subsequence of the enqueued
ones, so that each enqueue is matched by at most one acknowledgment. -/
theorem no_double_acknowledgment (w BUFFER_SIZE : Nat)
    (packet_valid : Packet_descriptor → Bool) (n phys_base virt_base : Nat) (ops : List Op)
    (hn : 0 < n) :
    (∀ s : Tx_buffer_descriptor, s.tail_idx < s.buffer_count →
      ((Tx_buffer_descriptor.submit_acks_body w packet_valid s).slot s.tail_idx).addr = 0 ∧
      (s._tail.addr = 0 →
        ack_log (Tx_buffer_descriptor.submit_acks_body w packet_valid s).trace =
          ack_log s.trace)) ∧
    (ack_log (run w BUFFER_SIZE packet_valid
        (Tx_buffer_descriptor.construct n phys_base virt_base) ops).trace).length ≤
      (enqueue_log w BUFFER_SIZE packet_valid
        (Tx_buffer_descriptor.construct n phys_base virt_base) ops).length ∧
    (BUFFER_SIZE < 2 ^ 14 → all_addressable w phys_base ops →
      (ack_log (run w BUFFER_SIZE packet_valid
        (Tx_buffer_descriptor.construct n phys_base virt_base) ops).trace).Sublist
      (enqueue_log w BUFFER_SIZE packet_valid
        (Tx_buffer_descriptor.construct n phys_base virt_base) ops)) := by
  have hwf := (Tx_buffer_descriptor.counts_inv_construct n phys_base virt_base hn).1
  have hq : (Tx_buffer_descriptor.construct n phys_base virt_base)._queued = 0 := by
    unfold Tx_buffer_descriptor._queued
    rw [(Tx_buffer_descriptor.same_frame_construct n phys_base virt_base).1,
      (Tx_buffer_descriptor.same_frame_construct n phys_base virt_base).2.1]
    simp [Tx_buffer_descriptor.unconfigured]
  have hpend : Tx_buffer_descriptor.pending w
      (Tx_buffer_descriptor.construct n phys_base virt_base) = [] := by
    unfold Tx_buffer_descriptor.pending Tx_buffer_descriptor.window
    rw [hq]
    rfl
  have hack : ack_log (Tx_buffer_descriptor.construct n phys_base virt_base).trace = [] := by
    rw [(Tx_buffer_descriptor.same_frame_construct n phys_base virt_base).2.2.2.2.2]
    rfl
  refine ⟨?_, ?_, ?_⟩
  · intro s ht
    by_cases ha : s._tail.addr = 0
    · have hb : Tx_buffer_descriptor.submit_acks_body w packet_valid s = s._advance_tail := by
        unfold Tx_buffer_descriptor.submit_acks_body
        simp only [ne_eq, ha, not_true_eq_false, if_false]
      rw [hb]
      refine ⟨ha, fun _ => ?_⟩
      show ack_log (s.trace ++ [Event.advance_tail]) = _
      rw [ack_log_append]
      simp only [ack_log, List.append_nil]
    · refine ⟨?_, fun h0 => absurd h0 ha⟩
      unfold Tx_buffer_descriptor.submit_acks_body
      simp only [ne_eq, ha, not_false_eq_true, if_true]
      rw [Tx_buffer_descriptor.submit_acks_configured_eq w packet_valid s ht]
      show ((s.put s.tail_idx ⟨0, s._tail.status⟩).slot s.tail_idx).addr = 0
      rw [Tx_buffer_descriptor.slot_put_self _ _ _ ht]
  · have h0 : Tx_buffer_descriptor.ack_count_inv w 0
        (Tx_buffer_descriptor.construct n phys_base virt_base) := by
      refine ⟨hwf, ?_⟩
      rw [hack, hpend]
      exact Nat.le_refl _
    have h := (ack_count_inv_run w BUFFER_SIZE packet_valid ops _ 0 h0).2
    omega
  · intro hBS haddr
    have h0 : Tx_buffer_descriptor.fifo_inv w []
        (Tx_buffer_descriptor.construct n phys_base virt_base) := by
      refine ⟨hwf, ?_⟩
      rw [hack, hpend]
      exact List.Sublist.refl _
    have hpb : (Tx_buffer_descriptor.construct n phys_base virt_base)._phys_base =
        phys_base := (Tx_buffer_descriptor.same_frame_construct n phys_base virt_base).2.2.2.1
    have h := fifo_inv_run w BUFFER_SIZE packet_valid hBS ops _ []
      (by rw [hpb]; exact haddr) h0
    rw [List.nil_append] at h
    exact List.Sublist.trans (List.sublist_append_left _ _) h.2

/-- Witness for C13: a ring of 2 slots, one packet enqueued, completed by the
NIC and reclaimed, followed by a second reclaim call. -/
theorem no_double_acknowledgment_witness :
    0 < 2 ∧
    ((∀ s : Tx_buffer_descriptor, s.tail_idx < s.buffer_count →
      ((Tx_buffer_descriptor.submit_acks_body 32 (fun _ => true) s).slot s.tail_idx).addr = 0 ∧
      (s._tail.addr = 0 →
        ack_log (Tx_buffer_descriptor.submit_acks_body 32 (fun _ => true) s).trace =
          ack_log s.trace)) ∧
    (ack_log (run 32 1608 (fun _ => true)
        (Tx_buffer_descriptor.construct 2 0x10000000 0x20000000)
        [Op.add_to_queue P1 [], Op.hardware ⟨0, 0⟩, Op.submit_acks false,
          Op.submit_acks true]).trace).length ≤
      (enqueue_log 32 1608 (fun _ => true)
        (Tx_buffer_descriptor.construct 2 0x10000000 0x20000000)
        [Op.add_to_queue P1 [], Op.hardware ⟨0, 0⟩, Op.submit_acks false,
          Op.submit_acks true]).length ∧
    (1608 < 2 ^ 14 → all_addressable 32 0x10000000
        [Op.add_to_queue P1 [], Op.hardware ⟨0, 0⟩, Op.submit_acks false,
          Op.submit_acks true] →
      (ack_log (run 32 1608 (fun _ => true)
        (Tx_buffer_descriptor.construct 2 0x10000000 0x20000000)
        [Op.add_to_queue P1 [], Op.hardware ⟨0, 0⟩, Op.submit_acks false,
          Op.submit_acks true]).trace).Sublist
      (enqueue_log 32 1608 (fun _ => true)
        (Tx_buffer_descriptor.construct 2 0x10000000 0x20000000)
        [Op.add_to_queue P1 [], Op.hardware ⟨0, 0⟩, Op.submit_acks false,
          Op.submit_acks true]))) :=
  ⟨by decide, no_double_acknowledgment 32 1608 (fun _ => true) 2 0x10000000 0x20000000
    [Op.add_to_queue P1 [], Op.hardware ⟨0, 0⟩, Op.submit_acks false, Op.submit_acks true]
    (by decide)⟩

/-! ## C14: the error bits are observational -/

theorem quiet_append (xs ys : List Event) : quiet (xs ++ ys) = quiet xs ++ quiet ys := by
  induction xs with
  | nil => rfl
  | cons e es ih => cases e <;> simp [quiet, ih]

theorem quiet_map_warning (ws : List Warning) : quiet (ws.map Event.warning) = [] := by
  induction ws with
  | nil => rfl
  | cons x xs ih => simpa [quiet] using ih

theorem ack_log_quiet (es : List Event) : ack_log (quiet es) = ack_log es := by
  induction es with
  | nil => rfl
  | cons e es ih => cases e <;> simp [quiet, ack_log, ih]

theorem same_but_errors_length (a b : Nat) (h : same_but_errors a b) :
    Status.Length.get a = Status.Length.get b := by
  rw [bitfield_get_eq_div_mod, bitfield_get_eq_div_mod]
  obtain ⟨h1, -, -⟩ := h
  simp only [Status.Length, Nat.reducePow, Nat.pow_zero, Nat.div_one] at *
  omega

theorem same_but_errors_used (a b : Nat) (h : same_but_errors a b) :
    Status.Used.get a = Status.Used.get b := by
  rw [bitfield_get_eq_div_mod, bitfield_get_eq_div_mod]
  obtain ⟨-, -, h3⟩ := h
  simp only [Status.Used, Nat.reducePow, Nat.pow_one] at *
  omega

namespace Tx_buffer_descriptor

theorem quiet_reclaim_events (w : Nat) (packet_valid : Packet_descriptor → Bool)
    (s : Tx_buffer_descriptor) :
    quiet (reclaim_events w packet_valid s) =
      if packet_valid (slot_packet w s._phys_base s._tail) then
        [Event.acknowledge_packet (slot_packet w s._phys_base s._tail)]
      else [] := by
  unfold reclaim_events
  by_cases hv : packet_valid (slot_packet w s._phys_base s._tail) = true
  · simp only [hv, if_true]
    show Event.acknowledge_packet _ :: quiet _ = _
    rw [quiet_map_warning]
  · simp only [hv, Bool.false_eq_true, if_false]
    show quiet (List.map Event.warning _) = _
    rw [quiet_map_warning]

theorem error_equiv_body (w : Nat) (packet_valid : Packet_descriptor → Bool)
    (s t : Tx_buffer_descriptor) (ht : s.tail_idx < s.buffer_count) (h : error_equiv s t) :
    error_equiv (submit_acks_body w packet_valid s) (submit_acks_body w packet_valid t) := by
  obtain ⟨hN, hh, hT, hp, hv, hq, hs⟩ := h
  have ht' : t.tail_idx < t.buffer_count := by rw [hT, hN]; exact ht
  have hta : t._tail.addr = s._tail.addr := by
    unfold _tail
    rw [hT]
    exact (hs s.tail_idx ht).1
  have hlen : Status.Length.get t._tail.status = Status.Length.get s._tail.status := by
    unfold _tail
    rw [hT]
    exact (same_but_errors_length _ _ (hs s.tail_idx ht).2).symm
  have hpk : slot_packet w t._phys_base t._tail = slot_packet w s._phys_base s._tail := by
    unfold slot_packet
    rw [hp, hta, hlen]
  by_cases ha : s._tail.addr = 0
  · have hs0 : submit_acks_body w packet_valid s = s._advance_tail := by
      unfold submit_acks_body
      simp only [ne_eq, ha, not_true_eq_false, if_false]
    have ht0 : submit_acks_body w packet_valid t = t._advance_tail := by
      unfold submit_acks_body
      simp only [ne_eq, hta, ha, not_true_eq_false, if_false]
    rw [hs0, ht0]
    refine ⟨hN, hh, ?_, hp, hv, ?_, hs⟩
    · show (t.tail_idx + 1) % t.buffer_count = (s.tail_idx + 1) % s.buffer_count
      rw [hT, hN]
    · show quiet (t.trace ++ [Event.advance_tail]) = quiet (s.trace ++ [Event.advance_tail])
      rw [quiet_append, quiet_append, hq]
  · have hs1 : submit_acks_body w packet_valid s =
        (submit_acks_configured w packet_valid s)._advance_tail := by
      unfold submit_acks_body
      simp only [ne_eq, ha, not_false_eq_true, if_true]
    have ht1 : submit_acks_body w packet_valid t =
        (submit_acks_configured w packet_valid t)._advance_tail := by
      unfold submit_acks_body
      simp only [ne_eq, hta, ha, not_false_eq_true, if_true]
    rw [hs1, ht1, submit_acks_configured_eq w packet_valid s ht,
      submit_acks_configured_eq w packet_valid t ht']
    refine ⟨?_, hh, ?_, hp, hv, ?_, ?_⟩
    · show (t.put _ _).buffer_count = (s.put _ _).buffer_count
      rw [buffer_count_put, buffer_count_put]
      exact hN
    · show (t.tail_idx + 1) % (t.put _ _).buffer_count =
        (s.tail_idx + 1) % (s.put _ _).buffer_count
      rw [buffer_count_put, buffer_count_put, hT, hN]
    · show quiet ((t.trace ++ reclaim_events w packet_valid t) ++ [Event.advance_tail]) =
        quiet ((s.trace ++ reclaim_events w packet_valid s) ++ [Event.advance_tail])
      rw [quiet_append, quiet_append, quiet_append, quiet_append, quiet_reclaim_events,
        quiet_reclaim_events, hq, hpk]
    · intro i hi
      have hi' : i < s.buffer_count := by
        have e : (s.put s.tail_idx ⟨0, s._tail.status⟩).buffer_count = s.buffer_count :=
          buffer_count_put _ _ _
        exact e ▸ hi
      show ((t.put t.tail_idx ⟨0, t._tail.status⟩).slot i).addr =
          ((s.put s.tail_idx ⟨0, s._tail.status⟩).slot i).addr ∧
        same_but_errors ((s.put s.tail_idx ⟨0, s._tail.status⟩).slot i).status
          ((t.put t.tail_idx ⟨0, t._tail.status⟩).slot i).status
      by_cases e : i = s.tail_idx
      · subst e
        rw [hT, slot_put_self _ _ _ (hN ▸ hi'), slot_put_self _ _ _ hi']
        refine ⟨rfl, ?_⟩
        have := (hs s.tail_idx hi').2
        unfold _tail
        rw [hT]
        exact this
      · rw [hT, slot_put_other _ _ _ _ (fun x => e x.symm),
          slot_put_other _ _ _ _ (fun x => e x.symm)]
        exact hs i hi'

theorem error_equiv_loop (w : Nat) (packet_valid : Packet_descriptor → Bool) (force : Bool) :
    ∀ (fuel i : Nat) (s t : Tx_buffer_descriptor), s.tail_idx < s.buffer_count →
      error_equiv s t →
      error_equiv (submit_acks_loop w packet_valid force fuel i s)
        (submit_acks_loop w packet_valid force fuel i t) := by
  intro fuel
  induction fuel with
  | zero => intro i s t _ h; exact h
  | succ fuel ih =>
    intro i s t ht h
    have hq : t._queued = s._queued := by
      unfold _queued
      rw [h.1, h.2.1, h.2.2.1]
    have hu : Status.Used.get t._tail.status = Status.Used.get s._tail.status := by
      unfold _tail
      rw [h.2.2.1]
      exact (same_but_errors_used _ _ (h.2.2.2.2.2.2 s.tail_idx ht).2).symm
    unfold submit_acks_loop
    rw [hq, hu]
    by_cases hi : i < s._queued
    · rw [if_pos hi, if_pos hi]
      by_cases hb : Status.Used.get s._tail.status = 0 ∧ force = false
      · rw [if_pos hb, if_pos hb]
        exact h
      · rw [if_neg hb, if_neg hb]
        refine ih _ _ _ ?_ (error_equiv_body w packet_valid s t ht h)
        rw [(body_frame w packet_valid s ht).2.1, (body_frame w packet_valid s ht).2.2]
        exact Nat.mod_lt _ (Nat.lt_of_le_of_lt (Nat.zero_le _) ht)
    · rw [if_neg hi, if_neg hi]
      exact h

end Tx_buffer_descriptor

/-- C14 (hardware-reported errors are observational). Let the ring `t` differ
from the well-formed ring `s` only in the error-related status bits of the
slots (bit 16 and bits 20..29) and in the warnings emitted before. Then
`submit_acks(force)`, a total function of the state, yields on both the same
sequence of acknowledgments, the same tail and head index and the same slot
addresses; the two traces are the same once the warnings are left out, and the
resulting rings again differ only in the error-related status bits. -/
theorem errors_are_observational (w : Nat) (packet_valid : Packet_descriptor → Bool)
    (force : Bool) (s t : Tx_buffer_descriptor) (hwf : s.well_formed)
    (h : Tx_buffer_descriptor.error_equiv s t) :
    ack_log (t.submit_acks w packet_valid force).trace =
      ack_log (s.submit_acks w packet_valid force).trace ∧
    (t.submit_acks w packet_valid force).tail_idx =
      (s.submit_acks w packet_valid force).tail_idx ∧
    (t.submit_acks w packet_valid force).head_idx =
      (s.submit_acks w packet_valid force).head_idx ∧
    (∀ i, i < s.buffer_count →
      ((t.submit_acks w packet_valid force).slot i).addr =
        ((s.submit_acks w packet_valid force).slot i).addr) ∧
    quiet (t.submit_acks w packet_valid force).trace =
      quiet (s.submit_acks w packet_valid force).trace ∧
    Tx_buffer_descriptor.error_equiv (s.submit_acks w packet_valid force)
      (t.submit_acks w packet_valid force) := by
  have hq : t._queued = s._queued := by
    unfold Tx_buffer_descriptor._queued
    rw [h.1, h.2.1, h.2.2.1]
  have hN : (s.submit_acks w packet_valid force).buffer_count = s.buffer_count :=
    (Tx_buffer_descriptor.same_ring_submit_acks w packet_valid force
      (⟨rfl, rfl, rfl⟩ : Tx_buffer_descriptor.same_ring s s)).1
  have he : Tx_buffer_descriptor.error_equiv (s.submit_acks w packet_valid force)
      (t.submit_acks w packet_valid force) := by
    unfold Tx_buffer_descriptor.submit_acks
    rw [hq]
    exact Tx_buffer_descriptor.error_equiv_loop w packet_valid force _ 0 s t hwf.2.2 h
  refine ⟨?_, he.2.2.1, he.2.1, ?_, he.2.2.2.2.2.1, he⟩
  · rw [← ack_log_quiet, he.2.2.2.2.2.1, ack_log_quiet]
  · intro i hi
    exact (he.2.2.2.2.2.2 i (hN ▸ hi)).1

/-- Witness for C14: the scenario with both packets completed, without errors
and with errors reported by the NIC. -/
theorem errors_are_observational_witness :
    scenario_completed.well_formed ∧
    Tx_buffer_descriptor.error_equiv scenario_completed scenario_completed_errors ∧
    (ack_log (scenario_completed_errors.submit_acks 32 (fun _ => true) false).trace =
      ack_log (scenario_completed.submit_acks 32 (fun _ => true) false).trace ∧
    (scenario_completed_errors.submit_acks 32 (fun _ => true) false).tail_idx =
      (scenario_completed.submit_acks 32 (fun _ => true) false).tail_idx ∧
    (scenario_completed_errors.submit_acks 32 (fun _ => true) false).head_idx =
      (scenario_completed.submit_acks 32 (fun _ => true) false).head_idx ∧
    (∀ i, i < scenario_completed.buffer_count →
      ((scenario_completed_errors.submit_acks 32 (fun _ => true) false).slot i).addr =
        ((scenario_completed.submit_acks 32 (fun _ => true) false).slot i).addr) ∧
    quiet (scenario_completed_errors.submit_acks 32 (fun _ => true) false).trace =
      quiet (scenario_completed.submit_acks 32 (fun _ => true) false).trace ∧
    Tx_buffer_descriptor.error_equiv
      (scenario_completed.submit_acks 32 (fun _ => true) false)
      (scenario_completed_errors.submit_acks 32 (fun _ => true) false)) :=
  ⟨by decide, by decide,
    errors_are_observational 32 (fun _ => true) false scenario_completed
      scenario_completed_errors (by decide) (by decide)⟩

/-! ## C16: the order of the stores of `add_to_queue` -/

theorem used_get_eq_one (st : Nat) (h : Status.Used.get st ≠ 0) : Status.Used.get st = 1 := by
  rw [bitfield_get_eq_div_mod] at *
  simp only [Status.Used, Nat.pow_one] at *
  omega

namespace Tx_buffer_descriptor

/-- Used bit and length field of the status words that the stores of
`add_to_queue` leave in the head slot. -/
theorem commit_status_steps (size : Nat) (last : Prop) [Decidable last] :
    Status.Used.get ((Status.Used.bits 1 ||| Status.Last_buffer.bits 1) % 2 ^ 32) = 1 ∧
    Status.Used.get (((Status.Used.bits 1 ||| Status.Last_buffer.bits 1) % 2 ^ 32 |||
      Status.Wrap.bits 1) % 2 ^ 32) = 1 ∧
    Status.Used.get ((((Status.Used.bits 1 ||| Status.Last_buffer.bits 1) % 2 ^ 32 |||
      (if last then Status.Wrap.bits 1 else 0)) % 2 ^ 32 |||
      Status.Length.bits size) % 2 ^ 32) = 1 ∧
    Status.Length.get ((((Status.Used.bits 1 ||| Status.Last_buffer.bits 1) % 2 ^ 32 |||
      (if last then Status.Wrap.bits 1 else 0)) % 2 ^ 32 |||
      Status.Length.bits size) % 2 ^ 32) = size % 2 ^ 14 ∧
    Status.Used.get (((((Status.Used.bits 1 ||| Status.Last_buffer.bits 1) % 2 ^ 32 |||
      (if last then Status.Wrap.bits 1 else 0)) % 2 ^ 32 |||
      Status.Length.bits size) % 2 ^ 32 &&& Status.Used.clear_mask) % 2 ^ 32) = 0 ∧
    Status.Length.get (((((Status.Used.bits 1 ||| Status.Last_buffer.bits 1) % 2 ^ 32 |||
      (if last then Status.Wrap.bits 1 else 0)) % 2 ^ 32 |||
      Status.Length.bits size) % 2 ^ 32 &&& Status.Used.clear_mask) % 2 ^ 32) =
      size % 2 ^ 14 := by
  have hc : Status.Used.clear_mask = 2 ^ 31 - 1 := by decide
  have hr : size % 2 ^ 14 < 2 ^ 14 := Nat.mod_lt _ (by decide)
  refine ⟨by decide, by decide, ?_, ?_, ?_, ?_⟩ <;>
    rw [bitfield_get_eq_div_mod, length_bits_eq_mod] <;>
    by_cases h : last
  all_goals first
    | (have e : ((Status.Used.bits 1 ||| Status.Last_buffer.bits 1) % 2 ^ 32 |||
          (if last then Status.Wrap.bits 1 else 0)) % 2 ^ 32 = 2 ^ 14 * 196610 := by
        rw [if_pos h]; decide
       rw [e, ← Nat.mul_add_lt_is_or hr]
       try rw [hc, Nat.and_pow_two_sub_one_eq_mod]
       simp only [Status.Used, Status.Length, Nat.pow_zero, Nat.div_one, Nat.pow_one]
       omega)
    | (have e : ((Status.Used.bits 1 ||| Status.Last_buffer.bits 1) % 2 ^ 32 |||
          (if last then Status.Wrap.bits 1 else 0)) % 2 ^ 32 = 2 ^ 14 * 131074 := by
        rw [if_neg h]; decide
       rw [e, ← Nat.mul_add_lt_is_or hr]
       try rw [hc, Nat.and_pow_two_sub_one_eq_mod]
       simp only [Status.Used, Status.Length, Nat.pow_zero, Nat.div_one, Nat.pow_one]
       omega)

theorem reset_descriptor_stores_eq (s : Tx_buffer_descriptor) (i phys : Nat)
    (hi : i < s.buffer_count) :
    s._reset_descriptor_stores i phys =
      [s.put i ⟨phys % 2 ^ 32, (s.slot i).status⟩,
        s.put i ⟨phys % 2 ^ 32, (Status.Used.bits 1 ||| Status.Last_buffer.bits 1) % 2 ^ 32⟩] ++
      (if i = s._max_index then
        [s.put i ⟨phys % 2 ^ 32, ((Status.Used.bits 1 ||| Status.Last_buffer.bits 1) % 2 ^ 32 |||
          Status.Wrap.bits 1) % 2 ^ 32⟩]
      else []) := by
  have hmax : ¬ i > s._max_index := by
    unfold _max_index; omega
  unfold _reset_descriptor_stores
  rw [if_neg hmax]
  simp only [store_addr, store_status, put_put, slot_put_self _ _ _ hi, buffer_count_put,
    max_index_put]
  by_cases hw : i = s._max_index
  · rw [if_pos hw, if_pos hw]
    rfl
  · rw [if_neg hw, if_neg hw]
    rfl

theorem add_to_queue_stores_eq (s : Tx_buffer_descriptor) (phys size : Nat)
    (hh : s.head_idx < s.buffer_count) :
    s.add_to_queue_stores phys size =
      s._reset_descriptor_stores s.head_idx phys ++
      [s.put s.head_idx ⟨phys % 2 ^ 32,
          (((Status.Used.bits 1 ||| Status.Last_buffer.bits 1) % 2 ^ 32 |||
            (if s.head_idx = s._max_index then Status.Wrap.bits 1 else 0)) % 2 ^ 32 |||
            Status.Length.bits size) % 2 ^ 32⟩,
        s.put s.head_idx ⟨phys % 2 ^ 32,
          ((((Status.Used.bits 1 ||| Status.Last_buffer.bits 1) % 2 ^ 32 |||
            (if s.head_idx = s._max_index then Status.Wrap.bits 1 else 0)) % 2 ^ 32 |||
            Status.Length.bits size) % 2 ^ 32 &&& Status.Used.clear_mask) % 2 ^ 32⟩] := by
  unfold add_to_queue_stores
  rw [_head_index, reset_descriptor_eq s _ _ hh]
  simp only [store_status, _head, head_idx_put, put_put, slot_put_self _ _ _ hh]

theorem wait_used_returned (ticks : Nat) :
    ∀ (hw : List (List Hw_writeback)) (s t : Tx_buffer_descriptor),
      wait_used ticks hw s = Result.returned t → Status.Used.get t._head.status ≠ 0 := by
  induction ticks with
  | zero =>
    intro hw s t h
    unfold wait_used at h
    by_cases hu : Status.Used.get s._head.status ≠ 0
    · rw [if_pos hu] at h
      cases h
      exact hu
    · rw [if_neg hu] at h
      cases h
  | succ n ih =>
    intro hw s t h
    unfold wait_used at h
    by_cases hu : Status.Used.get s._head.status ≠ 0
    · rw [if_pos hu] at h
      cases h
      exact hu
    · rw [if_neg hu] at h
      exact ih _ _ _ h

theorem head_frame_usleep (s : Tx_buffer_descriptor) (us : Nat) (cs : List Hw_writeback) :
    (s.usleep us cs).head_idx = s.head_idx ∧ (s.usleep us cs).buffer_count = s.buffer_count := by
  have h := same_frame_hw_writebacks cs (s.emit (Event.usleep us))
  exact ⟨h.1, h.2.2.1⟩

end Tx_buffer_descriptor

/-- C16 (hand-off ordering in `add_to_queue`). Let the head index `h` be a slot
of the ring, `p.size ≤ BUFFER_SIZE`, and let `add_to_queue(p)` return. The
polling loop is left in a state `t` whose head slot has the used bit set. The
objects after the successive stores of the call are `mids ++ [prev, last]`:
the used bit of slot `h` is 1 in every one of them but `last`; `last` results
from `prev` by the store that clears the used bit, is followed only by
`_advance_head()`, and has used bit 0; address and length field of slot `h`
have in `prev` already the values they have in `last` (the physical address of
the packet in the 32-bit field, the size modulo `2^14`). So the only object of
the sequence with the used bit of slot `h` clear is `last`; and no store
touches another slot. -/
theorem hand_off_order (w BUFFER_SIZE : Nat) (hw : List (List Hw_writeback))
    (p : Packet_descriptor) (s s' : Tx_buffer_descriptor)
    (hh : s.head_idx < s.buffer_count) (hsize : p.size ≤ BUFFER_SIZE)
    (hret : s.add_to_queue w BUFFER_SIZE hw p = Result.returned s') :
    ∃ (t : Tx_buffer_descriptor) (mids : List Tx_buffer_descriptor)
      (prev last : Tx_buffer_descriptor),
      Tx_buffer_descriptor.wait_used 10 hw
        { s with trace := s.trace ++ Tx_buffer_descriptor.add_to_queue_prologue w p s } =
        Result.returned t ∧
      t.head_idx = s.head_idx ∧
      Status.Used.get (t.slot s.head_idx).status = 1 ∧
      t.add_to_queue_stores (wrap_add w s._phys_base p.offset) p.size =
        mids ++ [prev, last] ∧
      s' = last._advance_head ∧
      (∀ m ∈ mids ++ [prev], Status.Used.get (m.slot s.head_idx).status = 1) ∧
      last = prev.store_status s.head_idx
        ((prev.slot s.head_idx).status &&& Status.Used.clear_mask) ∧
      Status.Used.get (last.slot s.head_idx).status = 0 ∧
      (prev.slot s.head_idx).addr = wrap_add w s._phys_base p.offset % 2 ^ 32 ∧
      (last.slot s.head_idx).addr = wrap_add w s._phys_base p.offset % 2 ^ 32 ∧
      Status.Length.get (prev.slot s.head_idx).status = p.size % 2 ^ 14 ∧
      Status.Length.get (last.slot s.head_idx).status = p.size % 2 ^ 14 ∧
      (∀ m ∈ mids ++ [prev, last],
        Status.Used.get (m.slot s.head_idx).status = 0 → m = last) ∧
      (∀ m ∈ mids ++ [prev, last], ∀ i, i ≠ s.head_idx → m.slot i = t.slot i) := by
  rw [add_to_queue_admissible w BUFFER_SIZE hw p s hsize] at hret
  have hfr := Tx_buffer_descriptor.wait_used_induct
    (fun x => x.head_idx = s.head_idx ∧ x.buffer_count = s.buffer_count)
    (fun x cs hx => by
      obtain ⟨e1, e2⟩ := Tx_buffer_descriptor.head_frame_usleep x 1000 cs
      exact ⟨e1.trans hx.1, e2.trans hx.2⟩) 10 hw
    { s with trace := s.trace ++ Tx_buffer_descriptor.add_to_queue_prologue w p s }
    ⟨rfl, rfl⟩
  have hus := Tx_buffer_descriptor.wait_used_returned 10 hw
    { s with trace := s.trace ++ Tx_buffer_descriptor.add_to_queue_prologue w p s }
  cases hwait : Tx_buffer_descriptor.wait_used 10 hw
      { s with trace := s.trace ++ Tx_buffer_descriptor.add_to_queue_prologue w p s } with
  | Package_send_timeout t =>
    rw [hwait] at hret
    cases hret
  | returned t =>
    rw [hwait] at hret hfr
    obtain ⟨hth, htn⟩ := hfr
    have hth' : t.head_idx = s.head_idx := hth
    have hht : t.head_idx < t.buffer_count := by
      rw [hth']
      exact (show t.buffer_count = s.buffer_count from htn) ▸ hh
    have hused : Status.Used.get (t.slot t.head_idx).status = 1 :=
      used_get_eq_one _ (hus t hwait)
    obtain ⟨c1, c2, c3, c4, c5, c6⟩ :=
      Tx_buffer_descriptor.commit_status_steps p.size (t.head_idx = t._max_index)
    have hmids : ∀ m ∈ t._reset_descriptor_stores t.head_idx
        (wrap_add w s._phys_base p.offset) ++
        [t.put t.head_idx ⟨wrap_add w s._phys_base p.offset % 2 ^ 32,
          (((Status.Used.bits 1 ||| Status.Last_buffer.bits 1) % 2 ^ 32 |||
            (if t.head_idx = t._max_index then Status.Wrap.bits 1 else 0)) % 2 ^ 32 |||
            Status.Length.bits p.size) % 2 ^ 32⟩],
        Status.Used.get (m.slot t.head_idx).status = 1 ∧
          ∀ i, i ≠ t.head_idx → m.slot i = t.slot i := by
      intro m hm
      rw [Tx_buffer_descriptor.reset_descriptor_stores_eq t _ _ hht] at hm
      simp only [List.mem_append, List.mem_cons, List.mem_singleton, List.not_mem_nil,
        or_false] at hm
      rcases hm with ((hm | hm) | hm) | hm
      · subst hm
        rw [Tx_buffer_descriptor.slot_put_self _ _ _ hht]
        exact ⟨hused, fun i hi => Tx_buffer_descriptor.slot_put_other _ _ _ _ (Ne.symm hi)⟩
      · subst hm
        rw [Tx_buffer_descriptor.slot_put_self _ _ _ hht]
        exact ⟨c1, fun i hi => Tx_buffer_descriptor.slot_put_other _ _ _ _ (Ne.symm hi)⟩
      · by_cases hl : t.head_idx = t._max_index
        · rw [if_pos hl] at hm
          simp only [List.mem_singleton] at hm
          subst hm
          rw [Tx_buffer_descriptor.slot_put_self _ _ _ hht]
          exact ⟨c2, fun i hi => Tx_buffer_descriptor.slot_put_other _ _ _ _ (Ne.symm hi)⟩
        · rw [if_neg hl] at hm
          cases hm
      · subst hm
        rw [Tx_buffer_descriptor.slot_put_self _ _ _ hht]
        exact ⟨c3, fun i hi => Tx_buffer_descriptor.slot_put_other _ _ _ _ (Ne.symm hi)⟩
    rw [← hth']
    refine ⟨t, _, _, _, rfl, rfl, hused,
      Tx_buffer_descriptor.add_to_queue_stores_eq t _ _ hht, ?_, fun m hm => (hmids m hm).1,
      ?_, ?_, ?_, ?_, ?_, ?_, ?_, ?_⟩
    · cases hret
      exact Tx_buffer_descriptor.add_to_queue_commit_general t _ _ hht
    · simp only [Tx_buffer_descriptor.store_status, Tx_buffer_descriptor.put_put,
        Tx_buffer_descriptor.slot_put_self _ _ _ hht]
    · rw [Tx_buffer_descriptor.slot_put_self _ _ _ hht]
      exact c5
    · rw [Tx_buffer_descriptor.slot_put_self _ _ _ hht]
    · rw [Tx_buffer_descriptor.slot_put_self _ _ _ hht]
    · rw [Tx_buffer_descriptor.slot_put_self _ _ _ hht]
      exact c4
    · rw [Tx_buffer_descriptor.slot_put_self _ _ _ hht]
      exact c6
    · intro m hm h0
      rw [List.append_cons] at hm
      rcases List.mem_append.mp hm with hm' | hm'
      · have := (hmids m hm').1
        omega
      · exact List.mem_singleton.mp hm'
    · intro m hm i hi
      rw [List.append_cons] at hm
      rcases List.mem_append.mp hm with hm' | hm'
      · exact (hmids m hm').2 i hi
      · rw [List.mem_singleton.mp hm']
        exact Tx_buffer_descriptor.slot_put_other _ _ _ _ (Ne.symm hi)

/-- Witness for C16: packet P1 handed to the fresh ring of the scenario. -/
theorem hand_off_order_witness :
    scenario_fresh.head_idx < scenario_fresh.buffer_count ∧ P1.size ≤ 1608 ∧
    scenario_fresh.add_to_queue 32 1608 [] P1 =
      Result.returned (scenario_fresh.add_to_queue 32 1608 [] P1).state ∧
    ∃ (t : Tx_buffer_descriptor) (mids : List Tx_buffer_descriptor)
      (prev last : Tx_buffer_descriptor),
      Tx_buffer_descriptor.wait_used 10 []
        { scenario_fresh with
          trace := scenario_fresh.trace ++
            Tx_buffer_descriptor.add_to_queue_prologue 32 P1 scenario_fresh } =
        Result.returned t ∧
      t.head_idx = scenario_fresh.head_idx ∧
      Status.Used.get (t.slot scenario_fresh.head_idx).status = 1 ∧
      t.add_to_queue_stores (wrap_add 32 scenario_fresh._phys_base P1.offset) P1.size =
        mids ++ [prev, last] ∧
      (scenario_fresh.add_to_queue 32 1608 [] P1).state = last._advance_head ∧
      (∀ m ∈ mids ++ [prev], Status.Used.get (m.slot scenario_fresh.head_idx).status = 1) ∧
      last = prev.store_status scenario_fresh.head_idx
        ((prev.slot scenario_fresh.head_idx).status &&& Status.Used.clear_mask) ∧
      Status.Used.get (last.slot scenario_fresh.head_idx).status = 0 ∧
      (prev.slot scenario_fresh.head_idx).addr =
        wrap_add 32 scenario_fresh._phys_base P1.offset % 2 ^ 32 ∧
      (last.slot scenario_fresh.head_idx).addr =
        wrap_add 32 scenario_fresh._phys_base P1.offset % 2 ^ 32 ∧
      Status.Length.get (prev.slot scenario_fresh.head_idx).status = P1.size % 2 ^ 14 ∧
      Status.Length.get (last.slot scenario_fresh.head_idx).status = P1.size % 2 ^ 14 ∧
      (∀ m ∈ mids ++ [prev, last],
        Status.Used.get (m.slot scenario_fresh.head_idx).status = 0 → m = last) ∧
      (∀ m ∈ mids ++ [prev, last], ∀ i, i ≠ scenario_fresh.head_idx → m.slot i = t.slot i) :=
  ⟨by decide, by decide, by decide,
    hand_off_order 32 1608 [] P1 scenario_fresh _ (by decide) (by decide) (by decide)⟩

/-! ## C18: the bounds check of `packet_descriptor` in machine arithmetic -/

/-- C18, failing input: with 32-bit words, pool `(base, size) = (0x1000, 0x1000)`,
`dma_addr = 0x1800` and `len = 0xffffe810`, the sum `dma_addr + len` wraps
around to `0x10`, which is not above `base + size = 0x2000`; the guard of
`packet_descriptor` lets the region pass and the descriptor
`(0x800, 0xffffe810)` is returned, which is not the invalid descriptor and
whose offset plus length exceeds the size of the pool. -/
theorem packet_descriptor_overflow_escapes :
    wrap_add 32 0x1800 0xffffe810 = 0x10 ∧
    Dma_pool_base.packet_descriptor 32 ⟨0x1000, 0x1000⟩ 0x1800 0xffffe810 =
      ⟨0x800, 0xffffe810⟩ ∧
    Dma_pool_base.packet_descriptor 32 ⟨0x1000, 0x1000⟩ 0x1800 0xffffe810 ≠ ⟨0, 0⟩ ∧
    ¬ ((Dma_pool_base.packet_descriptor 32 ⟨0x1000, 0x1000⟩ 0x1800 0xffffe810).offset +
        (Dma_pool_base.packet_descriptor 32 ⟨0x1000, 0x1000⟩ 0x1800 0xffffe810).size ≤
      0x1000) := by
  decide

end Cadence_gem

namespace Fpga

/-! ## C17: `read_bitstream` on the swapped format -/

theorem read_u8_in (buf : List Nat) (i : Nat) (h : i < buf.length) :
    read_u8 buf i = Outcome.ok (buf.getD i 0 % 2 ^ 8) := by
  unfold read_u8
  rw [if_pos h]

theorem read_u8_out (buf : List Nat) (i : Nat) (h : buf.length ≤ i) :
    read_u8 buf i = Outcome.out_of_bounds := by
  unfold read_u8
  rw [if_neg (by omega)]

theorem read_u32_in (buf : List Nat) (i : Nat) (h : i + 3 < buf.length) :
    read_u32 buf i = Outcome.ok (buf.getD i 0 % 2 ^ 8 + 2 ^ 8 * (buf.getD (i + 1) 0 % 2 ^ 8) +
      2 ^ 16 * (buf.getD (i + 2) 0 % 2 ^ 8) + 2 ^ 24 * (buf.getD (i + 3) 0 % 2 ^ 8)) := by
  unfold read_u32
  rw [read_u8_in buf i (by omega), read_u8_in buf (i + 1) (by omega),
    read_u8_in buf (i + 2) (by omega), read_u8_in buf (i + 3) h]
  rfl

theorem read_u32_out (buf : List Nat) (i : Nat) (h : buf.length ≤ i + 3) :
    read_u32 buf i = Outcome.out_of_bounds := by
  unfold read_u32
  by_cases h0 : i < buf.length
  · rw [read_u8_in buf i h0]
    by_cases h1 : i + 1 < buf.length
    · rw [read_u8_in buf _ h1]
      by_cases h2 : i + 2 < buf.length
      · rw [read_u8_in buf _ h2, read_u8_out buf (i + 3) h]
        rfl
      · rw [read_u8_out buf (i + 2) (by omega)]
        rfl
    · rw [read_u8_out buf (i + 1) (by omega)]
      rfl
  · rw [read_u8_out buf i (by omega)]
    rfl

theorem write_u32_in (dst : List Nat) (i v : Nat) (h : i + 3 < dst.length) :
    write_u32 dst i v = Outcome.ok ((((dst.set i (v % 2 ^ 8)).set (i + 1) (v / 2 ^ 8 % 2 ^ 8)).set
      (i + 2) (v / 2 ^ 16 % 2 ^ 8)).set (i + 3) (v / 2 ^ 24 % 2 ^ 8)) := by
  unfold write_u32 write_u8
  rw [if_pos (by omega)]
  simp only [Outcome.bind, List.length_set]
  rw [if_pos (by omega)]
  simp only [Outcome.bind, List.length_set]
  rw [if_pos (by omega)]
  simp only [Outcome.bind, List.length_set]
  rw [if_pos h]

/-- The bytes of a byte-reversed word. -/
theorem swap_bytes (a0 a1 a2 a3 : Nat) (h0 : a0 < 2 ^ 8) (h1 : a1 < 2 ^ 8) (h2 : a2 < 2 ^ 8)
    (h3 : a3 < 2 ^ 8) :
    host_to_big_endian_u32 (a0 + 2 ^ 8 * a1 + 2 ^ 16 * a2 + 2 ^ 24 * a3) % 2 ^ 8 = a3 ∧
    host_to_big_endian_u32 (a0 + 2 ^ 8 * a1 + 2 ^ 16 * a2 + 2 ^ 24 * a3) / 2 ^ 8 % 2 ^ 8 = a2 ∧
    host_to_big_endian_u32 (a0 + 2 ^ 8 * a1 + 2 ^ 16 * a2 + 2 ^ 24 * a3) / 2 ^ 16 % 2 ^ 8 = a1 ∧
    host_to_big_endian_u32 (a0 + 2 ^ 8 * a1 + 2 ^ 16 * a2 + 2 ^ 24 * a3) / 2 ^ 24 % 2 ^ 8 = a0 := by
  have x0 : (a0 + 2 ^ 8 * a1 + 2 ^ 16 * a2 + 2 ^ 24 * a3) % 2 ^ 8 = a0 := by
    simp only [Nat.reducePow] at *
    omega
  have x1 : (a0 + 2 ^ 8 * a1 + 2 ^ 16 * a2 + 2 ^ 24 * a3) / 2 ^ 8 % 2 ^ 8 = a1 := by
    simp only [Nat.reducePow] at *
    omega
  have x2 : (a0 + 2 ^ 8 * a1 + 2 ^ 16 * a2 + 2 ^ 24 * a3) / 2 ^ 16 % 2 ^ 8 = a2 := by
    simp only [Nat.reducePow] at *
    omega
  have x3 : (a0 + 2 ^ 8 * a1 + 2 ^ 16 * a2 + 2 ^ 24 * a3) / 2 ^ 24 % 2 ^ 8 = a3 := by
    simp only [Nat.reducePow] at *
    omega
  unfold host_to_big_endian_u32
  rw [x0, x1, x2, x3]
  clear x0 x1 x2 x3
  simp only [Nat.reducePow] at *
  refine ⟨?_, ?_, ?_, ?_⟩ <;> omega

/-- One word copied with reversed bytes from `rom[p ..]` to `dst[q ..]`. -/
theorem swap_word_step (rom dst : List Nat) (p q : Nat) (hp : p + 3 < rom.length)
    (hq : q + 3 < dst.length) :
    ∃ x d, read_u32 rom p = Outcome.ok x ∧
      write_u32 dst q (host_to_big_endian_u32 x) = Outcome.ok d ∧
      d.length = dst.length ∧
      (∀ c, c < 4 → d[q + c]? = some (rom.getD (p + 3 - c) 0 % 2 ^ 8)) ∧
      ∀ i, i < q ∨ q + 3 < i → d[i]? = dst[i]? := by
  obtain ⟨e0, e1, e2, e3⟩ := swap_bytes (rom.getD p 0 % 2 ^ 8) (rom.getD (p + 1) 0 % 2 ^ 8)
    (rom.getD (p + 2) 0 % 2 ^ 8) (rom.getD (p + 3) 0 % 2 ^ 8)
    (Nat.mod_lt _ (by decide)) (Nat.mod_lt _ (by decide)) (Nat.mod_lt _ (by decide))
    (Nat.mod_lt _ (by decide))
  refine ⟨_, _, read_u32_in rom p hp, write_u32_in dst q _ hq, ?_, ?_, ?_⟩
  · simp only [List.length_set]
  · rw [e0, e1, e2, e3]
    intro c hc
    have hc' : c = 0 ∨ c = 1 ∨ c = 2 ∨ c = 3 := by omega
    rcases hc' with h | h | h | h <;> subst h <;>
      simp [List.getElem?_set, List.length_set] <;> omega
  · intro i hi
    have n0 : q ≠ i := by omega
    have n1 : q + 1 ≠ i := by omega
    have n2 : q + 2 ≠ i := by omega
    have n3 : q + 3 ≠ i := by omega
    rw [List.getElem?_set_ne n3, List.getElem?_set_ne n2, List.getElem?_set_ne n1,
      List.getElem?_set_ne n0]

theorem byte_getD (l : List Nat) (i : Nat) (h : i < l.length) (hb : ∀ x ∈ l, x < 2 ^ 8) :
    some (l.getD i 0 % 2 ^ 8) = l[i]? := by
  rw [List.getD_eq_getElem?_getD, List.getElem?_eq_getElem h, Option.getD_some,
    Nat.mod_eq_of_lt (hb _ (List.getElem_mem h))]

namespace Bitstream

theorem read_swapped_loop_spec (b : Bitstream) :
    ∀ (k word written : Nat) (dst : List Nat),
      b._offset + 4 * (word + k) ≤ b._rom.length → 4 * (word + k) ≤ dst.length →
      ∃ d, b._read_swapped_loop k word written dst = Outcome.ok (written + 4 * k, d) ∧
        d.length = dst.length ∧
        (∀ j c, word ≤ j → j < word + k → c < 4 →
          d[4 * j + c]? = some (b._rom.getD (b._offset + 4 * j + 3 - c) 0 % 2 ^ 8)) ∧
        ∀ i, i < 4 * word ∨ 4 * (word + k) ≤ i → d[i]? = dst[i]? := by
  intro k
  induction k with
  | zero =>
    intro word written dst _ _
    exact ⟨dst, rfl, rfl, fun j c h1 h2 => by omega, fun _ _ => rfl⟩
  | succ k ih =>
    intro word written dst hs hd
    obtain ⟨x, d1, er, ew, l1, b1, u1⟩ := swap_word_step b._rom dst (b._offset + 4 * word)
      (4 * word) (by omega) (by omega)
    obtain ⟨d2, e2, l2, b2, u2⟩ := ih (word + 1) (written + 4) d1 (by omega)
      (by rw [l1]; omega)
    refine ⟨d2, ?_, l2.trans l1, ?_, ?_⟩
    · unfold _read_swapped_loop
      rw [er]
      simp only [Outcome.bind]
      rw [ew]
      simp only [Outcome.bind]
      rw [e2]
      have ha : written + 4 + 4 * k = written + 4 * (k + 1) := by omega
      rw [ha]
    · intro j c h1 h2 hc
      by_cases hj : j = word
      · subst hj
        rw [u2 _ (Or.inl (by omega))]
        exact b1 c hc
      · exact b2 j c (by omega) (by omega) hc
    · intro i hi
      rw [u2 i (by omega), u1 i (by omega)]

end Bitstream

/-- C17. Let `b` be a bitstream in the swapped (`.bit`) format whose payload of
`S = _bitstream_size` bytes at `_offset` lies inside the ROM, every ROM cell
holding a byte, and let the destination buffer hold at least `dst_sz` bytes.
Then `read_bitstream(dst, dst_sz)` returns `4 * (min S dst_sz / 4)`; for every
word index `j` below `min S dst_sz / 4` and `c < 4`, the destination byte
`4 * j + c` is the source byte `_offset + 4 * j + 3 - c`; the length of the
destination and its bytes from the returned count on are as before. Reading
the result once more in the swapped format gives back the payload bytes. -/
theorem read_bitstream_swaps_words (b : Bitstream) (dst : List Nat) (dst_sz : Nat)
    (hfmt : b._format = Format.SWAP_NEEDED)
    (hsrc : b._offset + b._bitstream_size ≤ b._rom.length)
    (hdst : dst_sz ≤ dst.length)
    (hbytes : ∀ x ∈ b._rom, x < 2 ^ 8) :
    ∃ d, b.read_bitstream dst dst_sz =
        Outcome.ok (4 * (min b._bitstream_size dst_sz / 4), d) ∧
      d.length = dst.length ∧
      (∀ j c, j < min b._bitstream_size dst_sz / 4 → c < 4 →
        d[4 * j + c]? = b._rom[b._offset + 4 * j + 3 - c]?) ∧
      (∀ i, 4 * (min b._bitstream_size dst_sz / 4) ≤ i → d[i]? = dst[i]?) ∧
      ∀ dst2 : List Nat, 4 * (min b._bitstream_size dst_sz / 4) ≤ dst2.length →
        ∃ d2, Bitstream.read_bitstream
            ⟨4 * (min b._bitstream_size dst_sz / 4), Format.SWAP_NEEDED, 0, d⟩ dst2
            (4 * (min b._bitstream_size dst_sz / 4)) =
            Outcome.ok (4 * (min b._bitstream_size dst_sz / 4), d2) ∧
          ∀ i, i < 4 * (min b._bitstream_size dst_sz / 4) →
            d2[i]? = b._rom[b._offset + i]? := by
  have hm1 : min b._bitstream_size dst_sz ≤ b._bitstream_size := Nat.min_le_left _ _
  have hm2 : min b._bitstream_size dst_sz ≤ dst_sz := Nat.min_le_right _ _
  generalize hn : min b._bitstream_size dst_sz / 4 = n at *
  have h4 : 4 * n ≤ min b._bitstream_size dst_sz := by omega
  obtain ⟨d, e, l, hb, hu⟩ := Bitstream.read_swapped_loop_spec b n 0 0 dst (by omega)
    (by omega)
  have hread : b.read_bitstream dst dst_sz = Outcome.ok (4 * n, d) := by
    unfold Bitstream.read_bitstream
    rw [hfmt]
    show b._read_swapped dst (min b._bitstream_size dst_sz) = _
    unfold Bitstream._read_swapped
    rw [hn, e, Nat.zero_add]
  refine ⟨d, hread, l, ?_, ?_, ?_⟩
  · intro j c hj hc
    rw [hb j c (Nat.zero_le _) (by omega) hc]
    exact byte_getD _ _ (by omega) hbytes
  · intro i hi
    exact hu i (Or.inr (by omega))
  · intro dst2 h2
    obtain ⟨d2, e2, -, hb2, -⟩ := Bitstream.read_swapped_loop_spec
      ⟨4 * n, Format.SWAP_NEEDED, 0, d⟩ n 0 0 dst2
      (by show 0 + 4 * (0 + n) ≤ d.length; rw [l]; omega) (by omega)
    refine ⟨d2, ?_, ?_⟩
    · unfold Bitstream.read_bitstream
      show Bitstream._read_swapped _ dst2 (min (4 * n) (4 * n)) = _
      unfold Bitstream._read_swapped
      have hq : min (4 * n) (4 * n) / 4 = n := by
        rw [Nat.min_self]
        omega
      rw [hq, e2, Nat.zero_add]
    · intro i hi
      have hi4 : i = 4 * (i / 4) + i % 4 := by omega
      have hc : i % 4 < 4 := Nat.mod_lt _ (by decide)
      have hj : i / 4 < n := by omega
      have h1 := hb2 (i / 4) (i % 4) (Nat.zero_le _) (by omega) hc
      have h3 := hb (i / 4) (3 - i % 4) (Nat.zero_le _) (by omega) (by omega)
      have hidx : (0 : Nat) + 4 * (i / 4) + 3 - i % 4 = 4 * (i / 4) + (3 - i % 4) := by omega
      have hsrcidx : b._offset + 4 * (i / 4) + 3 - (3 - i % 4) = b._offset + i := by omega
      rw [hsrcidx] at h3
      have key : d2[4 * (i / 4) + i % 4]? = b._rom[b._offset + i]? := by
        rw [h1]
        show some (d.getD (0 + 4 * (i / 4) + 3 - i % 4) 0 % 2 ^ 8) = _
        rw [hidx, List.getD_eq_getElem?_getD, h3, Option.getD_some, Nat.mod_mod]
        exact byte_getD _ _ (by omega) hbytes
      rw [← hi4] at key
      exact key

/-- Witness for C17: the `.bit` file of the scenario, as the constructor
leaves it, read into a buffer of 8 bytes. -/
theorem read_bitstream_swaps_words_witness :
    Bitstream.construct scenario_bit_rom 0 =
      Outcome.ok ⟨8, Format.SWAP_NEEDED, 30, scenario_bit_rom⟩ ∧
    (30 + 8 ≤ scenario_bit_rom.length ∧ 8 ≤ (List.replicate 8 0).length ∧
      ∀ x ∈ scenario_bit_rom, x < 2 ^ 8) ∧
    ∃ d, Bitstream.read_bitstream ⟨8, Format.SWAP_NEEDED, 30, scenario_bit_rom⟩
        (List.replicate 8 0) 8 = Outcome.ok (4 * (min 8 8 / 4), d) ∧
      d.length = (List.replicate 8 0).length ∧
      (∀ j c, j < min 8 8 / 4 → c < 4 →
        d[4 * j + c]? = scenario_bit_rom[30 + 4 * j + 3 - c]?) ∧
      (∀ i, 4 * (min 8 8 / 4) ≤ i → d[i]? = (List.replicate 8 0)[i]?) ∧
      ∀ dst2 : List Nat, 4 * (min 8 8 / 4) ≤ dst2.length →
        ∃ d2, Bitstream.read_bitstream
            ⟨4 * (min 8 8 / 4), Format.SWAP_NEEDED, 0, d⟩ dst2 (4 * (min 8 8 / 4)) =
            Outcome.ok (4 * (min 8 8 / 4), d2) ∧
          ∀ i, i < 4 * (min 8 8 / 4) → d2[i]? = scenario_bit_rom[30 + i]? :=
  ⟨by decide, ⟨by decide, by decide, by decide⟩,
    read_bitstream_swaps_words ⟨8, Format.SWAP_NEEDED, 30, scenario_bit_rom⟩
      (List.replicate 8 0) 8 rfl (by decide) (by decide) (by decide)⟩

/-! ## C19: the reads of the constructor and of `read_bitstream` -/

namespace Bitstream

/-- Once entered, the sync-word search never ends with `INVALID`: it finds a
sync word or reads past the end of the buffer. -/
theorem search_not_invalid (buf : List Nat) :
    ∀ k byte, 0 < k → byte + k = buf.length →
      _detect_format_search buf k byte ≠ Outcome.ok Format.INVALID := by
  intro k
  induction k with
  | zero => intro byte h; omega
  | succ k ih =>
    intro byte _ hlen
    unfold _detect_format_search
    by_cases hin : byte + 3 < buf.length
    · rw [read_u32_in buf byte hin]
      simp only [Outcome.bind]
      split
      · intro h; cases h
      · split
        · intro h; cases h
        · exact ih (byte + 1) (by omega) (by omega)
    · rw [read_u32_out buf byte (by omega)]
      intro h
      cases h

theorem getD_replicate_ff (n i : Nat) (h : i < n) : (List.replicate n 0xff).getD i 0 = 0xff := by
  simp [List.getD_eq_getElem?_getD, List.getElem?_replicate, h]

theorem read_u32_ff (n i : Nat) (h : i + 3 < n) :
    read_u32 (List.replicate n 0xff) i = Outcome.ok 0xffffffff := by
  rw [read_u32_in _ _ (by rw [List.length_replicate]; exact h),
    getD_replicate_ff n i (by omega), getD_replicate_ff n (i + 1) (by omega),
    getD_replicate_ff n (i + 2) (by omega), getD_replicate_ff n (i + 3) h]
  rfl

theorem search_ff (n : Nat) :
    ∀ k byte, 0 < k → byte + k = n →
      _detect_format_search (List.replicate n 0xff) k byte = Outcome.out_of_bounds := by
  intro k
  induction k with
  | zero => intro byte h; omega
  | succ k ih =>
    intro byte _ hlen
    unfold _detect_format_search
    by_cases hin : byte + 3 < n
    · rw [read_u32_ff n byte hin]
      simp only [Outcome.bind]
      rw [if_neg (by decide), if_neg (by decide)]
      exact ih (byte + 1) (by omega) (by omega)
    · rw [read_u32_out _ byte (by rw [List.length_replicate]; omega)]
      rfl

end Bitstream

/-- C19, failing inputs. The sync-word search of `_detect_format` reads a
4-byte word at every `byte < buf_sz`: once entered it never ends with
`INVALID`, it finds a sync word or reads past the end of the ROM. For every
size `n ≥ 4` and every `max_size` the ROM of `n` bytes `0xff` makes the
constructor read out of bounds; the ROM `ff ff ff ff` is the smallest. And
`read_bitstream` trusts the size field of a `.bit` header: the ROM
`scenario_bit_rom_long` of 38 bytes announces 4096 bytes, the constructor
accepts it, and `read_bitstream` into a buffer of 16 bytes reads out of
bounds. -/
theorem sync_search_reads_past_end :
    (∀ (buf : List Nat) (offset : Nat), offset < buf.length →
      Bitstream._detect_format_search buf (buf.length - offset) offset ≠
        Outcome.ok Format.INVALID) ∧
    (∀ n max_size : Nat, 4 ≤ n →
      Bitstream.construct (List.replicate n 0xff) max_size = Outcome.out_of_bounds) ∧
    Bitstream.construct [0xff, 0xff, 0xff, 0xff] 0 = Outcome.out_of_bounds ∧
    Bitstream.construct scenario_bit_rom_long 0 =
      Outcome.ok ⟨4096, Format.SWAP_NEEDED, 30, scenario_bit_rom_long⟩ ∧
    Bitstream.read_bitstream ⟨4096, Format.SWAP_NEEDED, 30, scenario_bit_rom_long⟩
      (List.replicate 16 0) 16 = Outcome.out_of_bounds := by
  refine ⟨?_, ?_, by decide, by decide, by decide⟩
  · intro buf offset h
    exact Bitstream.search_not_invalid buf _ offset (by omega) (by omega)
  · intro n max_size hn
    unfold Bitstream.construct Bitstream._detect_format
    rw [Bitstream.read_u32_ff n 0 (by omega)]
    simp only [Outcome.bind]
    rw [if_neg (by decide), if_pos (by decide), List.length_replicate,
      Bitstream.search_ff n (n - 0) 0 (by omega) (by omega)]

end Fpga
